import Mathlib

set_option autoImplicit false

/-!
Verification of the `aarc` repository (atomic, lock-free shared pointers with
deferred safe memory reclamation) against its natural-language specification.

The definitions below are shallow embeddings of the Rust source:
* `Aarc.StickyCounter` embeds `src/utils/sticky_counter.rs`,
* `Aarc.Atomics` embeds the cell operations of `src/atomics.rs`,
* `Aarc.StdReclaimer` embeds `src/smr/standard_reclaimer.rs` sequentially,
* `Aarc.Statics` embeds the `retire` fallback of `src/statics.rs`,
* `Aarc.Conc` gives an interleaved small-step semantics of the reclaimer.

Machine integers are `Nat` with explicit reduction modulo `2 ^ 64` where the
source wraps; raw pointers are `Nat` with `0` as the null pointer.
-/

namespace Aarc

instance {α β : Type} [DecidableEq α] [DecidableEq β] : DecidableEq (Except α β) :=
  fun a b =>
  match a, b with
  | .ok x, .ok y =>
    if h : x = y then .isTrue (by rw [h]) else .isFalse (fun hh => by cases hh; exact h rfl)
  | .error x, .error y =>
    if h : x = y then .isTrue (by rw [h]) else .isFalse (fun hh => by cases hh; exact h rfl)
  | .ok _, .error _ => .isFalse (fun h => by cases h)
  | .error _, .ok _ => .isFalse (fun h => by cases h)

namespace StickyCounter

/-- Word size of `usize` (the counter is an `AtomicUsize`). -/
def W : Nat := 2 ^ 64

/-- `const ZERO_BIT: usize = 1 << (usize::BITS - 1)`. -/
def ZERO_BIT : Nat := 2 ^ 63

/-- `fn is_zero(val: usize) -> bool { (val & Self::ZERO_BIT) != 0 }` -/
def isZero (val : Nat) : Bool := val &&& ZERO_BIT != 0

/-- `fetch_add(1)`: returns the previous value and the new stored value. -/
def fetchAdd (v : Nat) : Nat × Nat := (v, (v + 1) % W)

/-- `fetch_sub(1)`: returns the previous value and the new stored value. -/
def fetchSub (v : Nat) : Nat × Nat := (v, (v + (W - 1)) % W)

/-- `compare_exchange(0, ZERO_BIT)`: returns (succeeded, value seen) and the
new stored value.  On success the value seen is the previous value `0`; on
failure it is the current value (matching `unwrap_or_else(|x| x)` call sites). -/
def casSeal (v : Nat) : (Bool × Nat) × Nat :=
  if v = 0 then ((true, 0), ZERO_BIT) else ((false, v), v)

/-- `StickyCounter::try_increment`, executed atomically (sequential run of its
two atomic accesses).  `Except Unit Nat` stands for `Result<usize, ()>`. -/
def tryIncrement (v : Nat) : Except Unit Nat × Nat :=
  let (before, v1) := fetchAdd v
  if isZero before then
    let (_, v2) := fetchSub v1
    (.error (), v2)
  else if before = 0 then (.ok 1, v1)
  else (.ok before, v1)

/-- `StickyCounter::decrement`, executed atomically. -/
def decrement (v : Nat) : Nat × Nat :=
  let (before, v1) := fetchSub v
  if before = 1 then
    let ((ok, seen), v2) := casSeal v1
    if ok then (1, v2)
    else (if isZero seen then 0 else seen + 1, v2)
  else (before, v1)

/-- `StickyCounter::load`, executed atomically. -/
def load (v : Nat) : Nat × Nat :=
  if v = 0 then
    let ((_, seen), v2) := casSeal v
    (if isZero seen then 0 else seen, v2)
  else
    (if isZero v then 0 else v, v)

/-- The operations a user of the counter can invoke. -/
inductive Op
  | tryInc
  | dec
  | doLoad
deriving DecidableEq

/-- The result an operation reports. -/
inductive Res
  | inc (r : Except Unit Nat)
  | dec (n : Nat)
  | load (n : Nat)

/-- Dispatch one operation on the counter. -/
def stepOp : Op → Nat → Res × Nat
  | .tryInc, v => let (r, v') := tryIncrement v; (.inc r, v')
  | .dec, v => let (r, v') := decrement v; (.dec r, v')
  | .doLoad, v => let (r, v') := load v; (.load r, v')

/-- Run a sequence of operations, collecting the reported results. -/
def runOps : List Op → Nat → List Res × Nat
  | [], v => ([], v)
  | op :: ops, v =>
    let (r, v') := stepOp op v
    let (rs, v'') := runOps ops v'
    (r :: rs, v'')

/-- The counter word is sealed: the zero bit is set (and the word is in range). -/
def Sealed (v : Nat) : Prop := isZero v = true ∧ v < W

theorem W_pos : 0 < W := Nat.two_pow_pos 64

theorem incDec_roundtrip {v : Nat} (h : v < W) : ((v + 1) % W + (W - 1)) % W = v := by
  rcases Nat.lt_or_ge (v + 1) W with h1 | h1
  · rw [Nat.mod_eq_of_lt h1]
    have hW : 0 < W := W_pos
    have : v + 1 + (W - 1) = v + W := by omega
    rw [this, Nat.add_mod_right, Nat.mod_eq_of_lt h]
  · have hv : v + 1 = W := by omega
    have hW : 0 < W := W_pos
    have : (v + 1) % W = 0 := by rw [hv, Nat.mod_self]
    rw [this]
    have h2 : W - 1 < W := by omega
    rw [Nat.zero_add, Nat.mod_eq_of_lt h2]
    omega

theorem isZero_ne_zero {v : Nat} (h : isZero v = true) : v ≠ 0 := by
  intro h0
  subst h0
  simp [isZero, Nat.zero_and] at h

theorem tryIncrement_sealed {v : Nat} (h : Sealed v) : tryIncrement v = (.error (), v) := by
  obtain ⟨hz, hlt⟩ := h
  simp [tryIncrement, fetchAdd, fetchSub, hz, incDec_roundtrip hlt]

theorem load_sealed {v : Nat} (h : Sealed v) : load v = (0, v) := by
  obtain ⟨hz, hlt⟩ := h
  have hne := isZero_ne_zero hz
  simp [load, hne, hz]

theorem load_zero_sealed {v : Nat} (hlt : v < W) (h : (load v).1 = 0) :
    Sealed (load v).2 := by
  by_cases h0 : v = 0
  · subst h0
    refine ⟨by decide, by decide⟩
  · by_cases hz : isZero v = true
    · have hl : load v = (0, v) := by simp [load, h0, hz]
      rw [hl]
      exact ⟨hz, hlt⟩
    · exfalso
      have hl : (load v).1 = v := by simp [load, h0, hz]
      rw [hl] at h
      exact h0 h

theorem runOps_sealed : ∀ (ops : List Op) (v : Nat), Sealed v → Op.dec ∉ ops →
    (∀ r ∈ (runOps ops v).1,
      (∀ e, r = Res.inc e → e = .error ()) ∧ (∀ n, r = Res.load n → n = 0)) ∧
    Sealed (runOps ops v).2 := by
  intro ops
  induction ops with
  | nil => intro v hv _; exact ⟨by intro r hr; simp [runOps] at hr, by simpa [runOps] using hv⟩
  | cons op ops ih =>
    intro v hv hnd
    have hop : op ≠ .dec := by intro h; exact hnd (by simp [h])
    have hnd' : Op.dec ∉ ops := by intro h; exact hnd (List.mem_cons_of_mem _ h)
    have hstep : stepOp op v = (match op with
        | .tryInc => (Res.inc (.error ()), v)
        | .dec => (Res.dec 0, v)
        | .doLoad => (Res.load 0, v)) := by
      cases op with
      | tryInc => simp [stepOp, tryIncrement_sealed hv]
      | dec => exact absurd rfl hop
      | doLoad => simp [stepOp, load_sealed hv]
    cases op with
    | tryInc =>
      obtain ⟨ih1, ih2⟩ := ih v hv hnd'
      constructor
      · intro r hr
        simp only [runOps, hstep] at hr
        rcases List.mem_cons.1 hr with h | h
        · subst h
          refine ⟨fun e he => ?_, fun n hn => ?_⟩
          · cases he; rfl
          · cases hn
        · exact ih1 r h
      · simpa [runOps, hstep] using ih2
    | dec => exact absurd rfl hop
    | doLoad =>
      obtain ⟨ih1, ih2⟩ := ih v hv hnd'
      constructor
      · intro r hr
        simp only [runOps, hstep] at hr
        rcases List.mem_cons.1 hr with h | h
        · subst h
          refine ⟨fun e he => ?_, fun n hn => ?_⟩
          · cases he
          · cases hn; rfl
        · exact ih1 r h
      · simpa [runOps, hstep] using ih2

/-- C3: the strong counter is sticky at zero.  For every sequence of
operations (honoring the module's stated assumption that `fetch_sub` is never
called after the counter has hit zero, i.e. no `decrement` occurs once the
zero flag is sealed), once `load()` has returned 0 every subsequent
`try_increment()` returns failure and every subsequent `load()` returns 0. -/
theorem c3_sticky_zero (v : Nat) (ops : List Op) (hlt : v < W)
    (h0 : (load v).1 = 0) (hnd : Op.dec ∉ ops) :
    ∀ r ∈ (runOps ops (load v).2).1,
      (∀ e, r = Res.inc e → e = .error ()) ∧ (∀ n, r = Res.load n → n = 0) :=
  (runOps_sealed ops (load v).2 (load_zero_sealed hlt h0) hnd).1

theorem c3_sticky_zero_witness :
    ZERO_BIT < W ∧ (load ZERO_BIT).1 = 0 ∧ Op.dec ∉ [Op.tryInc, Op.doLoad] ∧
    ∀ r ∈ (runOps [Op.tryInc, Op.doLoad] (load ZERO_BIT).2).1,
      (∀ e, r = Res.inc e → e = .error ()) ∧ (∀ n, r = Res.load n → n = 0) :=
  ⟨by decide, by decide, by decide,
    c3_sticky_zero ZERO_BIT [Op.tryInc, Op.doLoad] (by decide) (by decide) (by decide)⟩

/-! ### The decrement / try_increment race (C4)

One thread runs `decrement()` on a counter holding 1 while another runs
`try_increment()`.  Each Rust-level atomic access (`fetch_add`, `fetch_sub`,
`compare_exchange`) is one step of the machine; all accesses in the source use
sequentially consistent ordering, so arbitrary interleavings of these atomic
steps model the possible executions. -/

/-- Program counter of the decrementing thread: before its `fetch_sub`,
before its `compare_exchange(0, ZERO_BIT)`, or finished with a return value. -/
inductive DPc
  | start
  | cas
  | done (ret : Nat)
deriving DecidableEq

/-- Program counter of the incrementing thread: before its `fetch_add`,
before its restoring `fetch_sub`, or finished with a `Result`. -/
inductive IPc
  | start
  | sub
  | done (ret : Except Unit Nat)
deriving DecidableEq

/-- Shared counter word plus both threads' program counters. -/
structure Race where
  v : Nat
  d : DPc
  i : IPc
deriving DecidableEq

/-- One atomic step of the decrementing thread (from `StickyCounter::decrement`). -/
def dStep (s : Race) : Race :=
  match s.d with
  | .start =>
    let (before, v1) := fetchSub s.v
    if before = 1 then { s with v := v1, d := .cas }
    else { s with v := v1, d := .done before }
  | .cas =>
    let ((ok, seen), v2) := casSeal s.v
    if ok then { s with v := v2, d := .done 1 }
    else { s with v := v2, d := .done (if isZero seen then 0 else seen + 1) }
  | .done _ => s

/-- One atomic step of the incrementing thread (from `StickyCounter::try_increment`). -/
def iStep (s : Race) : Race :=
  match s.i with
  | .start =>
    let (before, v1) := fetchAdd s.v
    if isZero before then { s with v := v1, i := .sub }
    else if before = 0 then { s with v := v1, i := .done (.ok 1) }
    else { s with v := v1, i := .done (.ok before) }
  | .sub =>
    let (_, v1) := fetchSub s.v
    { s with v := v1, i := .done (.error ()) }
  | .done _ => s

/-- A scheduler choice: `true` steps the decrementer, `false` the incrementer. -/
def raceStep (b : Bool) (s : Race) : Race := if b then dStep s else iStep s

def raceRun (sched : List Bool) (s : Race) : Race :=
  sched.foldl (fun s b => raceStep b s) s

/-- The counter holds 1 and both threads are about to run. -/
def raceInit : Race := ⟨1, .start, .start⟩

/-- All states reachable from `raceInit` under any interleaving. -/
def raceReach : List Race :=
  [⟨1, .start, .start⟩,
   ⟨0, .cas, .start⟩,
   ⟨2, .start, .done (.ok 1)⟩,
   ⟨ZERO_BIT, .done 1, .start⟩,
   ⟨1, .cas, .done (.ok 1)⟩,
   ⟨1, .done 2, .done (.ok 1)⟩,
   ⟨ZERO_BIT + 1, .done 1, .sub⟩,
   ⟨ZERO_BIT, .done 1, .done (.error ())⟩]

theorem raceReach_closed :
    ∀ s ∈ raceReach, ∀ b, raceStep b s ∈ raceReach := by decide

theorem raceRun_mem :
    ∀ (sched : List Bool) (s : Race), s ∈ raceReach → raceRun sched s ∈ raceReach := by
  intro sched
  induction sched with
  | nil => intro s hs; simpa [raceRun] using hs
  | cons b bs ih =>
    intro s hs
    have h1 : raceStep b s ∈ raceReach := raceReach_closed s hs b
    simpa [raceRun] using ih (raceStep b s) h1

/-- C4: in every interleaving of one `decrement()` on a counter holding 1 with
one concurrent `try_increment()`, exactly one of two outcomes occurs: the
increment succeeds reporting prior logical value 1 and the decrement does not
take the counter to zero (it reports 2 and the zero flag is not set), or the
increment fails and the counter seals at zero; there is no interleaving where
the increment succeeds and the counter nevertheless seals at zero. -/
theorem c4_decrement_increment_race (sched : List Bool) (retD : Nat)
    (retI : Except Unit Nat)
    (hd : (raceRun sched raceInit).d = .done retD)
    (hi : (raceRun sched raceInit).i = .done retI) :
    ((retI = .ok 1 ∧ retD = 2 ∧ isZero (raceRun sched raceInit).v = false ∧
        (load (raceRun sched raceInit).v).1 ≠ 0) ∨
      (retI = .error () ∧ retD = 1 ∧ isZero (raceRun sched raceInit).v = true ∧
        (load (raceRun sched raceInit).v).1 = 0)) ∧
    ¬(∃ k, retI = .ok k ∧ isZero (raceRun sched raceInit).v = true) := by
  have hmem := raceRun_mem sched raceInit (by decide)
  revert hd hi
  generalize raceRun sched raceInit = s at hmem ⊢
  fin_cases hmem
  · intro hd _; cases hd
  · intro hd _; cases hd
  · intro hd _; cases hd
  · intro _ hi; cases hi
  · intro hd _; cases hd
  · intro hd hi
    injection hd with hd'
    injection hi with hi'
    subst hd'
    subst hi'
    refine ⟨Or.inl ⟨rfl, rfl, by decide, by decide⟩, ?_⟩
    rintro ⟨k, _, hk⟩
    exact absurd hk (by decide)
  · intro _ hi; cases hi
  · intro hd hi
    injection hd with hd'
    injection hi with hi'
    subst hd'
    subst hi'
    refine ⟨Or.inr ⟨rfl, rfl, by decide, by decide⟩, ?_⟩
    rintro ⟨k, hk, _⟩
    cases hk

theorem c4_decrement_increment_race_witness :
    (raceRun [true, true, false, false] raceInit).d = .done 1 ∧
    (raceRun [true, true, false, false] raceInit).i = .done (.error ()) ∧
    (((Except.error () : Except Unit Nat) = .ok 1 ∧ (1 : Nat) = 2 ∧
        isZero (raceRun [true, true, false, false] raceInit).v = false ∧
        (load (raceRun [true, true, false, false] raceInit).v).1 ≠ 0) ∨
      ((Except.error () : Except Unit Nat) = .error () ∧ (1 : Nat) = 1 ∧
        isZero (raceRun [true, true, false, false] raceInit).v = true ∧
        (load (raceRun [true, true, false, false] raceInit).v).1 = 0)) ∧
    ¬(∃ k, (Except.error () : Except Unit Nat) = .ok k ∧
        isZero (raceRun [true, true, false, false] raceInit).v = true) :=
  ⟨by decide, by decide,
    c4_decrement_increment_race [true, true, false, false] 1 (.error ())
      (by decide) (by decide)⟩

end StickyCounter

/-!
## Atomic cells (src/atomics.rs)

`AtomicArc<T>` and `AtomicWeak<T>` wrap an `AtomicPtr<T>`.  A cell is embedded
as its stored pointer (a `Nat`, `0` for null).  Each operation returns its
result, the new stored pointer, and the ordered list of side effects it
performs on reference counts, on the cell word, and on the reclaimer.
-/

namespace Atomics

/-- Smart-pointer kinds a caller can request (`Arc`, `Weak`, `Snapshot`). -/
inductive HKind
  | arc
  | weak
  | snapshot
deriving DecidableEq

/-- Side effects of a cell operation, in program order:
count adjustments, the atomic write of the cell word (`swap` or a successful
`compare_exchange`), snapshot protection, and retirements handed to `R::retire`
with the strong (`Arc`) or weak (`Weak`) drop function from `get_drop_fn`. -/
inductive Eff
  | incStrong (p : Nat)
  | incWeak (p : Nat)
  | protectPtr (p : Nat)
  | write (p : Nat)
  | retireStrong (p : Nat)
  | retireWeak (p : Nat)
deriving DecidableEq

/-- The count/protection effect of `V::clone_from_raw(p)` for each kind:
`Arc::clone_from_raw` bumps the strong count, `Weak::clone_from_raw` the weak
count, and `Snapshot::clone_from_raw` registers reclaimer protection. -/
def cloneFromRaw : HKind → Nat → Eff
  | .arc, p => .incStrong p
  | .weak, p => .incWeak p
  | .snapshot, p => .protectPtr p

/-- Result of a `compare_exchange`: `Ok(())` or `Err` carrying the observed
pointer packaged as a handle (`None` when the observation was null). -/
structure CasOut where
  result : Except (Option (HKind × Nat)) Unit
  stored : Nat
  effs : List Eff
deriving DecidableEq

/-- `AtomicArc::compare_exchange(current, new)` with requested failure handle
kind `vKind`, on a cell storing `stored`; `c` and `n` are the raw pointers of
`current` and `new`.  Mirrors the source: on CAS success (`before = stored`),
only when `new` is non-null and differs from `before` is `new`'s strong count
incremented and `to_retire` set to `before`; the retirement (with the strong
drop function) is issued after the guard is dropped iff `to_retire` is
non-null.  On CAS failure the error is `None` for a null observation and
otherwise the observed pointer cloned as `vKind`. -/
def arcCompareExchange (vKind : HKind) (stored c n : Nat) : CasOut :=
  if stored = c then
    let before := stored
    if n ≠ 0 ∧ n ≠ before then
      { result := .ok (), stored := n,
        effs := [.incStrong n, .write n, .retireStrong before] }
    else
      { result := .ok (), stored := n, effs := [.write n] }
  else
    if stored = 0 then
      { result := .error none, stored := stored, effs := [] }
    else
      { result := .error (some (vKind, stored)), stored := stored,
        effs := [cloneFromRaw vKind stored] }

/-- `AtomicWeak::compare_exchange(current, new)`: the failure payload is always
a `Weak`.  (On success the source clones a `Weak` from `before` — the displaced
pointer — and retires `before` with the weak drop function.) -/
def weakCompareExchange (stored c n : Nat) : CasOut :=
  if stored = c then
    let before := stored
    if n ≠ 0 ∧ n ≠ before then
      { result := .ok (), stored := n,
        effs := [.incWeak before, .write n, .retireWeak before] }
    else
      { result := .ok (), stored := n, effs := [.write n] }
  else
    if stored = 0 then
      { result := .error none, stored := stored, effs := [] }
    else
      { result := .error (some (.weak, stored)), stored := stored,
        effs := [cloneFromRaw .weak stored] }

/-- `AtomicArc::load::<V>()`: under the protection guard, a null pointer gives
`None`, otherwise the pointer is cloned as the requested kind. -/
def arcLoad (vKind : HKind) (stored : Nat) : Option (HKind × Nat) × List Eff :=
  if stored = 0 then (none, [])
  else (some (vKind, stored), [cloneFromRaw vKind stored])

/-- `AtomicArc::store(new)`: increment `new`'s strong count when non-null,
swap it into the cell, and retire the displaced pointer (strong drop) when
that pointer is non-null. -/
def arcStore (stored n : Nat) : Nat × List Eff :=
  let pre := if n ≠ 0 then [Eff.incStrong n] else []
  let before := stored
  (n, pre ++ [Eff.write n] ++ (if before ≠ 0 then [Eff.retireStrong before] else []))

/-- The count-relevant effects (count adjustments and retirements), keeping
their order; `write` and `protectPtr` do not touch counts. -/
def countEffs (l : List Eff) : List Eff :=
  l.filter fun e =>
    match e with
    | .incStrong _ => true
    | .incWeak _ => true
    | .retireStrong _ => true
    | .retireWeak _ => true
    | .write _ => false
    | .protectPtr _ => false

/-- C1 (failing input): on a successful `AtomicArc::compare_exchange` whose
`new` is null and whose displaced prior pointer is non-null, the source sets
`to_retire` only inside the `!n.is_null()` branch, so the displaced pointer is
never retired: its cell-owned strong count leaks.  At the concrete input
(cell stores 5, `current` = 5, `new` = null) the call returns `Ok(())`, stores
null, and performs no retirement — contradicting the claim that the displaced
pointer is retired also when `new` is null. -/
theorem c1_cas_success_null_new_no_retire :
    arcCompareExchange .arc 5 5 0 =
      { result := .ok (), stored := 0, effs := [.write 0] } ∧
    Eff.retireStrong 5 ∉ (arcCompareExchange .arc 5 5 0).effs := by
  constructor
  · rfl
  · decide

/-- C7: `AtomicArc::store(new)` with non-null `new` increments `new`'s strong
count before the swap and retires the displaced prior pointer iff it was
non-null; on a null cell, `load` returns `None`, `store(null)` performs no
count adjustment, and `compare_exchange` with `current = null` succeeds iff
the stored pointer is null. -/
theorem c7_store_load_null_cell (stored n : Nat) (vKind : HKind) :
    (n ≠ 0 → List.Sublist [Eff.incStrong n, Eff.write n] (arcStore stored n).2) ∧
    (Eff.retireStrong stored ∈ (arcStore stored n).2 ↔ stored ≠ 0) ∧
    arcLoad vKind 0 = (none, []) ∧
    countEffs (arcStore 0 0).2 = [] ∧
    ((arcCompareExchange vKind stored 0 n).result = .ok () ↔ stored = 0) := by
  refine ⟨?_, ?_, ?_, ?_, ?_⟩
  · intro hn
    by_cases hs : stored = 0 <;>
      simp [arcStore, hn, hs, List.Sublist.cons_cons, List.sublist_append_left]
  · constructor
    · intro hmem
      by_cases hs : stored = 0
      · subst hs
        by_cases hn : n = 0 <;> simp [arcStore, hn] at hmem
      · exact hs
    · intro hs
      by_cases hn : n = 0 <;> simp [arcStore, hn, hs]
  · rfl
  · rfl
  · constructor
    · intro hok
      by_cases hs : stored = 0
      · exact hs
      · have herr : (arcCompareExchange vKind stored 0 n).result =
            .error (some (vKind, stored)) := by simp [arcCompareExchange, hs]
        rw [herr] at hok
        cases hok
    · intro hs
      subst hs
      by_cases hn : n = 0
      · simp [arcCompareExchange, hn]
      · simp [arcCompareExchange, hn]

theorem c7_store_load_null_cell_witness :
    (3 : Nat) ≠ 0 ∧
    List.Sublist [Eff.incStrong 3, Eff.write 3] (arcStore 5 3).2 ∧
    (Eff.retireStrong 5 ∈ (arcStore 5 3).2 ↔ (5 : Nat) ≠ 0) ∧
    arcLoad .snapshot 0 = (none, []) ∧
    countEffs (arcStore 0 0).2 = [] ∧
    ((arcCompareExchange .snapshot 5 0 3).result = .ok () ↔ (5 : Nat) = 0) := by
  have h := c7_store_load_null_cell 5 3 .snapshot
  exact ⟨by decide, h.1 (by decide), h.2.1, h.2.2.1, h.2.2.2.1, h.2.2.2.2⟩

/-- C8: a failed `compare_exchange` returns an error carrying exactly the
pointer observed by the failed CAS (the cell's stored pointer, which the
operation leaves unchanged), packaged as the requested handle kind for
`AtomicArc` and always as a `Weak` for `AtomicWeak`; a null observation is
surfaced as `None`, the same empty variant as for a null cell. -/
theorem c8_cas_failure_observed_pointer (vKind : HKind) (stored c n : Nat)
    (h : stored ≠ c) :
    (arcCompareExchange vKind stored c n).result =
      .error (if stored = 0 then none else some (vKind, stored)) ∧
    (arcCompareExchange vKind stored c n).stored = stored ∧
    (weakCompareExchange stored c n).result =
      .error (if stored = 0 then none else some (.weak, stored)) ∧
    (weakCompareExchange stored c n).stored = stored := by
  by_cases hs : stored = 0
  · subst hs
    simp [arcCompareExchange, weakCompareExchange, h]
  · simp [arcCompareExchange, weakCompareExchange, h, hs]

theorem c8_cas_failure_observed_pointer_witness :
    (7 : Nat) ≠ 3 ∧
    (arcCompareExchange .snapshot 7 3 9).result = .error (some (.snapshot, 7)) ∧
    (arcCompareExchange .snapshot 7 3 9).stored = 7 ∧
    (weakCompareExchange 7 3 9).result = .error (some (.weak, 7)) ∧
    (weakCompareExchange 7 3 9).stored = 7 := by
  have h := c8_cas_failure_observed_pointer .snapshot 7 3 9 (by decide)
  exact ⟨by decide, by simpa using h.1, h.2.1, by simpa using h.2.2.1, h.2.2.2⟩

end Atomics

/-!
## The standard reclaimer (src/smr/standard_reclaimer.rs), sequential model

State-passing embedding of `StandardReclaimer`.  Retired pairs
`(ptr, Box<dyn Fn(*mut u8)>)` are embedded as `(Ptr × Nat)` where the `Nat` is
a retirement identifier standing for the boxed closure; running a closure
appends the pair to the `events` log.  A published batch lives in `published`
as `(id, data, refcount)`, embedding the `UnsafeArc<Batch>` and its reference
count; `CollectionList`s are embedded as the list of batch ids held by the
chain of `CollectionNode`s starting at the head (each primary-list node's
`check_on_drop` is its owning slot, each conflict-list node's is null, exactly
as the two `insert` call sites set them).
-/

namespace StdReclaimer

abbrev Ptr := Nat
abbrev BatchId := Nat

def SLOTS_PER_NODE : Nat := 32

/-- `Batch { functions, lookup }` plus the capacity of the `functions` vector
(the source tests `functions.len() < functions.capacity()`). -/
structure Batch where
  functions : List (Ptr × Nat)
  lookup : List Ptr
  cap : Nat
deriving DecidableEq

/-- `Batch::default()`: empty vector (capacity 0) and empty set. -/
def emptyBatch : Batch := ⟨[], [], 0⟩

/-- Capacity of a Rust vector after one `push`: unchanged while `len < cap`,
otherwise grown by amortized doubling with minimum non-zero capacity 4 (the
`RawVec` rule for the 24-byte element type stored here). -/
def vecPushCap (len cap : Nat) : Nat := if len < cap then cap else max (2 * cap) 4

/-- `HashSet::insert`. -/
def setInsert (p : Ptr) (l : List Ptr) : List Ptr := if p ∈ l then l else p :: l

/-- `SnapshotPtr { ptr, conflicts }`. -/
structure SnapshotPtr where
  ptr : Ptr
  conflicts : List BatchId
deriving DecidableEq

/-- `Slot { primary_list, batch, snapshots, is_in_critical_section, is_claimed }`. -/
structure Slot where
  primaryList : List BatchId
  batch : Batch
  snapshots : List SnapshotPtr
  isInCriticalSection : Bool
  isClaimed : Bool
deriving DecidableEq

def defaultSlot : Slot := ⟨[], emptyBatch, [], false, false⟩

/-- Reclaimer state: the slot table, its `nodes_count`, the heap of published
batches with their reference counts, a fresh-id counter, and the log of drop
closures that have been run (in execution order). -/
structure RState where
  slots : List Slot
  nodesCount : Nat
  published : List (BatchId × Batch × Nat)
  nextId : BatchId
  events : List (Ptr × Nat)
deriving DecidableEq

/-- Look a published batch up by id. -/
def findBatch : List (BatchId × Batch × Nat) → BatchId → Option (Batch × Nat)
  | [], _ => none
  | e :: rest, id => if e.1 = id then some e.2 else findBatch rest id

/-- `UnsafeArc::clone` on a published batch: bump its reference count by `k`. -/
def bumpRefBy (pub : List (BatchId × Batch × Nat)) (id : BatchId) (k : Nat) :
    List (BatchId × Batch × Nat) :=
  pub.map fun e => if e.1 = id then (e.1, e.2.1, e.2.2 + k) else e

/-- The `UnsafeArc` count of batch `id` reached zero: the entry is removed
and `Batch::drop` runs every `(ptr, f)` pair, which the model records by
appending them to `events`. -/
def removeBatch (st : RState) (id : BatchId) (b : Batch) : RState :=
  { st with published := st.published.filter fun e => e.1 != id,
            events := st.events ++ b.functions }

/-- Decrement the `UnsafeArc` count of batch `id` (count still positive). -/
def decBatchCount (st : RState) (id : BatchId) : RState :=
  { st with published :=
      st.published.map fun e => if e.1 = id then (e.1, e.2.1, e.2.2 - 1) else e }

/-- Release one reference on a published batch (`UnsafeArc` drop). -/
def decRefRun (st : RState) (id : BatchId) : RState :=
  match findBatch st.published id with
  | none => st
  | some (b, rc) => if rc ≤ 1 then removeBatch st id b else decBatchCount st id

/-- Does this snapshot entry conflict with a batch having membership set
`lkp`?  From the source: `!p.is_null() && lookup.contains(&p)`. -/
def matchesB (lkp : List Ptr) (e : SnapshotPtr) : Bool :=
  (e.ptr != 0) && lkp.contains e.ptr

/-- The snapshot-scan loop body: push batch `id` onto the entry's conflict
list when the entry's observed pointer conflicts with membership set `lkp`. -/
def snapConflictPush (id : BatchId) (lkp : List Ptr) (e : SnapshotPtr) : SnapshotPtr :=
  if matchesB lkp e then { e with conflicts := id :: e.conflicts } else e

/-- Push batch `id` onto the conflict list of every matching snapshot entry of
slot `i`, bumping the batch's reference count once per insertion.  This is the
snapshot scan shared by `StandardReclaimer::retire` (for a slot not in a
critical section) and `CollectionNode::drop` (via `check_on_drop`). -/
def conflictInsertions (st : RState) (i : Nat) (id : BatchId) : RState :=
  match findBatch st.published id with
  | none => st
  | some (b, _) =>
    let slot := st.slots.getD i defaultSlot
    let hits := slot.snapshots.countP (matchesB b.lookup)
    let snaps := slot.snapshots.map (snapConflictPush id b.lookup)
    { st with slots := st.slots.set i { slot with snapshots := snaps },
              published := bumpRefBy st.published id hits }

/-- Drop one `CollectionNode` of slot `i`'s primary list: its `check_on_drop`
is the owning slot, so the drop body re-checks that slot's snapshots before
the node's field drop releases the batch reference. -/
def dropPrimaryNode (st : RState) (i : Nat) (id : BatchId) : RState :=
  decRefRun (conflictInsertions st i id) id

/-- Drop a detached primary-list chain, head first (each node owns its tail). -/
def processPrimaryChain (st : RState) (i : Nat) : List BatchId → RState
  | [] => st
  | id :: rest => processPrimaryChain (dropPrimaryNode st i id) i rest

/-- Drop a detached conflict-list chain (`check_on_drop` is null: no re-check). -/
def processConflictChain (st : RState) : List BatchId → RState
  | [] => st
  | id :: rest => processConflictChain (decRefRun st id) rest

/-- `CollectionList::detach_head` on slot `i`'s primary list plus the ensuing
recursive drop of the detached chain. -/
def detachPrimary (st : RState) (i : Nat) : RState :=
  let slot := st.slots.getD i defaultSlot
  let st1 := { st with slots := st.slots.set i { slot with primaryList := [] } }
  processPrimaryChain st1 i slot.primaryList

/-- `Protect::begin_critical_section`: store `true` into the slot's flag. -/
def beginCriticalSection (st : RState) (i : Nat) : RState :=
  let slot := st.slots.getD i defaultSlot
  { st with slots := st.slots.set i { slot with isInCriticalSection := true } }

/-- `Protect::end_critical_section`: store `false` into the slot's flag, then
detach and drop the primary list head. -/
def endCriticalSection (st : RState) (i : Nat) : RState :=
  let slot := st.slots.getD i defaultSlot
  let st1 := { st with slots := st.slots.set i { slot with isInCriticalSection := false } }
  detachPrimary st1 i

/-- The `for slot in self.slots.iter(SeqCst)` loop of `retire`: a slot in a
critical section gets the published batch pushed onto its primary list (one
`UnsafeArc` clone), any other slot has its snapshots checked immediately. -/
def publishToSlots (st : RState) (id : BatchId) : List Nat → RState
  | [] => st
  | j :: rest =>
    let slot := st.slots.getD j defaultSlot
    let st' :=
      if slot.isInCriticalSection then
        { st with
          slots := st.slots.set j { slot with primaryList := id :: slot.primaryList },
          published := bumpRefBy st.published id 1 }
      else
        conflictInsertions st j id
    publishToSlots st' id rest

/-- `StandardReclaimer::retire(ptr, f)` invoked from the thread owning slot
`i`, with `rid` naming this retirement's closure.  Push onto the local batch;
if it is still below capacity, return; otherwise publish the batch (fresh
share count 1), reset the local batch with capacity
`nodes_count * SLOTS_PER_NODE`, walk every slot, and finally drop the local
handle on the published batch. -/
def retire (st : RState) (i : Nat) (p : Ptr) (rid : Nat) : RState :=
  let slot := st.slots.getD i defaultSlot
  let fns := slot.batch.functions ++ [(p, rid)]
  let lkp := setInsert p slot.batch.lookup
  let cap := vecPushCap slot.batch.functions.length slot.batch.cap
  if fns.length < cap then
    { st with slots := st.slots.set i { slot with batch := ⟨fns, lkp, cap⟩ } }
  else
    let nextCap := st.nodesCount * SLOTS_PER_NODE
    let id := st.nextId
    let st1 : RState :=
      { st with
        slots := st.slots.set i { slot with batch := ⟨[], [], nextCap⟩ },
        published := (id, ⟨fns, lkp, cap⟩, 1) :: st.published,
        nextId := st.nextId + 1 }
    let st2 := publishToSlots st1 id (List.range st1.slots.length)
    decRefRun st2 id

/-- Detach and drop the conflict list of snapshot entry `k` of slot `i`
(the entry's pointer is left as is, matching `Drop for StandardReclaimer`). -/
def detachConflictsAt (st : RState) (i k : Nat) : RState :=
  let slot := st.slots.getD i defaultSlot
  let e := slot.snapshots.getD k ⟨0, []⟩
  let snaps := slot.snapshots.set k { e with conflicts := [] }
  let st1 := { st with slots := st.slots.set i { slot with snapshots := snaps } }
  processConflictChain st1 e.conflicts

def detachAllConflictsFrom (st : RState) (i : Nat) : List Nat → RState
  | [] => st
  | k :: rest => detachAllConflictsFrom (detachConflictsAt st i k) i rest

/-- One iteration of the cleanup loop in `Drop for StandardReclaimer`:
`drop(slot.batch.take())` (running the local batch's closures),
`slot.primary_list.detach_head()`, then `snapshot_ptr.conflicts.detach_head()`
for every snapshot entry. -/
def dropSlotCleanup (st : RState) (i : Nat) : RState :=
  let slot := st.slots.getD i defaultSlot
  let st1 : RState :=
    { st with slots := st.slots.set i { slot with batch := emptyBatch },
              events := st.events ++ slot.batch.functions }
  let st2 := detachPrimary st1 i
  detachAllConflictsFrom st2 i
    (List.range (st2.slots.getD i defaultSlot).snapshots.length)

def reclaimerDropFrom (st : RState) : List Nat → RState
  | [] => st
  | i :: rest => reclaimerDropFrom (dropSlotCleanup st i) rest

/-- `Drop for StandardReclaimer`: clean up every slot. -/
def reclaimerDrop (st : RState) : RState :=
  reclaimerDropFrom st (List.range st.slots.length)

theorem getD_set_self {α : Type} {l : List α} {i : Nat} {a d : α} (h : i < l.length) :
    (l.set i a).getD i d = a := by
  rw [List.getD_eq_getElem?_getD, List.getElem?_set_self (by simpa using h)]
  rfl

theorem getD_set_of_ne {α : Type} {l : List α} {i j : Nat} {a d : α} (h : j ≠ i) :
    (l.set i a).getD j d = l.getD j d := by
  rw [List.getD_eq_getElem?_getD, List.getElem?_set_ne (by omega),
    ← List.getD_eq_getElem?_getD]

/-- Fields of slot `i` untouched by `conflictInsertions` (it only rewrites the
snapshots of slot `i` and the published counts). -/
theorem conflictInsertions_fields (st : RState) (i : Nat) (id : BatchId) (j : Nat) :
    ((conflictInsertions st i id).slots.getD j defaultSlot).primaryList =
      (st.slots.getD j defaultSlot).primaryList ∧
    ((conflictInsertions st i id).slots.getD j defaultSlot).isInCriticalSection =
      (st.slots.getD j defaultSlot).isInCriticalSection ∧
    ((conflictInsertions st i id).slots.getD j defaultSlot).batch =
      (st.slots.getD j defaultSlot).batch ∧
    (conflictInsertions st i id).slots.length = st.slots.length := by
  cases hfind : findBatch st.published id with
  | none => simp [conflictInsertions, hfind]
  | some brc =>
    obtain ⟨b, rc⟩ := brc
    simp only [conflictInsertions, hfind]
    by_cases hij : j = i
    · subst hij
      by_cases hj : j < st.slots.length
      · rw [getD_set_self hj]
        exact ⟨rfl, rfl, rfl, by rw [List.length_set]⟩
      · rw [List.set_eq_of_length_le (by omega)]
        exact ⟨rfl, rfl, rfl, rfl⟩
    · rw [getD_set_of_ne hij]
      exact ⟨rfl, rfl, rfl, by rw [List.length_set]⟩

/-- `decRefRun` does not touch the slot table. -/
theorem decRefRun_slots (st : RState) (id : BatchId) :
    (decRefRun st id).slots = st.slots := by
  unfold decRefRun
  cases hfind : findBatch st.published id with
  | none => rfl
  | some brc =>
    obtain ⟨b, rc⟩ := brc
    by_cases hrc : rc ≤ 1 <;> simp [hrc, removeBatch, decBatchCount]

theorem processPrimaryChain_fields (i j : Nat) :
    ∀ (chain : List BatchId) (st : RState),
    ((processPrimaryChain st i chain).slots.getD j defaultSlot).primaryList =
      (st.slots.getD j defaultSlot).primaryList ∧
    ((processPrimaryChain st i chain).slots.getD j defaultSlot).isInCriticalSection =
      (st.slots.getD j defaultSlot).isInCriticalSection ∧
    ((processPrimaryChain st i chain).slots.getD j defaultSlot).batch =
      (st.slots.getD j defaultSlot).batch ∧
    (processPrimaryChain st i chain).slots.length = st.slots.length := by
  intro chain
  induction chain with
  | nil => intro st; exact ⟨rfl, rfl, rfl, rfl⟩
  | cons id rest ih =>
    intro st
    obtain ⟨h1, h2, h3, h4⟩ := ih (dropPrimaryNode st i id)
    have hc := conflictInsertions_fields st i id j
    have hd := decRefRun_slots (conflictInsertions st i id) id
    unfold processPrimaryChain
    refine ⟨?_, ?_, ?_, ?_⟩
    · rw [h1]; unfold dropPrimaryNode; rw [hd]; exact hc.1
    · rw [h2]; unfold dropPrimaryNode; rw [hd]; exact hc.2.1
    · rw [h3]; unfold dropPrimaryNode; rw [hd]; exact hc.2.2.1
    · rw [h4]; unfold dropPrimaryNode; rw [hd]; exact hc.2.2.2

/-- Iterated `begin_critical_section` (re-entrant protection attempts). -/
def beginIter (st : RState) (i : Nat) : Nat → RState
  | 0 => st
  | n + 1 => beginIter (beginCriticalSection st i) i n

theorem beginIter_slots (i : Nat) : ∀ (n : Nat) (st : RState),
    (beginIter st i n).slots.length = st.slots.length ∧
    (∀ j, j ≠ i →
      (beginIter st i n).slots.getD j defaultSlot = st.slots.getD j defaultSlot) := by
  intro n
  induction n with
  | zero => intro st; exact ⟨rfl, fun _ _ => rfl⟩
  | succ m ih =>
    intro st
    obtain ⟨h1, h2⟩ := ih (beginCriticalSection st i)
    constructor
    · rw [show beginIter st i (m + 1) = beginIter (beginCriticalSection st i) i m from rfl,
        h1]
      simp [beginCriticalSection]
    · intro j hj
      rw [show beginIter st i (m + 1) = beginIter (beginCriticalSection st i) i m from rfl,
        h2 j hj]
      unfold beginCriticalSection
      exact getD_set_of_ne hj

theorem processPrimaryChain_primary (i j : Nat) (chain : List BatchId) (st : RState) :
    ((processPrimaryChain st i chain).slots.getD j defaultSlot).primaryList =
      (st.slots.getD j defaultSlot).primaryList :=
  (processPrimaryChain_fields i j chain st).1

theorem processPrimaryChain_flag (i j : Nat) (chain : List BatchId) (st : RState) :
    ((processPrimaryChain st i chain).slots.getD j defaultSlot).isInCriticalSection =
      (st.slots.getD j defaultSlot).isInCriticalSection :=
  (processPrimaryChain_fields i j chain st).2.1

theorem processPrimaryChain_batch (i j : Nat) (chain : List BatchId) (st : RState) :
    ((processPrimaryChain st i chain).slots.getD j defaultSlot).batch =
      (st.slots.getD j defaultSlot).batch :=
  (processPrimaryChain_fields i j chain st).2.2.1

theorem processPrimaryChain_length (i : Nat) (chain : List BatchId) (st : RState) :
    (processPrimaryChain st i chain).slots.length = st.slots.length :=
  (processPrimaryChain_fields i 0 chain st).2.2.2

/-- Number of snapshot entries of a slot whose observed pointer is non-null
and in the membership set `lkp`. -/
def slotHits (lkp : List Ptr) (s : Slot) : Nat := s.snapshots.countP (matchesB lkp)

/-- How many references to the published batch the publication loop hands to
one slot: one on the primary list for a slot in a critical section, otherwise
one per matching snapshot entry. -/
def slotContrib (lkp : List Ptr) (s : Slot) : Nat :=
  if s.isInCriticalSection then 1 else slotHits lkp s

/-- The per-slot effect of the publication loop: a slot in a critical section
gets the batch pushed onto its pending-conflicts (primary) list; any other
slot gets the batch pushed onto the conflict list of every snapshot entry
whose observed pointer is in the batch's membership set. -/
def pubSlotTransform (id : BatchId) (lkp : List Ptr) (s : Slot) : Slot :=
  if s.isInCriticalSection then { s with primaryList := id :: s.primaryList }
  else { s with snapshots := s.snapshots.map (snapConflictPush id lkp) }

theorem findBatch_bumpRefBy (pub : List (BatchId × Batch × Nat)) (id : BatchId) (k : Nat) :
    findBatch (bumpRefBy pub id k) id =
      (findBatch pub id).map fun br => (br.1, br.2 + k) := by
  induction pub with
  | nil => rfl
  | cons e rest ih =>
    obtain ⟨i0, b0, rc0⟩ := e
    by_cases h : i0 = id
    · subst h
      simp [bumpRefBy, findBatch]
    · simpa [bumpRefBy, findBatch, h] using ih

theorem findBatch_mapDecOne (pub : List (BatchId × Batch × Nat)) (id : BatchId) :
    findBatch (pub.map fun e => if e.1 = id then (e.1, e.2.1, e.2.2 - 1) else e) id =
      (findBatch pub id).map fun br => (br.1, br.2 - 1) := by
  induction pub with
  | nil => rfl
  | cons e rest ih =>
    obtain ⟨i0, b0, rc0⟩ := e
    by_cases h : i0 = id
    · subst h
      simp [findBatch]
    · simpa [findBatch, h] using ih

theorem findBatch_filterNe (pub : List (BatchId × Batch × Nat)) (id : BatchId) :
    findBatch (pub.filter fun e => e.1 != id) id = none := by
  induction pub with
  | nil => rfl
  | cons e rest ih =>
    obtain ⟨i0, b0, rc0⟩ := e
    by_cases h : i0 = id
    · simpa [List.filter_cons, h] using ih
    · simpa [List.filter_cons, h, findBatch] using ih

theorem conflictInsertions_getD_self {st : RState} {i : Nat} {id : BatchId}
    {b : Batch} {rc : Nat} (hfind : findBatch st.published id = some (b, rc)) :
    (conflictInsertions st i id).slots.getD i defaultSlot =
      { st.slots.getD i defaultSlot with
        snapshots :=
          (st.slots.getD i defaultSlot).snapshots.map (snapConflictPush id b.lookup) } := by
  simp only [conflictInsertions, hfind]
  by_cases hi : i < st.slots.length
  · rw [getD_set_self hi]
  · rw [List.set_eq_of_length_le (by omega)]
    have hd : st.slots.getD i defaultSlot = defaultSlot := by
      rw [List.getD_eq_getElem?_getD, List.getElem?_eq_none (by simpa using hi)]
      rfl
    rw [hd]
    rfl

theorem conflictInsertions_published {st : RState} {i : Nat} {id : BatchId}
    {b : Batch} {rc : Nat} (hfind : findBatch st.published id = some (b, rc)) :
    (conflictInsertions st i id).published =
      bumpRefBy st.published id (slotHits b.lookup (st.slots.getD i defaultSlot)) := by
  simp only [conflictInsertions, hfind]
  rfl

theorem conflictInsertions_misc (st : RState) (i : Nat) (id : BatchId) :
    (conflictInsertions st i id).events = st.events ∧
    (conflictInsertions st i id).nextId = st.nextId ∧
    (conflictInsertions st i id).nodesCount = st.nodesCount := by
  cases hfind : findBatch st.published id with
  | none => simp [conflictInsertions, hfind]
  | some brc => simp [conflictInsertions, hfind]

theorem conflictInsertions_getD_ne {st : RState} {i j : Nat} {id : BatchId}
    (h : j ≠ i) :
    (conflictInsertions st i id).slots.getD j defaultSlot =
      st.slots.getD j defaultSlot := by
  cases hfind : findBatch st.published id with
  | none => simp [conflictInsertions, hfind]
  | some brc =>
    simp only [conflictInsertions, hfind]
    exact getD_set_of_ne h

theorem getD_oob {α : Type} {l : List α} {j : Nat} {d : α} (h : l.length ≤ j) :
    l.getD j d = d := by
  rw [List.getD_eq_getElem?_getD, List.getElem?_eq_none (by simpa using h)]
  rfl

/-- Effect of the whole publication loop on a batch already published with
data `data` and reference count `rc0`: every visited slot is transformed by
`pubSlotTransform`, unvisited slots are untouched, and the reference count
grows by the per-slot contributions; events, id counter, and node count are
untouched. -/
theorem publishToSlots_spec (id : BatchId) (data : Batch) :
    ∀ (js : List Nat) (st : RState) (rc0 : Nat), js.Nodup →
      findBatch st.published id = some (data, rc0) →
      (publishToSlots st id js).slots.length = st.slots.length ∧
      (∀ j ∈ js, (publishToSlots st id js).slots.getD j defaultSlot =
        pubSlotTransform id data.lookup (st.slots.getD j defaultSlot)) ∧
      (∀ j, j ∉ js → (publishToSlots st id js).slots.getD j defaultSlot =
        st.slots.getD j defaultSlot) ∧
      findBatch (publishToSlots st id js).published id =
        some (data, rc0 + (js.map fun j => slotContrib data.lookup
          (st.slots.getD j defaultSlot)).sum) ∧
      (publishToSlots st id js).events = st.events ∧
      (publishToSlots st id js).nextId = st.nextId ∧
      (publishToSlots st id js).nodesCount = st.nodesCount := by
  intro js
  induction js with
  | nil =>
    intro st rc0 _ hfind
    refine ⟨rfl, by simp, fun j _ => rfl, ?_, rfl, rfl, rfl⟩
    simpa using hfind
  | cons j rest ih =>
    intro st rc0 hnd hfind
    have hjrest : j ∉ rest := (List.nodup_cons.1 hnd).1
    have hndrest : rest.Nodup := (List.nodup_cons.1 hnd).2
    set slot := st.slots.getD j defaultSlot with hslot
    have hstep : publishToSlots st id (j :: rest) = publishToSlots
        (if slot.isInCriticalSection then
          { st with
            slots := st.slots.set j { slot with primaryList := id :: slot.primaryList },
            published := bumpRefBy st.published id 1 }
        else conflictInsertions st j id) id rest := rfl
    by_cases hcs : slot.isInCriticalSection
    · -- the slot is in a critical section: primary-list push
      have hjlen : j < st.slots.length := by
        by_contra hge
        rw [getD_oob (by omega)] at hslot
        rw [hslot] at hcs
        exact Bool.noConfusion hcs
      set st' : RState :=
        { st with
          slots := st.slots.set j { slot with primaryList := id :: slot.primaryList },
          published := bumpRefBy st.published id 1 } with hst'
      have hfind' : findBatch st'.published id = some (data, rc0 + 1) := by
        rw [hst']
        show findBatch (bumpRefBy st.published id 1) id = _
        rw [findBatch_bumpRefBy, hfind]
        rfl
      obtain ⟨ih1, ih2, ih3, ih4, ih5, ih6, ih7⟩ := ih st' (rc0 + 1) hndrest hfind'
      have hgetj : st'.slots.getD j defaultSlot =
          pubSlotTransform id data.lookup slot := by
        rw [hst']
        show (st.slots.set j _).getD j defaultSlot = _
        rw [getD_set_self hjlen, pubSlotTransform, if_pos hcs]
      have hgetne : ∀ j0, j0 ≠ j →
          st'.slots.getD j0 defaultSlot = st.slots.getD j0 defaultSlot := by
        intro j0 hne
        rw [hst']
        exact getD_set_of_ne hne
      rw [hstep, if_pos hcs]
      refine ⟨?_, ?_, ?_, ?_, ?_, ?_, ?_⟩
      · rw [ih1, hst']
        simp
      · intro j0 hj0
        rcases List.mem_cons.1 hj0 with h | h
        · subst h
          rw [ih3 j0 hjrest, hgetj]
        · rw [ih2 j0 h, hgetne j0 (fun he => hjrest (he ▸ h))]
      · intro j0 hj0
        have hne : j0 ≠ j := fun he => hj0 (he ▸ List.mem_cons_self j (j :: rest).tail)
        rw [ih3 j0 (fun hm => hj0 (List.mem_cons_of_mem _ hm)), hgetne j0 hne]
      · rw [ih4]
        have hmapeq : (rest.map fun j0 => slotContrib data.lookup
            (st'.slots.getD j0 defaultSlot)) = rest.map fun j0 =>
            slotContrib data.lookup (st.slots.getD j0 defaultSlot) := by
          refine List.map_congr_left ?_
          intro j0 hj0
          rw [hgetne j0 (fun he => hjrest (he ▸ hj0))]
        rw [hmapeq, List.map_cons, List.sum_cons, slotContrib, if_pos hcs]
        congr 2
        omega
      · rw [ih5]
      · rw [ih6]
      · rw [ih7]
    · -- not in a critical section: immediate snapshot check
      set st' : RState := conflictInsertions st j id with hst'
      have hfind' : findBatch st'.published id =
          some (data, rc0 + slotHits data.lookup slot) := by
        rw [hst', conflictInsertions_published hfind, findBatch_bumpRefBy, hfind]
        rfl
      obtain ⟨ih1, ih2, ih3, ih4, ih5, ih6, ih7⟩ := ih st'
        (rc0 + slotHits data.lookup slot) hndrest hfind'
      have hgetj : st'.slots.getD j defaultSlot =
          pubSlotTransform id data.lookup slot := by
        rw [hst', conflictInsertions_getD_self hfind, pubSlotTransform, if_neg hcs]
      have hgetne : ∀ j0, j0 ≠ j →
          st'.slots.getD j0 defaultSlot = st.slots.getD j0 defaultSlot := by
        intro j0 hne
        rw [hst']
        exact conflictInsertions_getD_ne hne
      have hmisc := conflictInsertions_misc st j id
      rw [hstep, if_neg hcs]
      refine ⟨?_, ?_, ?_, ?_, ?_, ?_, ?_⟩
      · rw [ih1, hst']
        exact (conflictInsertions_fields st j id 0).2.2.2
      · intro j0 hj0
        rcases List.mem_cons.1 hj0 with h | h
        · subst h
          rw [ih3 j0 hjrest, hgetj]
        · rw [ih2 j0 h, hgetne j0 (fun he => hjrest (he ▸ h))]
      · intro j0 hj0
        have hne : j0 ≠ j := fun he => hj0 (he ▸ List.mem_cons_self j (j :: rest).tail)
        rw [ih3 j0 (fun hm => hj0 (List.mem_cons_of_mem _ hm)), hgetne j0 hne]
      · rw [ih4]
        have hmapeq : (rest.map fun j0 => slotContrib data.lookup
            (st'.slots.getD j0 defaultSlot)) = rest.map fun j0 =>
            slotContrib data.lookup (st.slots.getD j0 defaultSlot) := by
          refine List.map_congr_left ?_
          intro j0 hj0
          rw [hgetne j0 (fun he => hjrest (he ▸ hj0))]
        rw [hmapeq, List.map_cons, List.sum_cons, slotContrib, if_neg hcs]
        rw [← hslot]
        congr 2
        omega
      · rw [ih5, hst', hmisc.1]
      · rw [ih6, hst', hmisc.2.1]
      · rw [ih7, hst', hmisc.2.2]

/-- The contents of slot `i`'s local batch right after `retire` appends
`(p, rid)`: the pair pushed onto `functions`, the pointer inserted into
`lookup`, and the vector capacity after the push. -/
def pushedBatch (st : RState) (i : Nat) (p : Ptr) (rid : Nat) : Batch :=
  ⟨(st.slots.getD i defaultSlot).batch.functions ++ [(p, rid)],
   setInsert p (st.slots.getD i defaultSlot).batch.lookup,
   vecPushCap (st.slots.getD i defaultSlot).batch.functions.length
     (st.slots.getD i defaultSlot).batch.cap⟩

/-- The slot table as it stands when the publication loop starts: slot `i`'s
local batch has been replaced by a fresh one whose capacity is
`nodes_count * SLOTS_PER_NODE`. -/
def midSlots (st : RState) (i j : Nat) : Slot :=
  if j = i then
    { st.slots.getD i defaultSlot with
      batch := ⟨[], [], st.nodesCount * SLOTS_PER_NODE⟩ }
  else st.slots.getD j defaultSlot

/-- Total number of references the publication loop hands out. -/
def publishTotal (st : RState) (i : Nat) (p : Ptr) (rid : Nat) : Nat :=
  ((List.range st.slots.length).map fun j =>
    slotContrib (pushedBatch st i p rid).lookup (midSlots st i j)).sum

theorem pubSlotTransform_batch (id : BatchId) (lkp : List Ptr) (s : Slot) :
    (pubSlotTransform id lkp s).batch = s.batch := by
  unfold pubSlotTransform
  split <;> rfl

/-- The state `retire` returns when the local batch stays below capacity. -/
def belowCapResult (st : RState) (i : Nat) (p : Ptr) (rid : Nat) : RState :=
  let slot := { st.slots.getD i defaultSlot with batch := pushedBatch st i p rid }
  { st with slots := st.slots.set i slot }

/-- Slot `i` with a fresh local batch of capacity `nodes_count * SLOTS_PER_NODE`. -/
def freshSlot (st : RState) (i : Nat) : Slot :=
  { st.slots.getD i defaultSlot with
    batch := ⟨[], [], st.nodesCount * SLOTS_PER_NODE⟩ }

/-- The state just after `retire` publishes the full batch (share count 1)
and before the publication loop runs. -/
def pubStart (st : RState) (i : Nat) (p : Ptr) (rid : Nat) : RState :=
  { st with slots := st.slots.set i (freshSlot st i),
            published := (st.nextId, pushedBatch st i p rid, 1) :: st.published,
            nextId := st.nextId + 1 }

theorem decRefRun_misc (st : RState) (id : BatchId) :
    (decRefRun st id).nextId = st.nextId ∧
    (decRefRun st id).nodesCount = st.nodesCount := by
  unfold decRefRun
  cases hfind : findBatch st.published id with
  | none => exact ⟨rfl, rfl⟩
  | some brc =>
    obtain ⟨b, rc⟩ := brc
    by_cases hrc : rc ≤ 1 <;> simp [hrc, removeBatch, decBatchCount]

/-- C6: for every call to `retire` on slot `i`: if after appending `(p, rid)`
the local batch is below its dynamic capacity, `retire` returns with only the
local batch changed — no drop closure runs, nothing is published.  Otherwise
it publishes the batch: the local batch is reset with capacity
`nodes_count * SLOTS_PER_NODE`, and every slot currently in a critical
section gets a reference to the batch pushed onto its pending-conflicts
(primary) list while every other slot gets the batch pushed onto the conflict
list of each snapshot entry whose observed pointer is in the batch's
membership set (`pubSlotTransform`); the published batch remains shared with
one reference per push (and is dropped on the spot, running its closures,
when no push happened). -/
theorem c6_retire_batching (st : RState) (i : Nat) (p : Ptr) (rid : Nat)
    (hi : i < st.slots.length) :
    ((pushedBatch st i p rid).functions.length < (pushedBatch st i p rid).cap →
      retire st i p rid = belowCapResult st i p rid ∧
      (retire st i p rid).events = st.events ∧
      (retire st i p rid).published = st.published) ∧
    (¬(pushedBatch st i p rid).functions.length < (pushedBatch st i p rid).cap →
      ((retire st i p rid).slots.getD i defaultSlot).batch =
        ⟨[], [], st.nodesCount * SLOTS_PER_NODE⟩ ∧
      (∀ j, j < st.slots.length →
        (retire st i p rid).slots.getD j defaultSlot =
          pubSlotTransform st.nextId (pushedBatch st i p rid).lookup (midSlots st i j)) ∧
      (retire st i p rid).nextId = st.nextId + 1 ∧
      (publishTotal st i p rid = 0 →
        findBatch (retire st i p rid).published st.nextId = none ∧
        (retire st i p rid).events = st.events ++ (pushedBatch st i p rid).functions) ∧
      (0 < publishTotal st i p rid →
        findBatch (retire st i p rid).published st.nextId =
          some (pushedBatch st i p rid, publishTotal st i p rid) ∧
        (retire st i p rid).events = st.events)) := by
  have hcond : ((pushedBatch st i p rid).functions.length <
        (pushedBatch st i p rid).cap) =
      (((st.slots.getD i defaultSlot).batch.functions ++ [(p, rid)]).length <
        vecPushCap (st.slots.getD i defaultSlot).batch.functions.length
          (st.slots.getD i defaultSlot).batch.cap) := rfl
  constructor
  · intro hlt
    rw [hcond] at hlt
    have hret : retire st i p rid = belowCapResult st i p rid := by
      simp only [retire]
      rw [if_pos hlt]
      rfl
    exact ⟨hret, by rw [hret]; rfl, by rw [hret]; rfl⟩
  · intro hge
    rw [hcond] at hge
    have hret : retire st i p rid = decRefRun
        (publishToSlots (pubStart st i p rid) st.nextId
          (List.range (pubStart st i p rid).slots.length)) st.nextId := by
      simp only [retire]
      rw [if_neg hge]
      rfl
    set st1 : RState := pubStart st i p rid with hst1
    have hlen1 : st1.slots.length = st.slots.length := by
      rw [hst1]
      simp [pubStart]
    have hfind1 : findBatch st1.published st.nextId =
        some (pushedBatch st i p rid, 1) := by
      rw [hst1]
      show (if st.nextId = st.nextId then _ else _) = _
      rw [if_pos rfl]
    have hmid : ∀ j, st1.slots.getD j defaultSlot = midSlots st i j := by
      intro j
      by_cases hj : j = i
      · subst hj
        rw [hst1]
        show (st.slots.set j (freshSlot st j)).getD j defaultSlot = _
        rw [getD_set_self hi, midSlots, if_pos rfl]
        rfl
      · rw [hst1]
        show (st.slots.set i (freshSlot st i)).getD j defaultSlot = _
        rw [getD_set_of_ne hj, midSlots, if_neg hj]
    obtain ⟨s1, s2, s3, s4, s5, s6, s7⟩ := publishToSlots_spec st.nextId
      (pushedBatch st i p rid) (List.range st1.slots.length) st1 1
      (List.nodup_range _) hfind1
    have hmapeq : ((List.range st1.slots.length).map fun j =>
        slotContrib (pushedBatch st i p rid).lookup (st1.slots.getD j defaultSlot)) =
        (List.range st1.slots.length).map fun j =>
        slotContrib (pushedBatch st i p rid).lookup (midSlots st i j) := by
      apply List.map_congr_left
      intro j _
      rw [hmid j]
    have hsum : (1 + ((List.range st1.slots.length).map fun j =>
        slotContrib (pushedBatch st i p rid).lookup
          (st1.slots.getD j defaultSlot)).sum) = 1 + publishTotal st i p rid := by
      rw [hmapeq, hlen1, publishTotal]
    rw [hsum] at s4
    set S2 : RState := publishToSlots st1 st.nextId (List.range st1.slots.length)
      with hS2
    have hretS : retire st i p rid = decRefRun S2 st.nextId := hret
    have hS2len : S2.slots.length = st.slots.length := by rw [s1, hlen1]
    have hS2getD : ∀ j, j < st.slots.length →
        S2.slots.getD j defaultSlot =
          pubSlotTransform st.nextId (pushedBatch st i p rid).lookup
            (midSlots st i j) := by
      intro j hj
      rw [s2 j (List.mem_range.2 (by omega)), hmid j]
    refine ⟨?_, ?_, ?_, ?_, ?_⟩
    · rw [hretS, decRefRun_slots, hS2getD i hi, pubSlotTransform_batch,
        midSlots, if_pos rfl]
    · intro j hj
      rw [hretS, decRefRun_slots, hS2getD j hj]
    · rw [hretS, (decRefRun_misc S2 st.nextId).1, s6, hst1]
      rfl
    · intro h0
      rw [h0] at s4
      constructor
      · rw [hretS]
        simp only [decRefRun, s4]
        rw [if_pos (by omega)]
        exact findBatch_filterNe _ _
      · rw [hretS]
        simp only [decRefRun, s4]
        rw [if_pos (by omega)]
        show S2.events ++ _ = _
        rw [s5, hst1]
        rfl
    · intro hpos
      constructor
      · rw [hretS]
        simp only [decRefRun, s4]
        rw [if_neg (by omega)]
        show findBatch (S2.published.map _) st.nextId = _
        rw [findBatch_mapDecOne, s4]
        show some (pushedBatch st i p rid, 1 + publishTotal st i p rid - 1) = _
        congr 2
        omega
      · rw [hretS]
        simp only [decRefRun, s4]
        rw [if_neg (by omega)]
        show S2.events = _
        rw [s5, hst1]
        rfl

/-- Slot 0 for the C6 witness: its local batch holds one pair and has
capacity 2, so the next push fills it. -/
def w6Slot0 : Slot := { defaultSlot with batch := ⟨[(3, 1)], [3], 2⟩, isClaimed := true }

/-- Slot 1 for the C6 witness: currently inside a critical section. -/
def w6Slot1 : Slot :=
  { defaultSlot with isInCriticalSection := true, isClaimed := true }

def w6State : RState := ⟨[w6Slot0, w6Slot1], 1, [], 0, []⟩

theorem c6_retire_batching_witness :
    (1 : Nat) < w6State.slots.length ∧
    (pushedBatch w6State 1 9 7).functions.length < (pushedBatch w6State 1 9 7).cap ∧
    retire w6State 1 9 7 = belowCapResult w6State 1 9 7 ∧
    (retire w6State 1 9 7).events = w6State.events ∧
    (retire w6State 1 9 7).published = w6State.published ∧
    (0 : Nat) < w6State.slots.length ∧
    ¬(pushedBatch w6State 0 9 7).functions.length < (pushedBatch w6State 0 9 7).cap ∧
    ((retire w6State 0 9 7).slots.getD 0 defaultSlot).batch =
      ⟨[], [], w6State.nodesCount * SLOTS_PER_NODE⟩ ∧
    (∀ j, j < w6State.slots.length →
      (retire w6State 0 9 7).slots.getD j defaultSlot =
        pubSlotTransform w6State.nextId (pushedBatch w6State 0 9 7).lookup
          (midSlots w6State 0 j)) ∧
    (retire w6State 0 9 7).nextId = w6State.nextId + 1 ∧
    (0 < publishTotal w6State 0 9 7 →
      findBatch (retire w6State 0 9 7).published w6State.nextId =
        some (pushedBatch w6State 0 9 7, publishTotal w6State 0 9 7) ∧
      (retire w6State 0 9 7).events = w6State.events) := by
  have h1 := (c6_retire_batching w6State 1 9 7 (by decide)).1 (by decide)
  have h2 := (c6_retire_batching w6State 0 9 7 (by decide)).2 (by decide)
  exact ⟨by decide, by decide, h1.1, h1.2.1, h1.2.2, by decide, by decide,
    h2.1, h2.2.1, h2.2.2.1, h2.2.2.2.2⟩

theorem endCriticalSection_spec (st : RState) (i : Nat) (hi : i < st.slots.length) :
    ((endCriticalSection st i).slots.getD i defaultSlot).isInCriticalSection = false ∧
    ((endCriticalSection st i).slots.getD i defaultSlot).primaryList = [] := by
  simp only [endCriticalSection, detachPrimary]
  rw [getD_set_self hi, List.set_set]
  constructor
  · rw [processPrimaryChain_flag, getD_set_self hi]
  · rw [processPrimaryChain_primary, getD_set_self hi]

/-- A state with one claimed slot whose primary list holds a reference to
published batch 0, which contains the single retirement `(7, 0)`. -/
def exSlot : Slot := { defaultSlot with primaryList := [0], isClaimed := true }

def exState : RState := ⟨[exSlot], 1, [(0, ⟨[(7, 0)], [7], 32⟩, 1)], 1, []⟩

/-- C5 counterexample: the slot's protection state is a boolean
`is_in_critical_section`, not a depth counter.  After two enter-critical-
section calls and a single leave (so the claim's open-region count would be
1 > 0), the slot does not count as in a protected region, and the
pending-conflicts list head has already been detached, running the batch's
drop closure. -/
theorem c5_counterexample :
    ((endCriticalSection (beginCriticalSection (beginCriticalSection exState 0) 0) 0).slots.getD
        0 defaultSlot).isInCriticalSection = false ∧
    ((endCriticalSection (beginCriticalSection (beginCriticalSection exState 0) 0) 0).slots.getD
        0 defaultSlot).primaryList = [] ∧
    (endCriticalSection (beginCriticalSection (beginCriticalSection exState 0) 0) 0).events =
      [(7, 0)] := by decide

/-- C5 amended: per-slot protection is a boolean flag, with no re-entrancy
depth.  `begin_critical_section` sets the flag; after any number `n + 1` of
enters, a single `end_critical_section` clears the flag (the slot no longer
counts as in a protected region) and detaches the slot's pending-conflicts
list head, running any batch drops that become eligible. -/
theorem c5_boolean_flag_protection (st : RState) (i n : Nat) (hi : i < st.slots.length) :
    ((beginCriticalSection st i).slots.getD i defaultSlot).isInCriticalSection = true ∧
    ((endCriticalSection (beginIter st i (n + 1)) i).slots.getD i
        defaultSlot).isInCriticalSection = false ∧
    ((endCriticalSection (beginIter st i (n + 1)) i).slots.getD i
        defaultSlot).primaryList = [] := by
  refine ⟨?_, ?_⟩
  · simp only [beginCriticalSection]
    rw [getD_set_self hi]
  · have hlen : (beginIter st i (n + 1)).slots.length = st.slots.length :=
      (beginIter_slots i (n + 1) st).1
    exact endCriticalSection_spec (beginIter st i (n + 1)) i (by omega)

theorem c5_boolean_flag_protection_witness :
    0 < exState.slots.length ∧
    ((beginCriticalSection exState 0).slots.getD 0 defaultSlot).isInCriticalSection = true ∧
    ((endCriticalSection (beginIter exState 0 2) 0).slots.getD 0
        defaultSlot).isInCriticalSection = false ∧
    ((endCriticalSection (beginIter exState 0 2) 0).slots.getD 0
        defaultSlot).primaryList = [] :=
  ⟨by decide, c5_boolean_flag_protection exState 0 1 (by decide)⟩

/-!
### Reference-count accounting and the drain property of `Drop` (C10)

`wfx st extra` is the accounting invariant: every published batch's reference
count equals the number of references to it held in the slot table
(`refTotal`) plus in-flight references held by detached chains being dropped
(`extra`), and is positive while the entry exists; batch ids are unique, and
dangling references do not exist.
-/

/-- References slot `s` holds on batch `id`: occurrences in its primary list
plus occurrences in each snapshot entry's conflict list. -/
def refsInSlot (s : Slot) (id : BatchId) : Nat :=
  s.primaryList.count id + (s.snapshots.map fun e => e.conflicts.count id).sum

/-- References the whole slot table holds on batch `id`. -/
def refTotal (st : RState) (id : BatchId) : Nat :=
  (st.slots.map fun s => refsInSlot s id).sum

def pubIds (st : RState) : List BatchId := st.published.map fun e => e.1

/-- Accounting invariant with in-flight chain references `extra`. -/
def wfx (st : RState) (extra : BatchId → Nat) : Prop :=
  (pubIds st).Nodup ∧
  (∀ e ∈ st.published, e.2.2 = refTotal st e.1 + extra e.1 ∧ 0 < e.2.2) ∧
  (∀ id, 0 < refTotal st id + extra id → id ∈ pubIds st)

/-- The accounting invariant of a quiescent state (no chain in flight). -/
def wf (st : RState) : Prop := wfx st fun _ => 0

/-- The pair `pr` is a retirement whose closure is still pending: it sits in
some slot's local batch or in some published batch. -/
def PendingIn (pr : Ptr × Nat) (st : RState) : Prop :=
  (∃ j, j < st.slots.length ∧ pr ∈ (st.slots.getD j defaultSlot).batch.functions) ∨
  (∃ e ∈ st.published, pr ∈ e.2.1.functions)

/-- A transition loses no pending retirement: everything pending or already
executed before is pending or executed after. -/
def Carries (st st' : RState) : Prop :=
  ∀ pr, PendingIn pr st ∨ pr ∈ st.events → PendingIn pr st' ∨ pr ∈ st'.events

theorem Carries.rfl {st : RState} : Carries st st := fun _ h => h

theorem Carries.trans {a b c : RState} (h1 : Carries a b) (h2 : Carries b c) :
    Carries a c := fun pr h => h2 pr (h1 pr h)

/-- A slot with nothing pending and no references. -/
def CleanSlot (s : Slot) : Prop :=
  s.batch.functions = [] ∧ s.primaryList = [] ∧ ∀ e ∈ s.snapshots, e.conflicts = []

theorem refsInSlot_of_clean {s : Slot} (h : CleanSlot s) (id : BatchId) :
    refsInSlot s id = 0 := by
  obtain ⟨_, h2, h3⟩ := h
  unfold refsInSlot
  rw [h2]
  simp only [List.count_nil, Nat.zero_add]
  apply List.sum_eq_zero
  intro x hx
  obtain ⟨e, he, hex⟩ := List.mem_map.1 hx
  rw [h3 e he] at hex
  simp [← hex]

theorem sum_map_set' {α : Type} {l : List α} {i : Nat} (a d : α) (f : α → Nat)
    (h : i < l.length) :
    ((l.set i a).map f).sum + f (l.getD i d) = (l.map f).sum + f a := by
  induction l generalizing i with
  | nil => simp at h
  | cons x xs ih =>
    cases i with
    | zero => simp [List.set, List.getD]; omega
    | succ n =>
      have hn : n < xs.length := by simpa using h
      have := ih hn
      simp only [List.set, List.map_cons, List.sum_cons, List.getD_cons_succ]
      omega

theorem findBatch_some_mem {pub : List (BatchId × Batch × Nat)} {id : BatchId}
    {b : Batch} {rc : Nat} (h : findBatch pub id = some (b, rc)) :
    (id, b, rc) ∈ pub := by
  induction pub with
  | nil => cases h
  | cons e rest ih =>
    obtain ⟨i0, b0, rc0⟩ := e
    by_cases h0 : i0 = id
    · rw [findBatch, if_pos h0] at h
      have h2 := Option.some.inj h
      exact List.mem_cons.2 (Or.inl (by rw [← h0, ← h2]))
    · rw [findBatch, if_neg h0] at h
      exact List.mem_cons_of_mem _ (ih h)

theorem findBatch_of_mem {pub : List (BatchId × Batch × Nat)} {id : BatchId}
    {b : Batch} {rc : Nat} (hnd : (pub.map fun e => e.1).Nodup)
    (hmem : (id, b, rc) ∈ pub) : findBatch pub id = some (b, rc) := by
  induction pub with
  | nil => cases hmem
  | cons e rest ih =>
    obtain ⟨i0, b0, rc0⟩ := e
    have hnd2 : (i0 :: rest.map fun e => e.1).Nodup := by
      simpa only [List.map_cons] using hnd
    have hnd' := List.nodup_cons.1 hnd2
    rcases List.mem_cons.1 hmem with he | he
    · cases he
      rw [findBatch, if_pos rfl]
    · have hid : id ∈ rest.map fun e => e.1 := List.mem_map.2 ⟨(id, b, rc), he, rfl⟩
      rw [findBatch, if_neg (fun hh => hnd'.1 (by rw [show i0 = id from hh]; exact hid))]
      exact ih hnd'.2 he

theorem entry_unique {pub : List (BatchId × Batch × Nat)}
    (hnd : (pub.map fun e => e.1).Nodup) {e1 e2 : BatchId × Batch × Nat}
    (h1 : e1 ∈ pub) (h2 : e2 ∈ pub) (heq : e1.1 = e2.1) : e1 = e2 := by
  induction pub with
  | nil => cases h1
  | cons x rest ih =>
    have hnd2 : (x.1 :: rest.map fun e => e.1).Nodup := by
      simpa only [List.map_cons] using hnd
    have hnd' := List.nodup_cons.1 hnd2
    rcases List.mem_cons.1 h1 with h1' | h1' <;> rcases List.mem_cons.1 h2 with h2' | h2'
    · rw [h1', h2']
    · subst h1'
      exact absurd (by rw [heq]; exact List.mem_map.2 ⟨e2, h2', rfl⟩) hnd'.1
    · subst h2'
      exact absurd (by rw [← heq]; exact List.mem_map.2 ⟨e1, h1', rfl⟩) hnd'.1
    · exact ih hnd'.2 h1' h2'

theorem mem_pubIds {st : RState} {id : BatchId} :
    id ∈ pubIds st ↔ ∃ b rc, (id, b, rc) ∈ st.published := by
  constructor
  · intro h
    obtain ⟨e, he, heq⟩ := List.mem_map.1 h
    obtain ⟨i0, b0, rc0⟩ := e
    exact ⟨b0, rc0, by rw [show id = i0 from heq.symm]; exact he⟩
  · rintro ⟨b, rc, h⟩
    exact List.mem_map.2 ⟨_, h, rfl⟩

theorem pubIds_mapDec (pub : List (BatchId × Batch × Nat)) (id : BatchId) :
    ((pub.map fun e => if e.1 = id then (e.1, e.2.1, e.2.2 - 1) else e).map
      fun e => e.1) = pub.map fun e => e.1 := by
  rw [List.map_map]
  apply List.map_congr_left
  intro e _
  by_cases he : e.1 = id <;> simp [Function.comp, he]

theorem removeBatch_slots (st : RState) (id : BatchId) (b : Batch) :
    (removeBatch st id b).slots = st.slots := rfl

theorem refTotal_removeBatch (st : RState) (id : BatchId) (b : Batch) (id2 : BatchId) :
    refTotal (removeBatch st id b) id2 = refTotal st id2 := rfl

theorem refTotal_decBatchCount (st : RState) (id id2 : BatchId) :
    refTotal (decBatchCount st id) id2 = refTotal st id2 := rfl

theorem pubIds_decBatchCount (st : RState) (id : BatchId) :
    pubIds (decBatchCount st id) = pubIds st := pubIds_mapDec st.published id

/-- Releasing one in-flight reference preserves the accounting invariant and
loses no pending retirement. -/
theorem decRefRun_wfx {st : RState} {extra : BatchId → Nat} {id : BatchId}
    (h : wfx st extra) (hpos : 0 < extra id) :
    wfx (decRefRun st id) (fun i => if i = id then extra i - 1 else extra i) ∧
    Carries st (decRefRun st id) := by
  obtain ⟨hnd, hcnt, hmem⟩ := h
  have hid : id ∈ pubIds st := hmem id (by omega)
  obtain ⟨b, rc, hbmem⟩ := mem_pubIds.1 hid
  have hfind : findBatch st.published id = some (b, rc) := findBatch_of_mem hnd hbmem
  have hrc := hcnt _ hbmem
  simp only at hrc
  obtain ⟨hrc1, hrc2⟩ := hrc
  by_cases hle : rc ≤ 1
  · -- the reference count reaches zero: the batch drops and runs its closures
    have hext1 : extra id = 1 := by omega
    have href0 : refTotal st id = 0 := by omega
    have heq : decRefRun st id = removeBatch st id b := by
      simp only [decRefRun, hfind]
      rw [if_pos hle]
    rw [heq]
    refine ⟨⟨?_, ?_, ?_⟩, ?_⟩
    · exact List.Nodup.sublist ((List.filter_sublist _).map _) hnd
    · intro e he
      have he' := List.mem_filter.1 he
      have hne : e.1 ≠ id := by simpa using he'.2
      have hc := hcnt e he'.1
      refine ⟨?_, hc.2⟩
      show e.2.2 = refTotal (removeBatch st id b) e.1 +
        (if e.1 = id then extra e.1 - 1 else extra e.1)
      rw [refTotal_removeBatch, if_neg hne]
      exact hc.1
    · intro id2 h2
      have h2' : 0 < refTotal st id2 + (if id2 = id then extra id2 - 1 else extra id2) := h2
      by_cases hid2 : id2 = id
      · subst hid2
        rw [if_pos rfl, hext1, href0] at h2'
        omega
      · rw [if_neg hid2] at h2'
        obtain ⟨b2, rc2, hmem2⟩ := mem_pubIds.1 (hmem id2 h2')
        exact mem_pubIds.2 ⟨b2, rc2, List.mem_filter.2 ⟨hmem2, by simpa using hid2⟩⟩
    · intro pr hpr
      rcases hpr with hpend | hev
      · rcases hpend with ⟨j, hj, hjmem⟩ | ⟨e, he, hef⟩
        · exact Or.inl (Or.inl ⟨j, hj, hjmem⟩)
        · by_cases hei : e.1 = id
          · have hee : e = (id, b, rc) := entry_unique hnd he hbmem (by rw [hei])
            rw [hee] at hef
            exact Or.inr (List.mem_append.2 (Or.inr hef))
          · exact Or.inl (Or.inr ⟨e, List.mem_filter.2 ⟨he, by simpa using hei⟩, hef⟩)
      · exact Or.inr (List.mem_append.2 (Or.inl hev))
  · -- the count just decrements
    have heq : decRefRun st id = decBatchCount st id := by
      simp only [decRefRun, hfind]
      rw [if_neg hle]
    rw [heq]
    refine ⟨⟨?_, ?_, ?_⟩, ?_⟩
    · rw [show pubIds (decBatchCount st id) = pubIds st from pubIds_decBatchCount st id]
      exact hnd
    · intro e' he'
      obtain ⟨e, he, hfe⟩ := List.mem_map.1 he'
      by_cases hei : e.1 = id
      · have hee : e = (id, b, rc) := entry_unique hnd he hbmem (by rw [hei])
        subst hee
        rw [if_pos rfl] at hfe
        rw [← hfe]
        constructor
        · show rc - 1 = refTotal (decBatchCount st id) id +
            (if id = id then extra id - 1 else extra id)
          rw [refTotal_decBatchCount, if_pos rfl]
          omega
        · show 0 < rc - 1
          omega
      · rw [if_neg hei] at hfe
        rw [← hfe]
        have hc := hcnt e he
        refine ⟨?_, hc.2⟩
        show e.2.2 = refTotal (decBatchCount st id) e.1 +
          (if e.1 = id then extra e.1 - 1 else extra e.1)
        rw [refTotal_decBatchCount, if_neg hei]
        exact hc.1
    · intro id2 h2
      have h2' : 0 < refTotal st id2 + (if id2 = id then extra id2 - 1 else extra id2) := h2
      rw [show pubIds (decBatchCount st id) = pubIds st from pubIds_decBatchCount st id]
      apply hmem id2
      by_cases hid2 : id2 = id
      · subst hid2
        rw [if_pos rfl] at h2'
        omega
      · rw [if_neg hid2] at h2'
        exact h2'
    · intro pr hpr
      rcases hpr with hpend | hev
      · rcases hpend with ⟨j, hj, hjmem⟩ | ⟨e, he, hef⟩
        · exact Or.inl (Or.inl ⟨j, hj, hjmem⟩)
        · refine Or.inl (Or.inr ⟨(if e.1 = id then (e.1, e.2.1, e.2.2 - 1) else e),
            List.mem_map.2 ⟨e, he, rfl⟩, ?_⟩)
          by_cases hei : e.1 = id <;> simp [hei, hef]
      · exact Or.inr hev

theorem decRefRun_slots_eq (st : RState) (id : BatchId) :
    (decRefRun st id).slots = st.slots := decRefRun_slots st id

theorem pubIds_bumpRefBy (pub : List (BatchId × Batch × Nat)) (id : BatchId) (k : Nat) :
    ((bumpRefBy pub id k).map fun e => e.1) = pub.map fun e => e.1 := by
  unfold bumpRefBy
  rw [List.map_map]
  apply List.map_congr_left
  intro e _
  by_cases he : e.1 = id <;> simp [Function.comp, he]

theorem conflictsSum_snapPush (id : BatchId) (lkp : List Ptr) (id2 : BatchId) :
    ∀ snaps : List SnapshotPtr,
    ((snaps.map (snapConflictPush id lkp)).map fun e => e.conflicts.count id2).sum =
      ((snaps.map fun e => e.conflicts.count id2).sum +
        if id2 = id then snaps.countP (matchesB lkp) else 0) := by
  intro snaps
  induction snaps with
  | nil => simp
  | cons e rest ih =>
    simp only [List.map_cons, List.sum_cons, List.countP_cons]
    rw [ih]
    by_cases hm : matchesB lkp e
    · rw [snapConflictPush, if_pos hm]
      simp only [hm, if_pos]
      by_cases h2 : id2 = id
      · subst h2
        rw [List.count_cons_self]
        simp
        omega
      · rw [List.count_cons_of_ne h2]
        simp [h2]
    · rw [snapConflictPush, if_neg hm]
      by_cases h2 : id2 = id
      · subst h2
        simp [hm]
        omega
      · simp [h2, hm]

/-- Slot `i` after the snapshot scan pushed batch `id` onto every matching
conflict list. -/
def pushedSnapSlot (st : RState) (i : Nat) (id : BatchId) (lkp : List Ptr) : Slot :=
  { st.slots.getD i defaultSlot with
    snapshots := (st.slots.getD i defaultSlot).snapshots.map (snapConflictPush id lkp) }

theorem refsInSlot_pushedSnapSlot (st : RState) (i : Nat) (id : BatchId)
    (lkp : List Ptr) (id2 : BatchId) :
    refsInSlot (pushedSnapSlot st i id lkp) id2 =
      refsInSlot (st.slots.getD i defaultSlot) id2 +
        if id2 = id then
          (st.slots.getD i defaultSlot).snapshots.countP (matchesB lkp) else 0 := by
  unfold pushedSnapSlot refsInSlot
  simp only
  rw [conflictsSum_snapPush]
  omega

theorem conflictInsertions_slots_eq {st : RState} {i : Nat} {id : BatchId}
    {b : Batch} {rc : Nat} (hfind : findBatch st.published id = some (b, rc)) :
    (conflictInsertions st i id).slots =
      st.slots.set i (pushedSnapSlot st i id b.lookup) := by
  simp only [conflictInsertions, hfind]
  rfl

theorem refTotal_conflictInsertions {st : RState} {i : Nat} {id : BatchId}
    {b : Batch} {rc : Nat} (hfind : findBatch st.published id = some (b, rc))
    (id2 : BatchId) :
    refTotal (conflictInsertions st i id) id2 =
      refTotal st id2 + if id2 = id then
        (st.slots.getD i defaultSlot).snapshots.countP (matchesB b.lookup) else 0 := by
  have hrw : refTotal (conflictInsertions st i id) id2 =
      ((st.slots.set i (pushedSnapSlot st i id b.lookup)).map
        fun s => refsInSlot s id2).sum := by
    unfold refTotal
    rw [conflictInsertions_slots_eq hfind]
  by_cases hi : i < st.slots.length
  · have hsum := sum_map_set' (l := st.slots) (i := i)
      (pushedSnapSlot st i id b.lookup) defaultSlot
      (fun s => refsInSlot s id2) hi
    simp only at hsum
    have hnew := refsInSlot_pushedSnapSlot st i id b.lookup id2
    have hrt : refTotal st id2 = (st.slots.map fun s => refsInSlot s id2).sum := rfl
    omega
  · rw [hrw, List.set_eq_of_length_le (by omega)]
    have hrt : refTotal st id2 = (st.slots.map fun s => refsInSlot s id2).sum := rfl
    have hd : st.slots.getD i defaultSlot = defaultSlot := getD_oob (by omega)
    rw [hd]
    show (st.slots.map fun s => refsInSlot s id2).sum =
      refTotal st id2 + if id2 = id then 0 else 0
    have hz : (if id2 = id then 0 else 0) = 0 := by
      by_cases h2 : id2 = id <;> simp [h2]
    rw [hz]
    omega

/-- The immediate snapshot check of the publication loop preserves the
accounting invariant (each conflict-list push comes with one count bump) and
loses no pending retirement. -/
theorem conflictInsertions_wfx {st : RState} {extra : BatchId → Nat}
    (i : Nat) (id : BatchId) (h : wfx st extra) :
    wfx (conflictInsertions st i id) extra ∧ Carries st (conflictInsertions st i id) := by
  obtain ⟨hnd, hcnt, hmem⟩ := h
  cases hfind : findBatch st.published id with
  | none =>
    have heq : conflictInsertions st i id = st := by
      simp [conflictInsertions, hfind]
    rw [heq]
    exact ⟨⟨hnd, hcnt, hmem⟩, Carries.rfl⟩
  | some brc =>
    obtain ⟨b, rc⟩ := brc
    have hbmem : (id, b, rc) ∈ st.published := findBatch_some_mem hfind
    have hrcv := hcnt _ hbmem
    simp only at hrcv
    obtain ⟨hrc1, hrc2⟩ := hrcv
    have hpub : (conflictInsertions st i id).published =
        bumpRefBy st.published id
          ((st.slots.getD i defaultSlot).snapshots.countP (matchesB b.lookup)) := by
      simp only [conflictInsertions, hfind]
    have href := refTotal_conflictInsertions (i := i) hfind
    have hids : pubIds (conflictInsertions st i id) = pubIds st := by
      show (conflictInsertions st i id).published.map _ = _
      rw [hpub]
      exact pubIds_bumpRefBy _ _ _
    refine ⟨⟨?_, ?_, ?_⟩, ?_⟩
    · rw [hids]
      exact hnd
    · intro e' he'
      rw [hpub] at he'
      obtain ⟨e, he, hfe⟩ := List.mem_map.1 he'
      by_cases hei : e.1 = id
      · have hee : e = (id, b, rc) := entry_unique hnd he hbmem (by rw [hei])
        subst hee
        rw [if_pos rfl] at hfe
        rw [← hfe]
        constructor
        · show rc + _ = refTotal (conflictInsertions st i id) id + extra id
          rw [href id, if_pos rfl]
          omega
        · show 0 < rc + _
          omega
      · rw [if_neg hei] at hfe
        rw [← hfe]
        have hc := hcnt e he
        refine ⟨?_, hc.2⟩
        rw [href e.1, if_neg hei]
        exact hc.1
    · intro id2 h2
      rw [hids]
      by_cases hid2 : id2 = id
      · subst hid2
        exact mem_pubIds.2 ⟨b, rc, hbmem⟩
      · rw [href id2, if_neg hid2] at h2
        exact hmem id2 h2
    · intro pr hpr
      rcases hpr with hpend | hev
      · rcases hpend with ⟨j, hj, hjmem⟩ | ⟨e, he, hef⟩
        · refine Or.inl (Or.inl ⟨j, ?_, ?_⟩)
          · rw [(conflictInsertions_fields st i id j).2.2.2]
            exact hj
          · rw [(conflictInsertions_fields st i id j).2.2.1]
            exact hjmem
        · refine Or.inl (Or.inr ⟨(if e.1 = id then (e.1, e.2.1, e.2.2 +
              ((st.slots.getD i defaultSlot).snapshots.countP (matchesB b.lookup)))
            else e), ?_, ?_⟩)
          · rw [hpub]
            exact List.mem_map.2 ⟨e, he, rfl⟩
          · by_cases hei : e.1 = id <;> simp [hei, hef]
      · right
        rw [(conflictInsertions_misc st i id).1]
        exact hev

/-- Dropping a detached conflict chain releases exactly the chain's
references: the accounting invariant descends from `extra + count` to
`extra`, nothing pending is lost, and the slot table is untouched. -/
theorem processConflictChain_wfx :
    ∀ (chain : List BatchId) (st : RState) (extra : BatchId → Nat),
    wfx st (fun i => extra i + chain.count i) →
    wfx (processConflictChain st chain) extra ∧
    Carries st (processConflictChain st chain) ∧
    (processConflictChain st chain).slots = st.slots := by
  intro chain
  induction chain with
  | nil =>
    intro st extra h
    have heq : (fun i => extra i + List.count i ([] : List BatchId)) = extra := by
      funext i
      simp
    rw [processConflictChain]
    exact ⟨by rwa [heq] at h, Carries.rfl, rfl⟩
  | cons id rest ih =>
    intro st extra h
    have hpos : 0 < extra id + (id :: rest).count id := by
      rw [List.count_cons_self]
      omega
    obtain ⟨hw, hc⟩ := decRefRun_wfx h hpos
    have hfun : (fun i => if i = id then extra i + (id :: rest).count i - 1
        else extra i + (id :: rest).count i) = fun i => extra i + rest.count i := by
      funext i
      by_cases hii : i = id
      · subst hii
        rw [if_pos rfl, List.count_cons_self]
        omega
      · rw [if_neg hii, List.count_cons_of_ne hii]
    rw [hfun] at hw
    obtain ⟨ihw, ihc, ihs⟩ := ih (decRefRun st id) extra hw
    rw [processConflictChain]
    exact ⟨ihw, Carries.trans hc ihc, by rw [ihs, decRefRun_slots]⟩

/-- Dropping a detached primary chain (each node re-checks the owning slot's
snapshots before releasing its reference) preserves the accounting invariant
and loses nothing pending. -/
theorem processPrimaryChain_wfx (si : Nat) :
    ∀ (chain : List BatchId) (st : RState) (extra : BatchId → Nat),
    wfx st (fun i => extra i + chain.count i) →
    wfx (processPrimaryChain st si chain) extra ∧
    Carries st (processPrimaryChain st si chain) := by
  intro chain
  induction chain with
  | nil =>
    intro st extra h
    have heq : (fun i => extra i + List.count i ([] : List BatchId)) = extra := by
      funext i
      simp
    rw [processPrimaryChain]
    exact ⟨by rwa [heq] at h, Carries.rfl⟩
  | cons id rest ih =>
    intro st extra h
    obtain ⟨hw1, hc1⟩ := conflictInsertions_wfx si id h
    have hpos : 0 < extra id + (id :: rest).count id := by
      rw [List.count_cons_self]
      omega
    obtain ⟨hw2, hc2⟩ := decRefRun_wfx hw1 hpos
    have hfun : (fun i => if i = id then extra i + (id :: rest).count i - 1
        else extra i + (id :: rest).count i) = fun i => extra i + rest.count i := by
      funext i
      by_cases hii : i = id
      · subst hii
        rw [if_pos rfl, List.count_cons_self]
        omega
      · rw [if_neg hii, List.count_cons_of_ne hii]
    rw [hfun] at hw2
    obtain ⟨ihw, ihc⟩ := ih (dropPrimaryNode st si id) extra hw2
    rw [processPrimaryChain]
    exact ⟨ihw, Carries.trans (Carries.trans hc1 hc2) ihc⟩

theorem getD_set_batch {l : List Slot} {i j : Nat} {a : Slot}
    (hab : a.batch = (l.getD i defaultSlot).batch) :
    ((l.set i a).getD j defaultSlot).batch = (l.getD j defaultSlot).batch := by
  by_cases hji : j = i
  · subst hji
    by_cases hj : j < l.length
    · rw [getD_set_self hj, hab]
    · rw [List.set_eq_of_length_le (by omega)]
  · rw [getD_set_of_ne hji]

/-- A transition that keeps every slot's local batch, the published list, and
the event log (up to extension) carries all pending retirements. -/
theorem carries_of_batch_preserved {st st' : RState}
    (hlen : st'.slots.length = st.slots.length)
    (hbatch : ∀ j, (st'.slots.getD j defaultSlot).batch =
      (st.slots.getD j defaultSlot).batch)
    (hpub : st'.published = st.published)
    (hev : ∀ x, x ∈ st.events → x ∈ st'.events) :
    Carries st st' := by
  intro pr hpr
  rcases hpr with hpend | hev2
  · rcases hpend with ⟨j, hj, hjm⟩ | ⟨e, he, hef⟩
    · refine Or.inl (Or.inl ⟨j, by omega, ?_⟩)
      rw [hbatch j]
      exact hjm
    · refine Or.inl (Or.inr ⟨e, ?_, hef⟩)
      rw [hpub]
      exact he
  · exact Or.inr (hev pr hev2)

/-- Slot `i` with its primary list detached. -/
def clearPrimarySlot (st : RState) (i : Nat) : Slot :=
  { st.slots.getD i defaultSlot with primaryList := [] }

theorem refTotal_clearPrimary (st : RState) (i : Nat) (id : BatchId) :
    refTotal { st with slots := st.slots.set i (clearPrimarySlot st i) } id +
      (st.slots.getD i defaultSlot).primaryList.count id = refTotal st id := by
  have hrw : refTotal { st with slots := st.slots.set i (clearPrimarySlot st i) } id =
      ((st.slots.set i (clearPrimarySlot st i)).map fun s => refsInSlot s id).sum := rfl
  have hrt : refTotal st id = (st.slots.map fun s => refsInSlot s id).sum := rfl
  by_cases hi : i < st.slots.length
  · have hsum := sum_map_set' (l := st.slots) (clearPrimarySlot st i) defaultSlot
      (fun s => refsInSlot s id) hi
    simp only at hsum
    have h1 : refsInSlot (clearPrimarySlot st i) id +
        (st.slots.getD i defaultSlot).primaryList.count id =
        refsInSlot (st.slots.getD i defaultSlot) id := by
      unfold clearPrimarySlot refsInSlot
      simp only [List.count_nil]
      omega
    omega
  · have hset : st.slots.set i (clearPrimarySlot st i) = st.slots :=
      List.set_eq_of_length_le (by omega)
    have hd : st.slots.getD i defaultSlot = defaultSlot := getD_oob (by omega)
    rw [hrw, hset, hd]
    show (st.slots.map fun s => refsInSlot s id).sum + List.count id [] = _
    rw [List.count_nil, hrt]
    omega

theorem detachPrimary_wfx (st : RState) (i : Nat) {extra : BatchId → Nat}
    (h : wfx st extra) :
    wfx (detachPrimary st i) extra ∧ Carries st (detachPrimary st i) := by
  obtain ⟨hnd, hcnt, hmem⟩ := h
  have heq : detachPrimary st i = processPrimaryChain
      { st with slots := st.slots.set i (clearPrimarySlot st i) } i
      (st.slots.getD i defaultSlot).primaryList := rfl
  have hwfx1 : wfx { st with slots := st.slots.set i (clearPrimarySlot st i) }
      (fun id => extra id + (st.slots.getD i defaultSlot).primaryList.count id) := by
    refine ⟨hnd, ?_, ?_⟩
    · intro e he
      have hc := hcnt e he
      refine ⟨?_, hc.2⟩
      have hr := refTotal_clearPrimary st i e.1
      beta_reduce
      omega
    · intro id hpos
      have hr := refTotal_clearPrimary st i id
      beta_reduce at hpos
      apply hmem
      omega
  obtain ⟨hw, hc⟩ := processPrimaryChain_wfx i
    (st.slots.getD i defaultSlot).primaryList
    { st with slots := st.slots.set i (clearPrimarySlot st i) } extra hwfx1
  have hcar1 : Carries st { st with slots := st.slots.set i (clearPrimarySlot st i) } := by
    apply carries_of_batch_preserved
    · simp
    · intro j
      exact getD_set_batch rfl
    · rfl
    · intro x hx
      exact hx
  rw [heq]
  exact ⟨hw, Carries.trans hcar1 hc⟩

/-- Snapshot entry `k` of slot `i` with its conflict list detached. -/
def clearedEntry (st : RState) (i k : Nat) : SnapshotPtr :=
  ⟨((st.slots.getD i defaultSlot).snapshots.getD k ⟨0, []⟩).ptr, []⟩

/-- Slot `i` with snapshot entry `k`'s conflict list detached. -/
def clearConflictSlot (st : RState) (i k : Nat) : Slot :=
  { st.slots.getD i defaultSlot with
    snapshots := (st.slots.getD i defaultSlot).snapshots.set k (clearedEntry st i k) }

theorem refTotal_clearConflict (st : RState) (i k : Nat) (id : BatchId) :
    refTotal { st with slots := st.slots.set i (clearConflictSlot st i k) } id +
      ((st.slots.getD i defaultSlot).snapshots.getD k ⟨0, []⟩).conflicts.count id =
      refTotal st id := by
  have hrw : refTotal { st with slots := st.slots.set i (clearConflictSlot st i k) } id =
      ((st.slots.set i (clearConflictSlot st i k)).map fun s => refsInSlot s id).sum := rfl
  have hrt : refTotal st id = (st.slots.map fun s => refsInSlot s id).sum := rfl
  have hm0 : List.count id ([] : List BatchId) = 0 := List.count_nil id
  by_cases hi : i < st.slots.length
  · have hsum := sum_map_set' (l := st.slots) (clearConflictSlot st i k) defaultSlot
      (fun s => refsInSlot s id) hi
    simp only at hsum
    have ha : refsInSlot (clearConflictSlot st i k) id =
        (st.slots.getD i defaultSlot).primaryList.count id +
        (((st.slots.getD i defaultSlot).snapshots.set k (clearedEntry st i k)).map
          fun e => e.conflicts.count id).sum := rfl
    have hb : refsInSlot (st.slots.getD i defaultSlot) id =
        (st.slots.getD i defaultSlot).primaryList.count id +
        ((st.slots.getD i defaultSlot).snapshots.map
          fun e => e.conflicts.count id).sum := rfl
    have h1 : refsInSlot (clearConflictSlot st i k) id +
        ((st.slots.getD i defaultSlot).snapshots.getD k ⟨0, []⟩).conflicts.count id =
        refsInSlot (st.slots.getD i defaultSlot) id := by
      by_cases hk : k < (st.slots.getD i defaultSlot).snapshots.length
      · have hsum2 := sum_map_set'
          (l := (st.slots.getD i defaultSlot).snapshots)
          (clearedEntry st i k)
          (⟨0, []⟩ : SnapshotPtr) (fun e => e.conflicts.count id) hk
        simp only at hsum2
        have hz : (clearedEntry st i k).conflicts.count id = 0 := hm0
        omega
      · have hset2 : (st.slots.getD i defaultSlot).snapshots.set k
            (clearedEntry st i k) = (st.slots.getD i defaultSlot).snapshots :=
          List.set_eq_of_length_le (by omega)
        have hd2 : (st.slots.getD i defaultSlot).snapshots.getD k ⟨0, []⟩ =
            (⟨0, []⟩ : SnapshotPtr) := getD_oob (by omega)
        rw [ha, hset2, hd2]
        show _ + List.count id [] = _
        rw [hm0, hb]
        omega
    omega
  · have hset : st.slots.set i (clearConflictSlot st i k) = st.slots :=
      List.set_eq_of_length_le (by omega)
    have hd : st.slots.getD i defaultSlot = defaultSlot := getD_oob (by omega)
    rw [hrw, hset, hd]
    show (st.slots.map fun s => refsInSlot s id).sum +
      (List.getD ([] : List SnapshotPtr) k ⟨0, []⟩).conflicts.count id = _
    rw [getD_oob (by simp)]
    show (st.slots.map fun s => refsInSlot s id).sum + List.count id [] = _
    rw [hm0, hrt]
    omega

theorem detachConflictsAt_wfx (st : RState) (i k : Nat) {extra : BatchId → Nat}
    (h : wfx st extra) :
    wfx (detachConflictsAt st i k) extra ∧ Carries st (detachConflictsAt st i k) := by
  obtain ⟨hnd, hcnt, hmem⟩ := h
  have heq : detachConflictsAt st i k = processConflictChain
      { st with slots := st.slots.set i (clearConflictSlot st i k) }
      ((st.slots.getD i defaultSlot).snapshots.getD k ⟨0, []⟩).conflicts := rfl
  have hwfx1 : wfx { st with slots := st.slots.set i (clearConflictSlot st i k) }
      (fun id => extra id +
        ((st.slots.getD i defaultSlot).snapshots.getD k ⟨0, []⟩).conflicts.count id) := by
    refine ⟨hnd, ?_, ?_⟩
    · intro e he
      have hc := hcnt e he
      refine ⟨?_, hc.2⟩
      have hr := refTotal_clearConflict st i k e.1
      beta_reduce
      omega
    · intro id hpos
      have hr := refTotal_clearConflict st i k id
      beta_reduce at hpos
      apply hmem
      omega
  obtain ⟨hw, hc, _⟩ := processConflictChain_wfx
    ((st.slots.getD i defaultSlot).snapshots.getD k ⟨0, []⟩).conflicts
    { st with slots := st.slots.set i (clearConflictSlot st i k) } extra hwfx1
  have hcar1 : Carries st { st with slots := st.slots.set i (clearConflictSlot st i k) } := by
    apply carries_of_batch_preserved
    · simp
    · intro j
      exact getD_set_batch rfl
    · rfl
    · intro x hx
      exact hx
  rw [heq]
  exact ⟨hw, Carries.trans hcar1 hc⟩

theorem processConflictChain_slots :
    ∀ (chain : List BatchId) (st : RState),
    (processConflictChain st chain).slots = st.slots := by
  intro chain
  induction chain with
  | nil => intro st; rfl
  | cons id rest ih =>
    intro st
    rw [processConflictChain, ih, decRefRun_slots]

theorem processPrimaryChain_getD_ne (i j : Nat) (hj : j ≠ i) :
    ∀ (chain : List BatchId) (st : RState),
    (processPrimaryChain st i chain).slots.getD j defaultSlot =
      st.slots.getD j defaultSlot := by
  intro chain
  induction chain with
  | nil => intro st; rfl
  | cons id rest ih =>
    intro st
    rw [processPrimaryChain, ih]
    unfold dropPrimaryNode
    rw [decRefRun_slots]
    exact conflictInsertions_getD_ne hj

theorem detachPrimary_slots_spec (st : RState) (i : Nat) :
    (detachPrimary st i).slots.length = st.slots.length ∧
    (∀ j, j ≠ i → (detachPrimary st i).slots.getD j defaultSlot =
      st.slots.getD j defaultSlot) ∧
    ((detachPrimary st i).slots.getD i defaultSlot).primaryList = [] ∧
    ((detachPrimary st i).slots.getD i defaultSlot).batch =
      (st.slots.getD i defaultSlot).batch := by
  have heq : detachPrimary st i = processPrimaryChain
      { st with slots := st.slots.set i (clearPrimarySlot st i) } i
      (st.slots.getD i defaultSlot).primaryList := rfl
  have hf := processPrimaryChain_fields i i
    (st.slots.getD i defaultSlot).primaryList
    { st with slots := st.slots.set i (clearPrimarySlot st i) }
  refine ⟨?_, ?_, ?_, ?_⟩
  · rw [heq, hf.2.2.2]
    show (st.slots.set i (clearPrimarySlot st i)).length = _
    simp
  · intro j hj
    rw [heq, processPrimaryChain_getD_ne i j hj]
    show (st.slots.set i (clearPrimarySlot st i)).getD j defaultSlot = _
    exact getD_set_of_ne hj
  · rw [heq, hf.1]
    show ((st.slots.set i (clearPrimarySlot st i)).getD i defaultSlot).primaryList = []
    by_cases hi : i < st.slots.length
    · rw [getD_set_self hi]
      rfl
    · rw [List.set_eq_of_length_le (by omega), getD_oob (by omega)]
      rfl
  · rw [heq, hf.2.2.1]
    show ((st.slots.set i (clearPrimarySlot st i)).getD i defaultSlot).batch = _
    by_cases hi : i < st.slots.length
    · rw [getD_set_self hi]
      rfl
    · rw [List.set_eq_of_length_le (by omega), getD_oob (by omega)]

theorem detachConflictsAt_slots (st : RState) (i k : Nat) :
    (detachConflictsAt st i k).slots = st.slots.set i (clearConflictSlot st i k) := by
  have heq : detachConflictsAt st i k = processConflictChain
      { st with slots := st.slots.set i (clearConflictSlot st i k) }
      ((st.slots.getD i defaultSlot).snapshots.getD k ⟨0, []⟩).conflicts := rfl
  rw [heq, processConflictChain_slots]

theorem detachConflictsAt_slot_facts (st : RState) (i k0 : Nat) :
    (detachConflictsAt st i k0).slots.length = st.slots.length ∧
    (∀ j, j ≠ i → (detachConflictsAt st i k0).slots.getD j defaultSlot =
      st.slots.getD j defaultSlot) ∧
    ((detachConflictsAt st i k0).slots.getD i defaultSlot).primaryList =
      (st.slots.getD i defaultSlot).primaryList ∧
    ((detachConflictsAt st i k0).slots.getD i defaultSlot).batch =
      (st.slots.getD i defaultSlot).batch ∧
    ((detachConflictsAt st i k0).slots.getD i defaultSlot).snapshots.length =
      (st.slots.getD i defaultSlot).snapshots.length ∧
    (∀ k, k ≠ k0 →
      ((detachConflictsAt st i k0).slots.getD i defaultSlot).snapshots.getD k ⟨0, []⟩ =
        (st.slots.getD i defaultSlot).snapshots.getD k ⟨0, []⟩) ∧
    (((detachConflictsAt st i k0).slots.getD i defaultSlot).snapshots.getD k0
      ⟨0, []⟩).conflicts = [] := by
  have hsl := detachConflictsAt_slots st i k0
  by_cases hi : i < st.slots.length
  · have hgi : (detachConflictsAt st i k0).slots.getD i defaultSlot =
        clearConflictSlot st i k0 := by
      rw [hsl]
      exact getD_set_self hi
    refine ⟨?_, ?_, ?_, ?_, ?_, ?_, ?_⟩
    · rw [hsl]
      simp
    · intro j hj
      rw [hsl]
      exact getD_set_of_ne hj
    · rw [hgi]
      rfl
    · rw [hgi]
      rfl
    · rw [hgi]
      show ((st.slots.getD i defaultSlot).snapshots.set k0
        (clearedEntry st i k0)).length = _
      simp
    · intro k hk
      rw [hgi]
      show ((st.slots.getD i defaultSlot).snapshots.set k0
        (clearedEntry st i k0)).getD k ⟨0, []⟩ = _
      exact getD_set_of_ne hk
    · rw [hgi]
      show (((st.slots.getD i defaultSlot).snapshots.set k0
        (clearedEntry st i k0)).getD k0 ⟨0, []⟩).conflicts = []
      by_cases hk0 : k0 < (st.slots.getD i defaultSlot).snapshots.length
      · rw [getD_set_self hk0]
        rfl
      · rw [List.set_eq_of_length_le (by omega), getD_oob (by omega)]
  · have hid : st.slots.set i (clearConflictSlot st i k0) = st.slots :=
      List.set_eq_of_length_le (by omega)
    have hgd : st.slots.getD i defaultSlot = defaultSlot := getD_oob (by omega)
    rw [hsl, hid]
    refine ⟨rfl, fun j _ => rfl, rfl, rfl, rfl, fun k _ => rfl, ?_⟩
    rw [hgd]
    show ((([] : List SnapshotPtr)).getD k0 ⟨0, []⟩).conflicts = []
    rw [getD_oob (by simp)]

/-- The inner detach loop over snapshot indices `ks` of slot `i`: the
accounting invariant and pending retirements are preserved, other slots and
the non-snapshot fields of slot `i` are untouched, entries outside `ks` are
untouched, and every entry in `ks` ends with an empty conflict list. -/
theorem detachAllConflictsFrom_spec (i : Nat) :
    ∀ (ks : List Nat) (st : RState) (extra : BatchId → Nat), wfx st extra →
    wfx (detachAllConflictsFrom st i ks) extra ∧
    Carries st (detachAllConflictsFrom st i ks) ∧
    (detachAllConflictsFrom st i ks).slots.length = st.slots.length ∧
    (∀ j, j ≠ i → (detachAllConflictsFrom st i ks).slots.getD j defaultSlot =
      st.slots.getD j defaultSlot) ∧
    ((detachAllConflictsFrom st i ks).slots.getD i defaultSlot).primaryList =
      (st.slots.getD i defaultSlot).primaryList ∧
    ((detachAllConflictsFrom st i ks).slots.getD i defaultSlot).batch =
      (st.slots.getD i defaultSlot).batch ∧
    ((detachAllConflictsFrom st i ks).slots.getD i defaultSlot).snapshots.length =
      (st.slots.getD i defaultSlot).snapshots.length ∧
    (∀ k, k ∉ ks →
      ((detachAllConflictsFrom st i ks).slots.getD i defaultSlot).snapshots.getD k
        ⟨0, []⟩ = (st.slots.getD i defaultSlot).snapshots.getD k ⟨0, []⟩) ∧
    (∀ k ∈ ks,
      (((detachAllConflictsFrom st i ks).slots.getD i defaultSlot).snapshots.getD k
        ⟨0, []⟩).conflicts = []) := by
  intro ks
  induction ks with
  | nil =>
    intro st extra h
    exact ⟨h, Carries.rfl, rfl, fun j _ => rfl, rfl, rfl, rfl, fun k _ => rfl,
      fun k hk => absurd hk (List.not_mem_nil k)⟩
  | cons k0 rest ih =>
    intro st extra h
    obtain ⟨hw1, hc1⟩ := detachConflictsAt_wfx st i k0 h
    obtain ⟨hlen1, hne1, hprim1, hbatch1, hslen1, hunch1, hcl1⟩ :=
      detachConflictsAt_slot_facts st i k0
    obtain ⟨ihw, ihc, ihlen, ihne, ihprim, ihbatch, ihslen, ihunch, ihcl⟩ :=
      ih (detachConflictsAt st i k0) extra hw1
    rw [detachAllConflictsFrom]
    refine ⟨ihw, Carries.trans hc1 ihc, ihlen.trans hlen1, ?_,
      ihprim.trans hprim1, ihbatch.trans hbatch1, ihslen.trans hslen1, ?_, ?_⟩
    · intro j hj
      exact (ihne j hj).trans (hne1 j hj)
    · intro k hk
      have hk1 : k ∉ rest := fun hh => hk (List.mem_cons_of_mem _ hh)
      have hk0 : k ≠ k0 := fun hh => hk (by rw [hh]; exact List.mem_cons_self _ _)
      exact (ihunch k hk1).trans (hunch1 k hk0)
    · intro k hk
      rcases List.mem_cons.1 hk with hk' | hk'
      · by_cases hkr : k ∈ rest
        · exact ihcl k hkr
        · rw [ihunch k hkr, hk']
          exact hcl1
      · exact ihcl k hk'

/-- Slot `i` after `slot.batch.take()`: the local batch replaced by an empty
default one. -/
def takeBatchSlot (st : RState) (i : Nat) : Slot :=
  { st.slots.getD i defaultSlot with batch := emptyBatch }

/-- `drop(slot.batch.take())` in `Drop for StandardReclaimer`: the local
batch is taken out and dropped, and `Batch::drop` runs every `(ptr, f)` pair,
recorded in the event log. -/
def takeBatchState (st : RState) (i : Nat) : RState :=
  { st with slots := st.slots.set i (takeBatchSlot st i),
            events := st.events ++ (st.slots.getD i defaultSlot).batch.functions }

theorem dropSlotCleanup_eq (st : RState) (i : Nat) :
    dropSlotCleanup st i =
      detachAllConflictsFrom (detachPrimary (takeBatchState st i) i) i
        (List.range (((detachPrimary (takeBatchState st i) i).slots.getD i
          defaultSlot).snapshots.length)) := rfl

theorem refTotal_takeBatch (st : RState) (i : Nat) (id : BatchId) :
    refTotal (takeBatchState st i) id = refTotal st id := by
  have hrw : refTotal (takeBatchState st i) id =
      ((st.slots.set i (takeBatchSlot st i)).map fun s => refsInSlot s id).sum := rfl
  have hrt : refTotal st id = (st.slots.map fun s => refsInSlot s id).sum := rfl
  by_cases hi : i < st.slots.length
  · have hsum := sum_map_set' (l := st.slots) (takeBatchSlot st i) defaultSlot
      (fun s => refsInSlot s id) hi
    simp only at hsum
    have ha : refsInSlot (takeBatchSlot st i) id =
        refsInSlot (st.slots.getD i defaultSlot) id := rfl
    omega
  · rw [hrw, List.set_eq_of_length_le (by omega), hrt]

/-- Taking and dropping slot `i`'s local batch preserves the accounting
invariant (the batch holds no references) and loses nothing pending: the
batch's closures run right there. -/
theorem takeBatchState_wfx (st : RState) (i : Nat) {extra : BatchId → Nat}
    (h : wfx st extra) :
    wfx (takeBatchState st i) extra ∧ Carries st (takeBatchState st i) := by
  obtain ⟨hnd, hcnt, hmem⟩ := h
  refine ⟨⟨hnd, ?_, ?_⟩, ?_⟩
  · intro e he
    have hc := hcnt e he
    refine ⟨?_, hc.2⟩
    rw [refTotal_takeBatch]
    exact hc.1
  · intro id hpos
    rw [refTotal_takeBatch] at hpos
    exact hmem id hpos
  · intro pr hpr
    rcases hpr with hpend | hev
    · rcases hpend with ⟨j, hj, hjm⟩ | ⟨e, he, hef⟩
      · by_cases hji : j = i
        · subst hji
          right
          show pr ∈ st.events ++ (st.slots.getD j defaultSlot).batch.functions
          exact List.mem_append.2 (Or.inr hjm)
        · refine Or.inl (Or.inl ⟨j, ?_, ?_⟩)
          · show j < (st.slots.set i (takeBatchSlot st i)).length
            rw [List.length_set]
            exact hj
          · show pr ∈ ((st.slots.set i (takeBatchSlot st i)).getD j
              defaultSlot).batch.functions
            rw [getD_set_of_ne hji]
            exact hjm
      · exact Or.inl (Or.inr ⟨e, he, hef⟩)
    · exact Or.inr (List.mem_append.2 (Or.inl hev))

theorem takeBatchState_slots (st : RState) (i : Nat) :
    (takeBatchState st i).slots.length = st.slots.length ∧
    (∀ j, j ≠ i → (takeBatchState st i).slots.getD j defaultSlot =
      st.slots.getD j defaultSlot) ∧
    ((takeBatchState st i).slots.getD i defaultSlot).batch = emptyBatch ∧
    ((takeBatchState st i).slots.getD i defaultSlot).primaryList =
      (st.slots.getD i defaultSlot).primaryList := by
  have hs : (takeBatchState st i).slots = st.slots.set i (takeBatchSlot st i) := rfl
  rw [hs]
  by_cases hi : i < st.slots.length
  · refine ⟨by simp, fun j hj => getD_set_of_ne hj, ?_, ?_⟩
    · rw [getD_set_self hi]
      rfl
    · rw [getD_set_self hi]
      rfl
  · have hid : st.slots.set i (takeBatchSlot st i) = st.slots :=
      List.set_eq_of_length_le (by omega)
    have hgd : st.slots.getD i defaultSlot = defaultSlot := getD_oob (by omega)
    rw [hid, hgd]
    exact ⟨rfl, fun j _ => rfl, rfl, rfl⟩

theorem cleanSlot_of (s : Slot) (h1 : s.batch = emptyBatch) (h2 : s.primaryList = [])
    (h3 : ∀ k, k < s.snapshots.length → (s.snapshots.getD k ⟨0, []⟩).conflicts = []) :
    CleanSlot s := by
  refine ⟨by rw [h1]; rfl, h2, ?_⟩
  intro e he
  obtain ⟨k, hk, hke⟩ := List.getElem_of_mem he
  have hgd : s.snapshots.getD k ⟨0, []⟩ = e := by
    rw [List.getD_eq_getElem?_getD, List.getElem?_eq_getElem hk]
    exact hke
  rw [← hgd]
  exact h3 k hk

/-- One iteration of the cleanup loop in `Drop for StandardReclaimer`
preserves the accounting invariant and all pending retirements, leaves every
other slot untouched, and leaves slot `i` clean. -/
theorem dropSlotCleanup_spec (st : RState) (i : Nat) {extra : BatchId → Nat}
    (h : wfx st extra) :
    wfx (dropSlotCleanup st i) extra ∧ Carries st (dropSlotCleanup st i) ∧
    (dropSlotCleanup st i).slots.length = st.slots.length ∧
    (∀ j, j ≠ i → (dropSlotCleanup st i).slots.getD j defaultSlot =
      st.slots.getD j defaultSlot) ∧
    CleanSlot ((dropSlotCleanup st i).slots.getD i defaultSlot) := by
  obtain ⟨hw1, hc1⟩ := takeBatchState_wfx st i h
  obtain ⟨hlen1, hne1, hbatch1, hprim1⟩ := takeBatchState_slots st i
  obtain ⟨hw2, hc2⟩ := detachPrimary_wfx (takeBatchState st i) i hw1
  obtain ⟨hlen2, hne2, hprim2, hbatch2⟩ := detachPrimary_slots_spec (takeBatchState st i) i
  obtain ⟨hw3, hc3, hlen3, hne3, hprim3, hbatch3, hslen3, hunch3, hcl3⟩ :=
    detachAllConflictsFrom_spec i
      (List.range (((detachPrimary (takeBatchState st i) i).slots.getD i
        defaultSlot).snapshots.length))
      (detachPrimary (takeBatchState st i) i) extra hw2
  rw [dropSlotCleanup_eq]
  refine ⟨hw3, Carries.trans hc1 (Carries.trans hc2 hc3), ?_, ?_, ?_⟩
  · exact (hlen3.trans hlen2).trans hlen1
  · intro j hj
    exact ((hne3 j hj).trans (hne2 j hj)).trans (hne1 j hj)
  · refine cleanSlot_of _ ((hbatch3.trans hbatch2).trans hbatch1)
      (hprim3.trans hprim2) ?_
    intro k hk
    rw [hslen3] at hk
    exact hcl3 k (List.mem_range.2 hk)

/-- The slot loop of `Drop for StandardReclaimer` over indices `idxs`:
well-formedness and pending retirements are preserved, unvisited slots are
untouched, and every visited slot ends clean. -/
theorem reclaimerDropFrom_spec :
    ∀ (idxs : List Nat) (st : RState), wf st →
    wf (reclaimerDropFrom st idxs) ∧ Carries st (reclaimerDropFrom st idxs) ∧
    (reclaimerDropFrom st idxs).slots.length = st.slots.length ∧
    (∀ j, j ∉ idxs → (reclaimerDropFrom st idxs).slots.getD j defaultSlot =
      st.slots.getD j defaultSlot) ∧
    (∀ j ∈ idxs, CleanSlot ((reclaimerDropFrom st idxs).slots.getD j defaultSlot)) := by
  intro idxs
  induction idxs with
  | nil =>
    intro st h
    exact ⟨h, Carries.rfl, rfl, fun j _ => rfl, fun j hj => absurd hj (List.not_mem_nil j)⟩
  | cons i rest ih =>
    intro st h
    obtain ⟨hw1, hc1, hlen1, hne1, hcl1⟩ := dropSlotCleanup_spec st i h
    obtain ⟨ihw, ihc, ihlen, ihne, ihcl⟩ := ih (dropSlotCleanup st i) hw1
    rw [reclaimerDropFrom]
    refine ⟨ihw, Carries.trans hc1 ihc, ihlen.trans hlen1, ?_, ?_⟩
    · intro j hj
      have hj1 : j ∉ rest := fun hh => hj (List.mem_cons_of_mem _ hh)
      have hj0 : j ≠ i := fun hh => hj (by rw [hh]; exact List.mem_cons_self _ _)
      exact (ihne j hj1).trans (hne1 j hj0)
    · intro j hj
      rcases List.mem_cons.1 hj with hj' | hj'
      · by_cases hjr : j ∈ rest
        · exact ihcl j hjr
        · rw [ihne j hjr, hj']
          exact hcl1
      · exact ihcl j hj'

theorem cleanSlot_default : CleanSlot defaultSlot :=
  ⟨rfl, rfl, fun e he => absurd he (List.not_mem_nil e)⟩

/-- C10: dropping a `StandardReclaimer` drains every slot.  From any state
satisfying the reference-count accounting invariant `wf`, after
`reclaimerDrop` completes, no published batch remains alive, every slot ends
clean (its accumulated local batch dropped, its primary list detached, and
every snapshot entry's conflict list detached), and every retirement closure
that was pending with the reclaimer — in some slot's local batch or in a
published batch — has been executed, i.e. appears in the event log. -/
theorem c10_reclaimer_drop_drains (st : RState) (h : wf st) :
    (reclaimerDrop st).published = [] ∧
    (∀ j, CleanSlot ((reclaimerDrop st).slots.getD j defaultSlot)) ∧
    (∀ pr, PendingIn pr st → pr ∈ (reclaimerDrop st).events) := by
  obtain ⟨hw, hc, hlen, hne, hcl⟩ :=
    reclaimerDropFrom_spec (List.range st.slots.length) st h
  have heq : reclaimerDrop st = reclaimerDropFrom st (List.range st.slots.length) := rfl
  have hallclean : ∀ j, CleanSlot ((reclaimerDrop st).slots.getD j defaultSlot) := by
    intro j
    by_cases hj : j < st.slots.length
    · rw [heq]
      exact hcl j (List.mem_range.2 hj)
    · rw [heq, getD_oob (by rw [hlen]; omega)]
      exact cleanSlot_default
  have href : ∀ id, refTotal (reclaimerDrop st) id = 0 := by
    intro id
    show ((reclaimerDrop st).slots.map fun s => refsInSlot s id).sum = 0
    apply List.sum_eq_zero
    intro x hx
    obtain ⟨s, hs, hsx⟩ := List.mem_map.1 hx
    obtain ⟨k, hk, hke⟩ := List.getElem_of_mem hs
    have hgd : (reclaimerDrop st).slots.getD k defaultSlot = s := by
      rw [List.getD_eq_getElem?_getD, List.getElem?_eq_getElem hk]
      exact hke
    rw [← hsx, ← hgd]
    exact refsInSlot_of_clean (hallclean k) id
  have hpub : (reclaimerDrop st).published = [] := by
    apply List.eq_nil_iff_forall_not_mem.2
    intro e he
    rw [heq] at he
    obtain ⟨hnd, hcnt, hmem⟩ := hw
    obtain ⟨hc1', hc2'⟩ := hcnt e he
    have h0 := href e.1
    rw [heq] at h0
    rw [h0] at hc1'
    simp at hc1'
    omega
  refine ⟨hpub, hallclean, ?_⟩
  intro pr hpr
  have h2 := hc pr (Or.inl hpr)
  rw [heq]
  rcases h2 with hp | hev
  · exfalso
    rcases hp with ⟨j, hj, hjm⟩ | ⟨e, hee, hef⟩
    · have hcj := hallclean j
      rw [heq] at hcj
      rw [hcj.1] at hjm
      exact List.not_mem_nil pr hjm
    · rw [show (reclaimerDropFrom st (List.range st.slots.length)).published = []
        from by rw [← heq]; exact hpub] at hee
      exact List.not_mem_nil e hee
  · exact hev

/-- A one-slot state with a pending retirement `(3, 7)` sitting in the slot's
local batch and nothing published. -/
def w10Slot : Slot := { defaultSlot with batch := ⟨[(3, 7)], [3], 2⟩ }

def w10State : RState := ⟨[w10Slot], 1, [], 1, []⟩

theorem w10_wf : wf w10State := by
  refine ⟨List.nodup_nil, ?_, ?_⟩
  · intro e he
    exact absurd he (List.not_mem_nil e)
  · intro id hpos
    have h0 : refTotal w10State id = 0 := rfl
    rw [h0] at hpos
    simp at hpos

theorem c10_reclaimer_drop_drains_witness :
    wf w10State ∧
    ((reclaimerDrop w10State).published = [] ∧
      (∀ j, CleanSlot ((reclaimerDrop w10State).slots.getD j defaultSlot)) ∧
      (∀ pr, PendingIn pr w10State → pr ∈ (reclaimerDrop w10State).events)) :=
  ⟨w10_wf, c10_reclaimer_drop_drains w10State w10_wf⟩

/-!
### A coarse-grained interleaving machine for the reclaimer protocol (C2)

Threads own distinct slots and interleave at the granularity of the
reclaimer's public operations, each of which the model embeds as a function
on `RState` translated from the source.
-/

/-- `ProtectPtr::protect_ptr`'s scan of a slot's snapshot list: claim the
first entry whose pointer is null (the `compare_exchange` from null writes
only the pointer), or append a fresh node of `SNAPSHOT_PTRS_PER_NODE = 8`
default entries and claim the first of them. -/
def protectScan (p : Ptr) : List SnapshotPtr → List SnapshotPtr
  | [] => ⟨p, []⟩ :: List.replicate 7 ⟨0, []⟩
  | e :: rest => if e.ptr = 0 then { e with ptr := p } :: rest else e :: protectScan p rest

/-- `ProtectPtr::protect_ptr` invoked from the thread owning slot `i`. -/
def protectPtr (st : RState) (i : Nat) (p : Ptr) : RState :=
  let slot := st.slots.getD i defaultSlot
  { st with slots := st.slots.set i { slot with snapshots := protectScan p slot.snapshots } }

/-- `Release for SnapshotPtr` on entry `k` of slot `i`: store null into the
entry's pointer, then detach and drop its conflict list. -/
def releaseSnapshot (st : RState) (i k : Nat) : RState :=
  let slot := st.slots.getD i defaultSlot
  let e := slot.snapshots.getD k ⟨0, []⟩
  let slot2 := { slot with snapshots := slot.snapshots.set k ⟨0, []⟩ }
  let st1 := { st with slots := st.slots.set i slot2 }
  processConflictChain st1 e.conflicts

/-- One atomic step of the machine: the thread owning slot `i` performs one
complete reclaimer operation. -/
inductive RLabel where
  | beginCS (i : Nat)
  | endCS (i : Nat)
  | retireStep (i : Nat) (p : Ptr) (rid : Nat)
  | protectStep (i : Nat) (p : Ptr)
  | releaseStep (i k : Nat)
deriving DecidableEq

def rstep (st : RState) : RLabel → RState
  | .beginCS i => beginCriticalSection st i
  | .endCS i => endCriticalSection st i
  | .retireStep i p rid => retire st i p rid
  | .protectStep i p => protectPtr st i p
  | .releaseStep i k => releaseSnapshot st i k

def runLabels (st : RState) : List RLabel → RState
  | [] => st
  | l :: ls => runLabels (rstep st l) ls

/-- Global invariant of the machine: reference-count accounting plus
freshness of the id counter. -/
def RInv (st : RState) : Prop :=
  wf st ∧ ∀ id ∈ pubIds st, id < st.nextId

theorem refTotal_set_congr {st : RState} {i : Nat} {a : Slot}
    (ha : ∀ id, refsInSlot a id = refsInSlot (st.slots.getD i defaultSlot) id)
    (id : BatchId) :
    ((st.slots.set i a).map fun s => refsInSlot s id).sum = refTotal st id := by
  have hrt : refTotal st id = (st.slots.map fun s => refsInSlot s id).sum := rfl
  by_cases hi : i < st.slots.length
  · have hsum := sum_map_set' (l := st.slots) a defaultSlot (fun s => refsInSlot s id) hi
    simp only at hsum
    have h2 := ha id
    omega
  · rw [List.set_eq_of_length_le (by omega), hrt]

theorem getD_map_of_lt {α β : Type} (f : α → β) {l : List α} {k : Nat} (d : α) (d2 : β)
    (h : k < l.length) : (l.map f).getD k d2 = f (l.getD k d) := by
  rw [List.getD_eq_getElem?_getD, List.getElem?_map, List.getD_eq_getElem?_getD,
    List.getElem?_eq_getElem h]
  rfl

theorem count_pos_of_mem {a : Nat} {l : List Nat} (h : a ∈ l) : 0 < l.count a :=
  Nat.pos_of_ne_zero fun h0 => (List.count_eq_zero.1 h0) h

theorem refsInSlot_pos_of_primary {s : Slot} {id : BatchId}
    (h : id ∈ s.primaryList) : 0 < refsInSlot s id := by
  have hc := count_pos_of_mem h
  unfold refsInSlot
  omega

theorem refsInSlot_pos_of_conflict {s : Slot} {k : Nat} {id : BatchId}
    (h : id ∈ (s.snapshots.getD k ⟨0, []⟩).conflicts) : 0 < refsInSlot s id := by
  by_cases hk : k < s.snapshots.length
  · have hmem : s.snapshots.getD k ⟨0, []⟩ ∈ s.snapshots := by
      rw [List.getD_eq_getElem?_getD, List.getElem?_eq_getElem hk]
      exact List.getElem_mem hk
    have hc := count_pos_of_mem h
    have hle : (s.snapshots.getD k ⟨0, []⟩).conflicts.count id ≤
        (s.snapshots.map fun e => e.conflicts.count id).sum :=
      List.single_le_sum (fun x _ => Nat.zero_le x) _
        (List.mem_map.2 ⟨_, hmem, rfl⟩)
    unfold refsInSlot
    omega
  · rw [getD_oob (by omega)] at h
    exact absurd h (List.not_mem_nil id)

theorem refTotal_pos_of_slot {st : RState} {j : Nat} {id : BatchId}
    (h : 0 < refsInSlot (st.slots.getD j defaultSlot) id) : 0 < refTotal st id := by
  by_cases hj : j < st.slots.length
  · have hmem : st.slots.getD j defaultSlot ∈ st.slots := by
      rw [List.getD_eq_getElem?_getD, List.getElem?_eq_getElem hj]
      exact List.getElem_mem hj
    have hle : refsInSlot (st.slots.getD j defaultSlot) id ≤
        (st.slots.map fun s => refsInSlot s id).sum :=
      List.single_le_sum (fun x _ => Nat.zero_le x) _ (List.mem_map.2 ⟨_, hmem, rfl⟩)
    have hrt : refTotal st id = (st.slots.map fun s => refsInSlot s id).sum := rfl
    omega
  · rw [getD_oob (by omega)] at h
    have h0 : refsInSlot defaultSlot id = 0 := rfl
    omega

theorem beginCriticalSection_wfx (st : RState) (i : Nat) {extra : BatchId → Nat}
    (h : wfx st extra) : wfx (beginCriticalSection st i) extra := by
  obtain ⟨hnd, hcnt, hmem⟩ := h
  have href : ∀ id, refTotal (beginCriticalSection st i) id = refTotal st id := by
    intro id
    refine refTotal_set_congr ?_ id
    intro id2
    rfl
  exact ⟨hnd, fun e he => ⟨by rw [href]; exact (hcnt e he).1, (hcnt e he).2⟩,
    fun id hpos => hmem id (by rwa [href] at hpos)⟩

/-- Slot `i` with its critical-section flag stored `false`. -/
def flagClearedSlot (st : RState) (i : Nat) : Slot :=
  { st.slots.getD i defaultSlot with isInCriticalSection := false }

/-- The state after `end_critical_section` stores `false`, before the primary
list is detached. -/
def flagClearedState (st : RState) (i : Nat) : RState :=
  { st with slots := st.slots.set i (flagClearedSlot st i) }

theorem endCriticalSection_eq (st : RState) (i : Nat) :
    endCriticalSection st i = detachPrimary (flagClearedState st i) i := rfl

theorem flagClearedState_wfx (st : RState) (i : Nat) {extra : BatchId → Nat}
    (h : wfx st extra) : wfx (flagClearedState st i) extra := by
  obtain ⟨hnd, hcnt, hmem⟩ := h
  have href : ∀ id, refTotal (flagClearedState st i) id = refTotal st id := by
    intro id
    refine refTotal_set_congr ?_ id
    intro id2
    rfl
  exact ⟨hnd, fun e he => ⟨by rw [href]; exact (hcnt e he).1, (hcnt e he).2⟩,
    fun id hpos => hmem id (by rwa [href] at hpos)⟩

theorem endCriticalSection_wfx (st : RState) (i : Nat) {extra : BatchId → Nat}
    (h : wfx st extra) : wfx (endCriticalSection st i) extra := by
  rw [endCriticalSection_eq]
  exact (detachPrimary_wfx _ i (flagClearedState_wfx st i h)).1

theorem protectScan_conflictsSum (p : Ptr) (id : BatchId) :
    ∀ snaps : List SnapshotPtr,
    ((protectScan p snaps).map fun e => e.conflicts.count id).sum =
      (snaps.map fun e => e.conflicts.count id).sum := by
  intro snaps
  induction snaps with
  | nil =>
    show ((protectScan p []).map fun e => e.conflicts.count id).sum = 0
    apply List.sum_eq_zero
    intro x hx
    obtain ⟨e, he, hex⟩ := List.mem_map.1 hx
    rw [← hex]
    rcases List.mem_cons.1 he with h1 | h1
    · rw [h1]
      rfl
    · rw [List.eq_of_mem_replicate h1]
      rfl
  | cons e rest ih =>
    rw [protectScan]
    by_cases hp : e.ptr = 0
    · rw [if_pos hp]
      rfl
    · rw [if_neg hp]
      simp only [List.map_cons, List.sum_cons]
      omega

theorem protectPtr_wfx (st : RState) (i : Nat) (p : Ptr) {extra : BatchId → Nat}
    (h : wfx st extra) : wfx (protectPtr st i p) extra := by
  obtain ⟨hnd, hcnt, hmem⟩ := h
  have href : ∀ id, refTotal (protectPtr st i p) id = refTotal st id := by
    intro id
    refine refTotal_set_congr ?_ id
    intro id2
    show (st.slots.getD i defaultSlot).primaryList.count id2 +
      ((protectScan p (st.slots.getD i defaultSlot).snapshots).map
        fun e => e.conflicts.count id2).sum = _
    rw [protectScan_conflictsSum]
    rfl
  exact ⟨hnd, fun e he => ⟨by rw [href]; exact (hcnt e he).1, (hcnt e he).2⟩,
    fun id hpos => hmem id (by rwa [href] at hpos)⟩

/-- Slot `i` with snapshot entry `k` fully released (null pointer, conflict
list detached). -/
def releasedSlot (st : RState) (i k : Nat) : Slot :=
  { st.slots.getD i defaultSlot with
    snapshots := (st.slots.getD i defaultSlot).snapshots.set k ⟨0, []⟩ }

theorem refTotal_releasedSlot (st : RState) (i k : Nat) (id : BatchId) :
    refTotal { st with slots := st.slots.set i (releasedSlot st i k) } id +
      ((st.slots.getD i defaultSlot).snapshots.getD k ⟨0, []⟩).conflicts.count id =
      refTotal st id := by
  have hrw : refTotal { st with slots := st.slots.set i (releasedSlot st i k) } id =
      ((st.slots.set i (releasedSlot st i k)).map fun s => refsInSlot s id).sum := rfl
  have hrt : refTotal st id = (st.slots.map fun s => refsInSlot s id).sum := rfl
  have hm0 : List.count id ([] : List BatchId) = 0 := List.count_nil id
  by_cases hi : i < st.slots.length
  · have hsum := sum_map_set' (l := st.slots) (releasedSlot st i k) defaultSlot
      (fun s => refsInSlot s id) hi
    simp only at hsum
    have ha : refsInSlot (releasedSlot st i k) id =
        (st.slots.getD i defaultSlot).primaryList.count id +
        (((st.slots.getD i defaultSlot).snapshots.set k (⟨0, []⟩ : SnapshotPtr)).map
          fun e => e.conflicts.count id).sum := rfl
    have hb : refsInSlot (st.slots.getD i defaultSlot) id =
        (st.slots.getD i defaultSlot).primaryList.count id +
        ((st.slots.getD i defaultSlot).snapshots.map
          fun e => e.conflicts.count id).sum := rfl
    have h1 : refsInSlot (releasedSlot st i k) id +
        ((st.slots.getD i defaultSlot).snapshots.getD k ⟨0, []⟩).conflicts.count id =
        refsInSlot (st.slots.getD i defaultSlot) id := by
      by_cases hk : k < (st.slots.getD i defaultSlot).snapshots.length
      · have hsum2 := sum_map_set'
          (l := (st.slots.getD i defaultSlot).snapshots)
          (⟨0, []⟩ : SnapshotPtr)
          (⟨0, []⟩ : SnapshotPtr) (fun e => e.conflicts.count id) hk
        simp only at hsum2
        have hz : ((⟨0, []⟩ : SnapshotPtr)).conflicts.count id = 0 := hm0
        omega
      · have hset2 : (st.slots.getD i defaultSlot).snapshots.set k
            (⟨0, []⟩ : SnapshotPtr) = (st.slots.getD i defaultSlot).snapshots :=
          List.set_eq_of_length_le (by omega)
        have hd2 : (st.slots.getD i defaultSlot).snapshots.getD k ⟨0, []⟩ =
            (⟨0, []⟩ : SnapshotPtr) := getD_oob (by omega)
        rw [ha, hset2, hd2]
        show _ + List.count id [] = _
        rw [hm0, hb]
        omega
    omega
  · have hset : st.slots.set i (releasedSlot st i k) = st.slots :=
      List.set_eq_of_length_le (by omega)
    have hd : st.slots.getD i defaultSlot = defaultSlot := getD_oob (by omega)
    rw [hrw, hset, hd]
    show (st.slots.map fun s => refsInSlot s id).sum +
      (List.getD ([] : List SnapshotPtr) k ⟨0, []⟩).conflicts.count id = _
    rw [getD_oob (by simp)]
    show (st.slots.map fun s => refsInSlot s id).sum + List.count id [] = _
    rw [hm0, hrt]
    omega

theorem releaseSnapshot_wfx (st : RState) (i k : Nat) {extra : BatchId → Nat}
    (h : wfx st extra) : wfx (releaseSnapshot st i k) extra := by
  obtain ⟨hnd, hcnt, hmem⟩ := h
  have heq : releaseSnapshot st i k = processConflictChain
      { st with slots := st.slots.set i (releasedSlot st i k) }
      ((st.slots.getD i defaultSlot).snapshots.getD k ⟨0, []⟩).conflicts := rfl
  have hwfx1 : wfx { st with slots := st.slots.set i (releasedSlot st i k) }
      (fun id => extra id +
        ((st.slots.getD i defaultSlot).snapshots.getD k ⟨0, []⟩).conflicts.count id) := by
    refine ⟨hnd, ?_, ?_⟩
    · intro e he
      have hc := hcnt e he
      refine ⟨?_, hc.2⟩
      have hr := refTotal_releasedSlot st i k e.1
      beta_reduce
      omega
    · intro id hpos
      have hr := refTotal_releasedSlot st i k id
      beta_reduce at hpos
      apply hmem
      omega
  obtain ⟨hw, _, _⟩ := processConflictChain_wfx
    ((st.slots.getD i defaultSlot).snapshots.getD k ⟨0, []⟩).conflicts
    { st with slots := st.slots.set i (releasedSlot st i k) } extra hwfx1
  rw [heq]
  exact hw

theorem releaseSnapshot_slots (st : RState) (i k : Nat) :
    (releaseSnapshot st i k).slots = st.slots.set i (releasedSlot st i k) := by
  have heq : releaseSnapshot st i k = processConflictChain
      { st with slots := st.slots.set i (releasedSlot st i k) }
      ((st.slots.getD i defaultSlot).snapshots.getD k ⟨0, []⟩).conflicts := rfl
  rw [heq, processConflictChain_slots]

theorem pubIds_conflictInsertions (st : RState) (i : Nat) (id : BatchId) :
    pubIds (conflictInsertions st i id) = pubIds st := by
  cases hfind : findBatch st.published id with
  | none =>
    have heq : conflictInsertions st i id = st := by simp [conflictInsertions, hfind]
    rw [heq]
  | some brc =>
    obtain ⟨b, rc⟩ := brc
    show (conflictInsertions st i id).published.map _ = st.published.map _
    rw [conflictInsertions_published hfind]
    exact pubIds_bumpRefBy _ _ _

theorem pubIds_decRefRun_sub (st : RState) (id : BatchId) :
    ∀ id2 ∈ pubIds (decRefRun st id), id2 ∈ pubIds st := by
  intro id2 h2
  cases hfind : findBatch st.published id with
  | none =>
    have heq : decRefRun st id = st := by
      unfold decRefRun
      rw [hfind]
    rwa [heq] at h2
  | some brc =>
    obtain ⟨b, rc⟩ := brc
    by_cases hrc : rc ≤ 1
    · have heq : decRefRun st id = removeBatch st id b := by
        simp only [decRefRun, hfind]
        rw [if_pos hrc]
      rw [heq] at h2
      obtain ⟨e, he, hfe⟩ := List.mem_map.1 h2
      exact List.mem_map.2 ⟨e, (List.mem_filter.1 he).1, hfe⟩
    · have heq : decRefRun st id = decBatchCount st id := by
        simp only [decRefRun, hfind]
        rw [if_neg hrc]
      rw [heq, show pubIds (decBatchCount st id) = pubIds st from
        pubIds_decBatchCount st id] at h2
      exact h2

theorem refTotal_decRefRun (st : RState) (id id2 : BatchId) :
    refTotal (decRefRun st id) id2 = refTotal st id2 := by
  show ((decRefRun st id).slots.map fun s => refsInSlot s id2).sum = _
  rw [decRefRun_slots]
  rfl

theorem pubIds_processConflictChain_sub :
    ∀ (chain : List BatchId) (st : RState) (id2 : BatchId),
    id2 ∈ pubIds (processConflictChain st chain) → id2 ∈ pubIds st := by
  intro chain
  induction chain with
  | nil => intro st id2 h; exact h
  | cons id rest ih =>
    intro st id2 h
    rw [processConflictChain] at h
    exact pubIds_decRefRun_sub st id id2 (ih (decRefRun st id) id2 h)

theorem nextId_processConflictChain :
    ∀ (chain : List BatchId) (st : RState),
    (processConflictChain st chain).nextId = st.nextId := by
  intro chain
  induction chain with
  | nil => intro st; rfl
  | cons id rest ih =>
    intro st
    rw [processConflictChain, ih, (decRefRun_misc st id).1]

theorem pubIds_processPrimaryChain_sub (si : Nat) :
    ∀ (chain : List BatchId) (st : RState) (id2 : BatchId),
    id2 ∈ pubIds (processPrimaryChain st si chain) → id2 ∈ pubIds st := by
  intro chain
  induction chain with
  | nil => intro st id2 h; exact h
  | cons id rest ih =>
    intro st id2 h
    rw [processPrimaryChain] at h
    have h2 := ih (dropPrimaryNode st si id) id2 h
    unfold dropPrimaryNode at h2
    have h3 := pubIds_decRefRun_sub _ id id2 h2
    rw [pubIds_conflictInsertions] at h3
    exact h3

theorem nextId_processPrimaryChain (si : Nat) :
    ∀ (chain : List BatchId) (st : RState),
    (processPrimaryChain st si chain).nextId = st.nextId := by
  intro chain
  induction chain with
  | nil => intro st; rfl
  | cons id rest ih =>
    intro st
    rw [processPrimaryChain, ih]
    unfold dropPrimaryNode
    rw [(decRefRun_misc _ id).1, (conflictInsertions_misc st si id).2.1]

theorem pubIds_detachPrimary_sub (st : RState) (i : Nat) :
    ∀ id2 ∈ pubIds (detachPrimary st i), id2 ∈ pubIds st := by
  intro id2 h2
  have heq : detachPrimary st i = processPrimaryChain
      { st with slots := st.slots.set i (clearPrimarySlot st i) } i
      (st.slots.getD i defaultSlot).primaryList := rfl
  rw [heq] at h2
  exact pubIds_processPrimaryChain_sub i (st.slots.getD i defaultSlot).primaryList
    { st with slots := st.slots.set i (clearPrimarySlot st i) } id2 h2

theorem nextId_detachPrimary (st : RState) (i : Nat) :
    (detachPrimary st i).nextId = st.nextId := by
  have heq : detachPrimary st i = processPrimaryChain
      { st with slots := st.slots.set i (clearPrimarySlot st i) } i
      (st.slots.getD i defaultSlot).primaryList := rfl
  rw [heq, nextId_processPrimaryChain]

/-- The in-critical-section branch of the publication loop body: push the
batch onto the slot's primary list and clone one batch reference. -/
def csPushSlot (st : RState) (j : Nat) (id : BatchId) : Slot :=
  { st.slots.getD j defaultSlot with
    primaryList := id :: (st.slots.getD j defaultSlot).primaryList }

def csPushState (st : RState) (j : Nat) (id : BatchId) : RState :=
  { st with slots := st.slots.set j (csPushSlot st j id),
            published := bumpRefBy st.published id 1 }

theorem publishToSlots_cons (st : RState) (id : BatchId) (j0 : Nat) (rest : List Nat) :
    publishToSlots st id (j0 :: rest) = publishToSlots
      (if (st.slots.getD j0 defaultSlot).isInCriticalSection then csPushState st j0 id
       else conflictInsertions st j0 id) id rest := rfl

theorem pubIds_publishToSlots (id : BatchId) :
    ∀ (js : List Nat) (st : RState),
    pubIds (publishToSlots st id js) = pubIds st := by
  intro js
  induction js with
  | nil => intro st; rfl
  | cons j0 rest ih =>
    intro st
    rw [publishToSlots_cons, ih]
    by_cases hcs : (st.slots.getD j0 defaultSlot).isInCriticalSection
    · rw [if_pos hcs]
      show (bumpRefBy st.published id 1).map _ = st.published.map _
      exact pubIds_bumpRefBy _ _ _
    · rw [if_neg hcs]
      exact pubIds_conflictInsertions st j0 id

theorem nextId_publishToSlots (id : BatchId) :
    ∀ (js : List Nat) (st : RState),
    (publishToSlots st id js).nextId = st.nextId := by
  intro js
  induction js with
  | nil => intro st; rfl
  | cons j0 rest ih =>
    intro st
    rw [publishToSlots_cons, ih]
    by_cases hcs : (st.slots.getD j0 defaultSlot).isInCriticalSection
    · rw [if_pos hcs]
      rfl
    · rw [if_neg hcs]
      exact (conflictInsertions_misc st j0 id).2.1

theorem retire_eq_below (st : RState) (i : Nat) (p : Ptr) (rid : Nat)
    (hlt : (pushedBatch st i p rid).functions.length < (pushedBatch st i p rid).cap) :
    retire st i p rid = belowCapResult st i p rid := by
  have hcond : ((pushedBatch st i p rid).functions.length < (pushedBatch st i p rid).cap) =
      (((st.slots.getD i defaultSlot).batch.functions ++ [(p, rid)]).length <
        vecPushCap (st.slots.getD i defaultSlot).batch.functions.length
          (st.slots.getD i defaultSlot).batch.cap) := rfl
  rw [hcond] at hlt
  simp only [retire]
  rw [if_pos hlt]
  rfl

theorem retire_eq_publish (st : RState) (i : Nat) (p : Ptr) (rid : Nat)
    (hge : ¬ (pushedBatch st i p rid).functions.length < (pushedBatch st i p rid).cap) :
    retire st i p rid = decRefRun
      (publishToSlots (pubStart st i p rid) st.nextId
        (List.range (pubStart st i p rid).slots.length)) st.nextId := by
  have hcond : ((pushedBatch st i p rid).functions.length < (pushedBatch st i p rid).cap) =
      (((st.slots.getD i defaultSlot).batch.functions ++ [(p, rid)]).length <
        vecPushCap (st.slots.getD i defaultSlot).batch.functions.length
          (st.slots.getD i defaultSlot).batch.cap) := rfl
  rw [hcond] at hge
  simp only [retire]
  rw [if_neg hge]
  rfl

theorem csPushState_wfx {st : RState} {extra : BatchId → Nat} (j : Nat) (id : BatchId)
    (hj : j < st.slots.length) (hid : id ∈ pubIds st) (h : wfx st extra) :
    wfx (csPushState st j id) extra := by
  obtain ⟨hnd, hcnt, hmem⟩ := h
  have hids : pubIds (csPushState st j id) = pubIds st := by
    show (bumpRefBy st.published id 1).map _ = st.published.map _
    exact pubIds_bumpRefBy _ _ _
  have href : ∀ id2, refTotal (csPushState st j id) id2 =
      refTotal st id2 + (if id2 = id then 1 else 0) := by
    intro id2
    have hrw : refTotal (csPushState st j id) id2 =
        ((st.slots.set j (csPushSlot st j id)).map fun s => refsInSlot s id2).sum := rfl
    have hsum := sum_map_set' (l := st.slots) (csPushSlot st j id) defaultSlot
      (fun s => refsInSlot s id2) hj
    simp only at hsum
    have ha : refsInSlot (csPushSlot st j id) id2 =
        (id :: (st.slots.getD j defaultSlot).primaryList).count id2 +
        ((st.slots.getD j defaultSlot).snapshots.map
          fun e => e.conflicts.count id2).sum := rfl
    have hb : refsInSlot (st.slots.getD j defaultSlot) id2 =
        (st.slots.getD j defaultSlot).primaryList.count id2 +
        ((st.slots.getD j defaultSlot).snapshots.map
          fun e => e.conflicts.count id2).sum := rfl
    have hnew : refsInSlot (csPushSlot st j id) id2 =
        refsInSlot (st.slots.getD j defaultSlot) id2 + (if id2 = id then 1 else 0) := by
      by_cases h2 : id2 = id
      · subst h2
        rw [ha, List.count_cons_self, if_pos rfl, hb]
        omega
      · rw [ha, List.count_cons_of_ne h2, if_neg h2, hb]
        omega
    have hrt : refTotal st id2 = (st.slots.map fun s => refsInSlot s id2).sum := rfl
    rw [hrw]
    omega
  refine ⟨by rw [hids]; exact hnd, ?_, ?_⟩
  · intro e' he'
    have he2 : e' ∈ bumpRefBy st.published id 1 := he'
    obtain ⟨e, he, hfe⟩ := List.mem_map.1 he2
    have hc := hcnt e he
    have hc1 : e.2.2 = refTotal st e.1 + extra e.1 := hc.1
    by_cases hei : e.1 = id
    · rw [if_pos hei] at hfe
      rw [← hfe]
      constructor
      · show e.2.2 + 1 = refTotal (csPushState st j id) e.1 + extra e.1
        rw [href e.1, if_pos hei]
        omega
      · show 0 < e.2.2 + 1
        omega
    · rw [if_neg hei] at hfe
      rw [← hfe]
      refine ⟨?_, hc.2⟩
      show e.2.2 = refTotal (csPushState st j id) e.1 + extra e.1
      rw [href e.1, if_neg hei]
      omega
  · intro id2 hpos
    rw [hids]
    rw [href id2] at hpos
    by_cases h2 : id2 = id
    · rw [h2]
      exact hid
    · rw [if_neg h2] at hpos
      apply hmem id2
      omega

theorem publishToSlots_wfx (id : BatchId) :
    ∀ (js : List Nat) (st : RState) (extra : BatchId → Nat),
      (∀ j ∈ js, j < st.slots.length) → wfx st extra → id ∈ pubIds st →
      wfx (publishToSlots st id js) extra ∧ id ∈ pubIds (publishToSlots st id js) := by
  intro js
  induction js with
  | nil =>
    intro st extra _ h hid
    exact ⟨h, hid⟩
  | cons j0 rest ih =>
    intro st extra hb h hid
    rw [publishToSlots_cons]
    by_cases hcs : (st.slots.getD j0 defaultSlot).isInCriticalSection
    · rw [if_pos hcs]
      have hj0 : j0 < st.slots.length := hb j0 (List.mem_cons_self _ _)
      have hw1 := csPushState_wfx j0 id hj0 hid h
      have hpids : pubIds (csPushState st j0 id) = pubIds st := by
        show (bumpRefBy st.published id 1).map _ = st.published.map _
        exact pubIds_bumpRefBy _ _ _
      have hid1 : id ∈ pubIds (csPushState st j0 id) := by
        rw [hpids]
        exact hid
      have hlen1 : (csPushState st j0 id).slots.length = st.slots.length := by
        show (st.slots.set j0 _).length = _
        simp
      exact ih (csPushState st j0 id) extra
        (fun j hj => by rw [hlen1]; exact hb j (List.mem_cons_of_mem _ hj)) hw1 hid1
    · rw [if_neg hcs]
      have hw1 := (conflictInsertions_wfx j0 id h).1
      have hid1 : id ∈ pubIds (conflictInsertions st j0 id) := by
        rw [pubIds_conflictInsertions]
        exact hid
      have hlen1 : (conflictInsertions st j0 id).slots.length = st.slots.length :=
        (conflictInsertions_fields st j0 id 0).2.2.2
      exact ih (conflictInsertions st j0 id) extra
        (fun j hj => by rw [hlen1]; exact hb j (List.mem_cons_of_mem _ hj)) hw1 hid1

/-- One in-flight reference held at batch id `id0` (the local `batch_arc`
handle of `retire`). -/
def oneAt (id0 : BatchId) : BatchId → Nat := fun id2 => if id2 = id0 then 1 else 0

theorem pubStart_wfx (st : RState) (i : Nat) (p : Ptr) (rid : Nat)
    (h : wfx st (fun _ => 0)) (hfr : ∀ id ∈ pubIds st, id < st.nextId) :
    wfx (pubStart st i p rid) (oneAt st.nextId) ∧
    st.nextId ∈ pubIds (pubStart st i p rid) := by
  obtain ⟨hnd, hcnt, hmem⟩ := h
  have hfreshMem : st.nextId ∉ pubIds st := by
    intro hm
    exact absurd (hfr st.nextId hm) (Nat.lt_irrefl _)
  have hfreshTot : refTotal st st.nextId = 0 := by
    by_contra h0
    have hp : 0 < refTotal st st.nextId + 0 := by
      have := Nat.pos_of_ne_zero h0
      omega
    have h1 := hmem st.nextId hp
    exact absurd (hfr st.nextId h1) (Nat.lt_irrefl _)
  have hrefP : ∀ id2, refTotal (pubStart st i p rid) id2 = refTotal st id2 := by
    intro id2
    refine refTotal_set_congr ?_ id2
    intro id3
    rfl
  have hpid : pubIds (pubStart st i p rid) = st.nextId :: pubIds st := rfl
  refine ⟨⟨?_, ?_, ?_⟩, ?_⟩
  · rw [hpid]
    exact List.nodup_cons.2 ⟨hfreshMem, hnd⟩
  · intro e he
    have he2 : e ∈ (st.nextId, pushedBatch st i p rid, 1) :: st.published := he
    rcases List.mem_cons.1 he2 with h1 | h1
    · rw [h1]
      constructor
      · show 1 = refTotal (pubStart st i p rid) st.nextId + oneAt st.nextId st.nextId
        rw [hrefP, hfreshTot]
        show 1 = 0 + (if st.nextId = st.nextId then 1 else 0)
        rw [if_pos rfl]
      · show 0 < 1
        omega
    · have hc := hcnt e h1
      have hc1 : e.2.2 = refTotal st e.1 + 0 := hc.1
      have hene : e.1 ≠ st.nextId := by
        intro hh
        exact hfreshMem (by rw [← hh]; exact List.mem_map.2 ⟨e, h1, rfl⟩)
      constructor
      · show e.2.2 = refTotal (pubStart st i p rid) e.1 + oneAt st.nextId e.1
        rw [hrefP]
        show e.2.2 = refTotal st e.1 + (if e.1 = st.nextId then 1 else 0)
        rw [if_neg hene]
        omega
      · exact hc.2
  · intro id2 hpos
    rw [hpid]
    by_cases h2 : id2 = st.nextId
    · rw [h2]
      exact List.mem_cons_self _ _
    · rw [hrefP id2] at hpos
      have h0 : oneAt st.nextId id2 = 0 := if_neg h2
      rw [h0] at hpos
      apply List.mem_cons_of_mem
      apply hmem id2
      omega
  · rw [hpid]
    exact List.mem_cons_self _ _

theorem retire_wfx (st : RState) (i : Nat) (p : Ptr) (rid : Nat)
    (h : wfx st (fun _ => 0)) (hfr : ∀ id ∈ pubIds st, id < st.nextId) :
    wfx (retire st i p rid) (fun _ => 0) := by
  by_cases hlt : (pushedBatch st i p rid).functions.length < (pushedBatch st i p rid).cap
  · rw [retire_eq_below st i p rid hlt]
    obtain ⟨hnd, hcnt, hmem⟩ := h
    have href : ∀ id, refTotal (belowCapResult st i p rid) id = refTotal st id := by
      intro id
      refine refTotal_set_congr ?_ id
      intro id2
      rfl
    exact ⟨hnd, fun e he => ⟨by rw [href]; exact (hcnt e he).1, (hcnt e he).2⟩,
      fun id hpos => hmem id (by rwa [href] at hpos)⟩
  · rw [retire_eq_publish st i p rid hlt]
    obtain ⟨hw1, hid1⟩ := pubStart_wfx st i p rid h hfr
    have hb : ∀ j ∈ List.range (pubStart st i p rid).slots.length,
        j < (pubStart st i p rid).slots.length := fun j hj => List.mem_range.1 hj
    obtain ⟨hw2, hid2⟩ := publishToSlots_wfx st.nextId _ _ (oneAt st.nextId) hb hw1 hid1
    have hpos1 : 0 < oneAt st.nextId st.nextId := by
      show 0 < (if st.nextId = st.nextId then 1 else 0)
      rw [if_pos rfl]
      omega
    obtain ⟨hw3, _⟩ := decRefRun_wfx hw2 hpos1
    have hfun : (fun i2 => if i2 = st.nextId then oneAt st.nextId i2 - 1
        else oneAt st.nextId i2) = (fun _ => 0) := by
      funext id2
      by_cases h2 : id2 = st.nextId
      · rw [if_pos h2]
        show oneAt st.nextId id2 - 1 = 0
        rw [show oneAt st.nextId id2 = 1 from if_pos h2]
      · rw [if_neg h2]
        exact if_neg h2
    rw [hfun] at hw3
    exact hw3

theorem pubIds_releaseSnapshot_sub (st : RState) (i k : Nat) :
    ∀ id2 ∈ pubIds (releaseSnapshot st i k), id2 ∈ pubIds st := by
  intro id2 h2
  have heq : releaseSnapshot st i k = processConflictChain
      { st with slots := st.slots.set i (releasedSlot st i k) }
      ((st.slots.getD i defaultSlot).snapshots.getD k ⟨0, []⟩).conflicts := rfl
  rw [heq] at h2
  exact pubIds_processConflictChain_sub _
    { st with slots := st.slots.set i (releasedSlot st i k) } id2 h2

theorem nextId_releaseSnapshot (st : RState) (i k : Nat) :
    (releaseSnapshot st i k).nextId = st.nextId := by
  have heq : releaseSnapshot st i k = processConflictChain
      { st with slots := st.slots.set i (releasedSlot st i k) }
      ((st.slots.getD i defaultSlot).snapshots.getD k ⟨0, []⟩).conflicts := rfl
  rw [heq, nextId_processConflictChain]

theorem rstep_inv (st : RState) (l : RLabel) (h : RInv st) : RInv (rstep st l) := by
  obtain ⟨hwf, hfr⟩ := h
  cases l with
  | beginCS i =>
    refine ⟨beginCriticalSection_wfx st i hwf, ?_⟩
    intro id hm
    exact hfr id hm
  | endCS i =>
    refine ⟨endCriticalSection_wfx st i hwf, ?_⟩
    intro id hm
    have hm' : id ∈ pubIds (endCriticalSection st i) := hm
    rw [endCriticalSection_eq] at hm'
    have h2 := pubIds_detachPrimary_sub _ i id hm'
    have h3 : id < st.nextId := hfr id h2
    show id < (endCriticalSection st i).nextId
    rw [endCriticalSection_eq, nextId_detachPrimary]
    exact h3
  | retireStep i p rid =>
    refine ⟨retire_wfx st i p rid hwf hfr, ?_⟩
    intro id hm
    have hm' : id ∈ pubIds (retire st i p rid) := hm
    show id < (retire st i p rid).nextId
    by_cases hlt : (pushedBatch st i p rid).functions.length < (pushedBatch st i p rid).cap
    · rw [retire_eq_below st i p rid hlt] at hm' ⊢
      exact hfr id hm'
    · rw [retire_eq_publish st i p rid hlt] at hm' ⊢
      have h3 := pubIds_decRefRun_sub _ st.nextId id hm'
      rw [pubIds_publishToSlots] at h3
      have h4 : id ∈ st.nextId :: pubIds st := h3
      rw [(decRefRun_misc _ _).1, nextId_publishToSlots]
      show id < st.nextId + 1
      rcases List.mem_cons.1 h4 with h6 | h6
      · rw [h6]
        exact Nat.lt_succ_self _
      · exact Nat.lt_succ_of_lt (hfr id h6)
  | protectStep i p =>
    refine ⟨protectPtr_wfx st i p hwf, ?_⟩
    intro id hm
    exact hfr id hm
  | releaseStep i k =>
    refine ⟨releaseSnapshot_wfx st i k hwf, ?_⟩
    intro id hm
    have hm' : id ∈ pubIds (releaseSnapshot st i k) := hm
    have h2 := pubIds_releaseSnapshot_sub st i k id hm'
    show id < (releaseSnapshot st i k).nextId
    rw [nextId_releaseSnapshot]
    exact hfr id h2

theorem primary_getD_set {l : List Slot} {i j : Nat} {a : Slot}
    (hab : a.primaryList = (l.getD i defaultSlot).primaryList) :
    ((l.set i a).getD j defaultSlot).primaryList = (l.getD j defaultSlot).primaryList := by
  by_cases hji : j = i
  · subst hji
    by_cases hj : j < l.length
    · rw [getD_set_self hj, hab]
    · rw [List.set_eq_of_length_le (by omega)]
  · rw [getD_set_of_ne hji]

theorem primary_mem_set_cons {l : List Slot} {j0 j : Nat} {id id0 : BatchId}
    (h : id ∈ (l.getD j defaultSlot).primaryList) :
    id ∈ ((l.set j0 { l.getD j0 defaultSlot with
      primaryList := id0 :: (l.getD j0 defaultSlot).primaryList }).getD j
        defaultSlot).primaryList := by
  by_cases hj : j = j0
  · subst hj
    by_cases hlt : j < l.length
    · rw [getD_set_self hlt]
      exact List.mem_cons_of_mem _ h
    · rw [List.set_eq_of_length_le (by omega)]
      exact h
  · rw [getD_set_of_ne hj]
    exact h

theorem publishToSlots_primary_mono (id0 : BatchId) (j : Nat) (id : BatchId) :
    ∀ (js : List Nat) (st : RState),
    id ∈ (st.slots.getD j defaultSlot).primaryList →
    id ∈ ((publishToSlots st id0 js).slots.getD j defaultSlot).primaryList := by
  intro js
  induction js with
  | nil =>
    intro st h
    exact h
  | cons j0 rest ih =>
    intro st h
    rw [publishToSlots_cons]
    by_cases hcs : (st.slots.getD j0 defaultSlot).isInCriticalSection
    · rw [if_pos hcs]
      apply ih
      show id ∈ ((st.slots.set j0 (csPushSlot st j0 id0)).getD j defaultSlot).primaryList
      exact primary_mem_set_cons h
    · rw [if_neg hcs]
      apply ih
      rw [(conflictInsertions_fields st j0 id0 j).1]
      exact h

theorem getD_conflicts_nil {l : List SnapshotPtr} (hall : ∀ e ∈ l, e.conflicts = [])
    (k : Nat) : (l.getD k ⟨0, []⟩).conflicts = [] := by
  by_cases hk : k < l.length
  · have hmem : l.getD k ⟨0, []⟩ ∈ l := by
      rw [List.getD_eq_getElem?_getD, List.getElem?_eq_getElem hk]
      exact List.getElem_mem hk
    exact hall _ hmem
  · rw [getD_oob (by omega)]

theorem protectScan_conflicts_getD (p : Ptr) :
    ∀ (snaps : List SnapshotPtr) (k : Nat),
    ((protectScan p snaps).getD k ⟨0, []⟩).conflicts =
      (snaps.getD k ⟨0, []⟩).conflicts := by
  intro snaps
  induction snaps with
  | nil =>
    intro k
    have hr : ((([] : List SnapshotPtr)).getD k ⟨0, []⟩).conflicts = [] :=
      getD_conflicts_nil (fun e he => absurd he (List.not_mem_nil e)) k
    rw [hr]
    apply getD_conflicts_nil
    intro e he
    have he2 : e ∈ (⟨p, []⟩ : SnapshotPtr) :: List.replicate 7 ⟨0, []⟩ := he
    rcases List.mem_cons.1 he2 with h1 | h1
    · rw [h1]
    · rw [List.eq_of_mem_replicate h1]
  | cons e rest ih =>
    intro k
    rw [protectScan]
    by_cases hp : e.ptr = 0
    · rw [if_pos hp]
      cases k with
      | zero => rfl
      | succ n =>
        rw [List.getD_cons_succ, List.getD_cons_succ]
    · rw [if_neg hp]
      cases k with
      | zero => rfl
      | succ n =>
        rw [List.getD_cons_succ, List.getD_cons_succ]
        exact ih n

theorem conflict_mem_set {l : List Slot} {i j k : Nat} {a : Slot} {id : BatchId}
    (hab : id ∈ ((l.getD i defaultSlot).snapshots.getD k ⟨0, []⟩).conflicts →
      id ∈ (a.snapshots.getD k ⟨0, []⟩).conflicts)
    (h : id ∈ ((l.getD j defaultSlot).snapshots.getD k ⟨0, []⟩).conflicts) :
    id ∈ (((l.set i a).getD j defaultSlot).snapshots.getD k ⟨0, []⟩).conflicts := by
  by_cases hji : j = i
  · subst hji
    by_cases hj : j < l.length
    · rw [getD_set_self hj]
      exact hab h
    · rw [List.set_eq_of_length_le (by omega)]
      exact h
  · rw [getD_set_of_ne hji]
    exact h

theorem snapPush_conflict_mem {snaps : List SnapshotPtr} {k : Nat} {id id0 : BatchId}
    {lkp : List Ptr} (h : id ∈ (snaps.getD k ⟨0, []⟩).conflicts) :
    id ∈ ((snaps.map (snapConflictPush id0 lkp)).getD k ⟨0, []⟩).conflicts := by
  by_cases hk : k < snaps.length
  · rw [getD_map_of_lt (snapConflictPush id0 lkp) ⟨0, []⟩ ⟨0, []⟩ hk]
    unfold snapConflictPush
    by_cases hm : matchesB lkp (snaps.getD k ⟨0, []⟩)
    · rw [if_pos hm]
      exact List.mem_cons_of_mem _ h
    · rw [if_neg hm]
      exact h
  · rw [getD_oob (by omega)] at h
    exact absurd h (List.not_mem_nil id)

theorem conflictInsertions_conflict_mem (st : RState) (i2 : Nat) (id2 : BatchId)
    {j k : Nat} {id : BatchId}
    (h : id ∈ ((st.slots.getD j defaultSlot).snapshots.getD k ⟨0, []⟩).conflicts) :
    id ∈ (((conflictInsertions st i2 id2).slots.getD j defaultSlot).snapshots.getD k
      ⟨0, []⟩).conflicts := by
  cases hfind : findBatch st.published id2 with
  | none =>
    have heq : conflictInsertions st i2 id2 = st := by simp [conflictInsertions, hfind]
    rw [heq]
    exact h
  | some brc =>
    obtain ⟨b, rc⟩ := brc
    rw [conflictInsertions_slots_eq hfind]
    refine conflict_mem_set ?_ h
    intro h2
    show id ∈ (((st.slots.getD i2 defaultSlot).snapshots.map
      (snapConflictPush id2 b.lookup)).getD k ⟨0, []⟩).conflicts
    exact snapPush_conflict_mem h2

theorem processPrimaryChain_conflict_mem (si j k : Nat) (id : BatchId) :
    ∀ (chain : List BatchId) (st : RState),
    id ∈ ((st.slots.getD j defaultSlot).snapshots.getD k ⟨0, []⟩).conflicts →
    id ∈ (((processPrimaryChain st si chain).slots.getD j defaultSlot).snapshots.getD k
      ⟨0, []⟩).conflicts := by
  intro chain
  induction chain with
  | nil =>
    intro st h
    exact h
  | cons id2 rest ih =>
    intro st h
    rw [processPrimaryChain]
    apply ih
    show id ∈ (((dropPrimaryNode st si id2).slots.getD j defaultSlot).snapshots.getD k
      ⟨0, []⟩).conflicts
    unfold dropPrimaryNode
    rw [decRefRun_slots]
    exact conflictInsertions_conflict_mem st si id2 h

theorem publishToSlots_conflict_mono (id0 : BatchId) (j k : Nat) (id : BatchId) :
    ∀ (js : List Nat) (st : RState),
    id ∈ ((st.slots.getD j defaultSlot).snapshots.getD k ⟨0, []⟩).conflicts →
    id ∈ (((publishToSlots st id0 js).slots.getD j defaultSlot).snapshots.getD k
      ⟨0, []⟩).conflicts := by
  intro js
  induction js with
  | nil =>
    intro st h
    exact h
  | cons j0 rest ih =>
    intro st h
    rw [publishToSlots_cons]
    by_cases hcs : (st.slots.getD j0 defaultSlot).isInCriticalSection
    · rw [if_pos hcs]
      apply ih
      show id ∈ (((st.slots.set j0 (csPushSlot st j0 id0)).getD j
        defaultSlot).snapshots.getD k ⟨0, []⟩).conflicts
      refine conflict_mem_set ?_ h
      intro h2
      exact h2
    · rw [if_neg hcs]
      apply ih
      exact conflictInsertions_conflict_mem st j0 id0 h

/-- The pending retirement `(p, rid)` has not been executed and lives only in
published batch `id` (which holds data `bd`): it is not in the event log, in
no slot's local batch, and in no other published batch. -/
def TrackedP (id : BatchId) (bd : Batch) (p : Ptr) (rid : Nat) (st : RState) : Prop :=
  ((p, rid) ∉ st.events ∧
    (∀ j, (p, rid) ∉ (st.slots.getD j defaultSlot).batch.functions) ∧
    (∀ e ∈ st.published, (p, rid) ∈ e.2.1.functions → e.1 = id)) ∧
  ∃ rc, (id, bd, rc) ∈ st.published

theorem bump_pub_clause {pub : List (BatchId × Batch × Nat)} {id2 : BatchId} {n : Nat}
    {id : BatchId} {p : Ptr} {rid : Nat}
    (hpub : ∀ e ∈ pub, (p, rid) ∈ e.2.1.functions → e.1 = id) :
    ∀ e ∈ bumpRefBy pub id2 n, (p, rid) ∈ e.2.1.functions → e.1 = id := by
  intro e' he' hm
  obtain ⟨e, he, hfe⟩ := List.mem_map.1 he'
  by_cases hei : e.1 = id2
  · rw [if_pos hei] at hfe
    rw [← hfe] at hm ⊢
    exact hpub e he hm
  · rw [if_neg hei] at hfe
    rw [← hfe] at hm ⊢
    exact hpub e he hm

theorem bump_keeps_entry {pub : List (BatchId × Batch × Nat)} {id2 : BatchId} {n : Nat}
    {id : BatchId} {bd : Batch} {rc1 : Nat} (hC4 : (id, bd, rc1) ∈ pub) :
    ∃ rc, (id, bd, rc) ∈ bumpRefBy pub id2 n := by
  by_cases hii : id = id2
  · refine ⟨rc1 + n, List.mem_map.2 ⟨(id, bd, rc1), hC4, ?_⟩⟩
    rw [if_pos (show (id, bd, rc1).1 = id2 from hii)]
  · refine ⟨rc1, List.mem_map.2 ⟨(id, bd, rc1), hC4, ?_⟩⟩
    rw [if_neg (show ¬(id, bd, rc1).1 = id2 from hii)]

theorem decRefRun_trackedP {st : RState} {id2 id : BatchId} {bd : Batch} {p : Ptr}
    {rid : Nat} {extra : BatchId → Nat} (hw : wfx st extra) (hpos : 0 < extra id2)
    (hkeep : id2 = id → 0 < refTotal st id)
    (ht : TrackedP id bd p rid st) : TrackedP id bd p rid (decRefRun st id2) := by
  obtain ⟨⟨hev, hbat, hpub⟩, rc1, hC4⟩ := ht
  obtain ⟨hnd, hcnt, hmem⟩ := hw
  cases hfind : findBatch st.published id2 with
  | none =>
    have heq : decRefRun st id2 = st := by
      unfold decRefRun
      rw [hfind]
    rw [heq]
    exact ⟨⟨hev, hbat, hpub⟩, rc1, hC4⟩
  | some brc =>
    obtain ⟨b, rc⟩ := brc
    have hbmem := findBatch_some_mem hfind
    have hrc := hcnt _ hbmem
    have hrc1 : rc = refTotal st id2 + extra id2 := hrc.1
    by_cases hle : rc ≤ 1
    · have hne : id2 ≠ id := by
        intro hh
        subst hh
        have := hkeep rfl
        omega
      have heqr : decRefRun st id2 = removeBatch st id2 b := by
        simp only [decRefRun, hfind]
        rw [if_pos hle]
      rw [heqr]
      refine ⟨⟨?_, hbat, ?_⟩, rc1, ?_⟩
      · intro hin
        rcases List.mem_append.1 hin with h1 | h1
        · exact hev h1
        · exact hne (hpub _ hbmem h1)
      · intro e he hm
        exact hpub e (List.mem_filter.1 he).1 hm
      · exact List.mem_filter.2 ⟨hC4, by simpa using Ne.symm hne⟩
    · have heqr : decRefRun st id2 = decBatchCount st id2 := by
        simp only [decRefRun, hfind]
        rw [if_neg hle]
      rw [heqr]
      refine ⟨⟨hev, hbat, ?_⟩, ?_⟩
      · intro e' he' hm
        obtain ⟨e, he, hfe⟩ := List.mem_map.1 he'
        by_cases hei : e.1 = id2
        · rw [if_pos hei] at hfe
          rw [← hfe] at hm ⊢
          exact hpub e he hm
        · rw [if_neg hei] at hfe
          rw [← hfe] at hm ⊢
          exact hpub e he hm
      · by_cases hii : id = id2
        · refine ⟨rc1 - 1, List.mem_map.2 ⟨(id, bd, rc1), hC4, ?_⟩⟩
          rw [if_pos (show (id, bd, rc1).1 = id2 from hii)]
        · refine ⟨rc1, List.mem_map.2 ⟨(id, bd, rc1), hC4, ?_⟩⟩
          rw [if_neg (show ¬(id, bd, rc1).1 = id2 from hii)]

theorem refTotal_conflictInsertions_ge (st : RState) (i2 : Nat) (id2 id : BatchId) :
    refTotal st id ≤ refTotal (conflictInsertions st i2 id2) id := by
  cases hfind : findBatch st.published id2 with
  | none =>
    have heq : conflictInsertions st i2 id2 = st := by simp [conflictInsertions, hfind]
    rw [heq]
  | some brc =>
    obtain ⟨b, rc⟩ := brc
    rw [refTotal_conflictInsertions hfind id]
    omega

theorem conflictInsertions_trackedP (st : RState) (i2 : Nat) (id2 : BatchId)
    {id : BatchId} {bd : Batch} {p : Ptr} {rid : Nat}
    (ht : TrackedP id bd p rid st) :
    TrackedP id bd p rid (conflictInsertions st i2 id2) := by
  obtain ⟨⟨hev, hbat, hpub⟩, rc1, hC4⟩ := ht
  cases hfind : findBatch st.published id2 with
  | none =>
    have heq : conflictInsertions st i2 id2 = st := by simp [conflictInsertions, hfind]
    rw [heq]
    exact ⟨⟨hev, hbat, hpub⟩, rc1, hC4⟩
  | some brc =>
    obtain ⟨b, rc⟩ := brc
    refine ⟨⟨?_, ?_, ?_⟩, ?_⟩
    · rw [(conflictInsertions_misc st i2 id2).1]
      exact hev
    · intro j
      rw [(conflictInsertions_fields st i2 id2 j).2.2.1]
      exact hbat j
    · intro e' he' hm
      rw [conflictInsertions_published hfind] at he'
      exact bump_pub_clause hpub e' he' hm
    · rw [conflictInsertions_published hfind]
      exact bump_keeps_entry hC4

theorem processConflictChain_trackedP {id : BatchId} {bd : Batch} {p : Ptr} {rid : Nat} :
    ∀ (chain : List BatchId) (st : RState) (extra : BatchId → Nat),
    wfx st (fun x => extra x + chain.count x) → 0 < refTotal st id →
    TrackedP id bd p rid st →
    TrackedP id bd p rid (processConflictChain st chain) := by
  intro chain
  induction chain with
  | nil =>
    intro st extra _ _ ht
    exact ht
  | cons id2 rest ih =>
    intro st extra hw hpos ht
    have hposx : 0 < extra id2 + (id2 :: rest).count id2 := by
      rw [List.count_cons_self]
      omega
    have ht' := decRefRun_trackedP hw hposx (fun _ => hpos) ht
    obtain ⟨hw', _⟩ := decRefRun_wfx hw hposx
    have hfun : (fun i2 => if i2 = id2 then extra i2 + (id2 :: rest).count i2 - 1
        else extra i2 + (id2 :: rest).count i2) = fun i2 => extra i2 + rest.count i2 := by
      funext i2
      by_cases hii : i2 = id2
      · subst hii
        rw [if_pos rfl, List.count_cons_self]
        omega
      · rw [if_neg hii, List.count_cons_of_ne hii]
    rw [hfun] at hw'
    have hpos' : 0 < refTotal (decRefRun st id2) id := by
      rw [refTotal_decRefRun]
      exact hpos
    rw [processConflictChain]
    exact ih (decRefRun st id2) extra hw' hpos' ht'

theorem processPrimaryChain_trackedP (si : Nat) {id : BatchId} {bd : Batch} {p : Ptr}
    {rid : Nat} :
    ∀ (chain : List BatchId) (st : RState) (extra : BatchId → Nat),
    wfx st (fun x => extra x + chain.count x) → 0 < refTotal st id →
    TrackedP id bd p rid st →
    TrackedP id bd p rid (processPrimaryChain st si chain) := by
  intro chain
  induction chain with
  | nil =>
    intro st extra _ _ ht
    exact ht
  | cons id2 rest ih =>
    intro st extra hw hpos ht
    have ht1 := conflictInsertions_trackedP st si id2 ht
    have hw1 := (conflictInsertions_wfx si id2 hw).1
    have hpos1 : 0 < refTotal (conflictInsertions st si id2) id := by
      have := refTotal_conflictInsertions_ge st si id2 id
      omega
    have hposx : 0 < extra id2 + (id2 :: rest).count id2 := by
      rw [List.count_cons_self]
      omega
    have ht2 := decRefRun_trackedP hw1 hposx (fun _ => hpos1) ht1
    obtain ⟨hw2, _⟩ := decRefRun_wfx hw1 hposx
    have hfun : (fun i2 => if i2 = id2 then extra i2 + (id2 :: rest).count i2 - 1
        else extra i2 + (id2 :: rest).count i2) = fun i2 => extra i2 + rest.count i2 := by
      funext i2
      by_cases hii : i2 = id2
      · subst hii
        rw [if_pos rfl, List.count_cons_self]
        omega
      · rw [if_neg hii, List.count_cons_of_ne hii]
    rw [hfun] at hw2
    have hpos2 : 0 < refTotal (dropPrimaryNode st si id2) id := by
      show 0 < refTotal (decRefRun (conflictInsertions st si id2) id2) id
      rw [refTotal_decRefRun]
      exact hpos1
    rw [processPrimaryChain]
    exact ih (dropPrimaryNode st si id2) extra hw2 hpos2 ht2

theorem snapshots_getD_set {l : List Slot} {i j : Nat} {a : Slot}
    (hab : a.snapshots = (l.getD i defaultSlot).snapshots) :
    ((l.set i a).getD j defaultSlot).snapshots = (l.getD j defaultSlot).snapshots := by
  by_cases hji : j = i
  · subst hji
    by_cases hj : j < l.length
    · rw [getD_set_self hj, hab]
    · rw [List.set_eq_of_length_le (by omega)]
  · rw [getD_set_of_ne hji]

theorem trackedP_set_slot {st : RState} {i : Nat} {a : Slot} {id : BatchId} {bd : Batch}
    {p : Ptr} {rid : Nat} (hab : a.batch = (st.slots.getD i defaultSlot).batch)
    (ht : TrackedP id bd p rid st) :
    TrackedP id bd p rid { st with slots := st.slots.set i a } := by
  obtain ⟨⟨hev, hbat, hpub⟩, rc1, hC4⟩ := ht
  refine ⟨⟨hev, ?_, hpub⟩, rc1, hC4⟩
  intro j
  show (p, rid) ∉ ((st.slots.set i a).getD j defaultSlot).batch.functions
  rw [getD_set_batch hab]
  exact hbat j

theorem detachPrimary_trackedP (st : RState) (i : Nat) {id : BatchId} {bd : Batch}
    {p : Ptr} {rid : Nat} {extra : BatchId → Nat} (h : wfx st extra)
    (hpos1 : 0 < refTotal { st with slots := st.slots.set i (clearPrimarySlot st i) } id)
    (ht : TrackedP id bd p rid st) : TrackedP id bd p rid (detachPrimary st i) := by
  obtain ⟨hnd, hcnt, hmem⟩ := h
  have hwfx1 : wfx { st with slots := st.slots.set i (clearPrimarySlot st i) }
      (fun id2 => extra id2 + (st.slots.getD i defaultSlot).primaryList.count id2) := by
    refine ⟨hnd, ?_, ?_⟩
    · intro e he
      have hc := hcnt e he
      refine ⟨?_, hc.2⟩
      have hr := refTotal_clearPrimary st i e.1
      beta_reduce
      omega
    · intro id2 hpos
      have hr := refTotal_clearPrimary st i id2
      beta_reduce at hpos
      apply hmem
      omega
  have ht1 : TrackedP id bd p rid
      { st with slots := st.slots.set i (clearPrimarySlot st i) } :=
    trackedP_set_slot rfl ht
  have heq : detachPrimary st i = processPrimaryChain
      { st with slots := st.slots.set i (clearPrimarySlot st i) } i
      (st.slots.getD i defaultSlot).primaryList := rfl
  rw [heq]
  exact processPrimaryChain_trackedP i _ _ extra hwfx1 hpos1 ht1

theorem releaseSnapshot_trackedP (st : RState) (i k : Nat) {id : BatchId} {bd : Batch}
    {p : Ptr} {rid : Nat} {extra : BatchId → Nat} (h : wfx st extra)
    (hpos1 : 0 < refTotal { st with slots := st.slots.set i (releasedSlot st i k) } id)
    (ht : TrackedP id bd p rid st) : TrackedP id bd p rid (releaseSnapshot st i k) := by
  obtain ⟨hnd, hcnt, hmem⟩ := h
  have hwfx1 : wfx { st with slots := st.slots.set i (releasedSlot st i k) }
      (fun id2 => extra id2 +
        ((st.slots.getD i defaultSlot).snapshots.getD k ⟨0, []⟩).conflicts.count id2) := by
    refine ⟨hnd, ?_, ?_⟩
    · intro e he
      have hc := hcnt e he
      refine ⟨?_, hc.2⟩
      have hr := refTotal_releasedSlot st i k e.1
      beta_reduce
      omega
    · intro id2 hpos
      have hr := refTotal_releasedSlot st i k id2
      beta_reduce at hpos
      apply hmem
      omega
  have ht1 : TrackedP id bd p rid
      { st with slots := st.slots.set i (releasedSlot st i k) } :=
    trackedP_set_slot rfl ht
  have heq : releaseSnapshot st i k = processConflictChain
      { st with slots := st.slots.set i (releasedSlot st i k) }
      ((st.slots.getD i defaultSlot).snapshots.getD k ⟨0, []⟩).conflicts := rfl
  rw [heq]
  exact processConflictChain_trackedP _ _ extra hwfx1 hpos1 ht1

theorem publishToSlots_trackedP (id0 : BatchId) {id : BatchId} {bd : Batch} {p : Ptr}
    {rid : Nat} :
    ∀ (js : List Nat) (st : RState), TrackedP id bd p rid st →
    TrackedP id bd p rid (publishToSlots st id0 js) := by
  intro js
  induction js with
  | nil =>
    intro st ht
    exact ht
  | cons j0 rest ih =>
    intro st ht
    rw [publishToSlots_cons]
    by_cases hcs : (st.slots.getD j0 defaultSlot).isInCriticalSection
    · rw [if_pos hcs]
      apply ih
      obtain ⟨⟨hev, hbat, hpub⟩, rc1, hC4⟩ := ht
      refine ⟨⟨hev, ?_, ?_⟩, ?_⟩
      · intro j
        show (p, rid) ∉ ((st.slots.set j0 (csPushSlot st j0 id0)).getD j
          defaultSlot).batch.functions
        have hbe : ((st.slots.set j0 (csPushSlot st j0 id0)).getD j
            defaultSlot).batch = (st.slots.getD j defaultSlot).batch :=
          getD_set_batch rfl
        rw [hbe]
        exact hbat j
      · intro e' he' hm
        have he2 : e' ∈ bumpRefBy st.published id0 1 := he'
        exact bump_pub_clause hpub e' he2 hm
      · show ∃ rc, (id, bd, rc) ∈ bumpRefBy st.published id0 1
        exact bump_keeps_entry hC4
    · rw [if_neg hcs]
      apply ih
      exact conflictInsertions_trackedP st j0 id0 ht

/-- Slot `i` with `(p, rid)` pushed onto its local batch (the below-capacity
result of `retire`). -/
def belowCapSlot (st : RState) (i : Nat) (p : Ptr) (rid : Nat) : Slot :=
  { st.slots.getD i defaultSlot with batch := pushedBatch st i p rid }

theorem belowCapResult_slots (st : RState) (i : Nat) (p : Ptr) (rid : Nat) :
    (belowCapResult st i p rid).slots = st.slots.set i (belowCapSlot st i p rid) := rfl

theorem retire_trackedP (st : RState) (i2 : Nat) (p2 : Ptr) (rid2 : Nat)
    {id : BatchId} {bd : Batch} {p : Ptr} {rid : Nat}
    (h : wfx st (fun _ => 0)) (hfr : ∀ id3 ∈ pubIds st, id3 < st.nextId)
    (hpos : 0 < refTotal st id)
    (hrid : (p2, rid2) ≠ (p, rid))
    (ht : TrackedP id bd p rid st) : TrackedP id bd p rid (retire st i2 p2 rid2) := by
  obtain ⟨⟨hev, hbat, hpub⟩, rc1, hC4⟩ := ht
  by_cases hlt : (pushedBatch st i2 p2 rid2).functions.length <
      (pushedBatch st i2 p2 rid2).cap
  · rw [retire_eq_below st i2 p2 rid2 hlt]
    refine ⟨⟨hev, ?_, hpub⟩, rc1, hC4⟩
    intro j
    show (p, rid) ∉ ((belowCapResult st i2 p2 rid2).slots.getD j
      defaultSlot).batch.functions
    rw [belowCapResult_slots]
    by_cases hji : j = i2
    · rw [hji]
      by_cases hj : i2 < st.slots.length
      · rw [getD_set_self hj]
        intro hin
        have hin2 : (p, rid) ∈ (st.slots.getD i2 defaultSlot).batch.functions ++
            [(p2, rid2)] := hin
        rcases List.mem_append.1 hin2 with h1 | h1
        · exact hbat i2 h1
        · exact hrid (List.mem_singleton.1 h1).symm
      · rw [List.set_eq_of_length_le (by omega)]
        exact hbat i2
    · rw [getD_set_of_ne hji]
      exact hbat j
  · rw [retire_eq_publish st i2 p2 rid2 hlt]
    have ht1 : TrackedP id bd p rid (pubStart st i2 p2 rid2) := by
      refine ⟨⟨hev, ?_, ?_⟩, rc1, ?_⟩
      · intro j
        show (p, rid) ∉ ((st.slots.set i2 (freshSlot st i2)).getD j
          defaultSlot).batch.functions
        by_cases hji : j = i2
        · rw [hji]
          by_cases hj : i2 < st.slots.length
          · rw [getD_set_self hj]
            intro hin
            exact absurd hin (List.not_mem_nil _)
          · rw [List.set_eq_of_length_le (by omega)]
            exact hbat i2
        · rw [getD_set_of_ne hji]
          exact hbat j
      · intro e' he' hm
        have he2 : e' ∈ (st.nextId, pushedBatch st i2 p2 rid2, 1) :: st.published := he'
        rcases List.mem_cons.1 he2 with h1 | h1
        · exfalso
          rw [h1] at hm
          have hm2 : (p, rid) ∈ (st.slots.getD i2 defaultSlot).batch.functions ++
              [(p2, rid2)] := hm
          rcases List.mem_append.1 hm2 with h2 | h2
          · exact hbat i2 h2
          · exact hrid (List.mem_singleton.1 h2).symm
        · exact hpub e' h1 hm
      · exact List.mem_cons_of_mem _ hC4
    have ht2 := publishToSlots_trackedP st.nextId
      (List.range (pubStart st i2 p2 rid2).slots.length) _ ht1
    obtain ⟨hw1, hid1⟩ := pubStart_wfx st i2 p2 rid2 h hfr
    have hb : ∀ j ∈ List.range (pubStart st i2 p2 rid2).slots.length,
        j < (pubStart st i2 p2 rid2).slots.length := fun j hj => List.mem_range.1 hj
    obtain ⟨hw2, _⟩ := publishToSlots_wfx st.nextId _ _ (oneAt st.nextId) hb hw1 hid1
    have hpos1 : 0 < oneAt st.nextId st.nextId := by
      show 0 < (if st.nextId = st.nextId then 1 else 0)
      rw [if_pos rfl]
      omega
    have harg : 0 < refTotal st id + 0 := by omega
    have hidmem : id ∈ pubIds st := h.2.2 id harg
    have hne : st.nextId ≠ id := by
      intro hh
      have h5 := hfr id hidmem
      rw [hh] at h5
      exact absurd h5 (Nat.lt_irrefl _)
    exact decRefRun_trackedP hw2 hpos1 (fun hh => absurd hh hne) ht2

theorem endCS_primary_ne (st : RState) (i j : Nat) (hne : j ≠ i) :
    ((endCriticalSection st i).slots.getD j defaultSlot).primaryList =
      (st.slots.getD j defaultSlot).primaryList := by
  rw [endCriticalSection_eq]
  rw [(detachPrimary_slots_spec (flagClearedState st i) i).2.1 j hne]
  show ((st.slots.set i (flagClearedSlot st i)).getD j defaultSlot).primaryList = _
  exact primary_getD_set rfl

theorem detachPrimary_conflict_mem (st : RState) (i : Nat) {j k : Nat} {id : BatchId}
    (h : id ∈ ((st.slots.getD j defaultSlot).snapshots.getD k ⟨0, []⟩).conflicts) :
    id ∈ (((detachPrimary st i).slots.getD j defaultSlot).snapshots.getD k
      ⟨0, []⟩).conflicts := by
  have heq : detachPrimary st i = processPrimaryChain
      { st with slots := st.slots.set i (clearPrimarySlot st i) } i
      (st.slots.getD i defaultSlot).primaryList := rfl
  rw [heq]
  apply processPrimaryChain_conflict_mem
  show id ∈ (((st.slots.set i (clearPrimarySlot st i)).getD j
    defaultSlot).snapshots.getD k ⟨0, []⟩).conflicts
  have hse : ((st.slots.set i (clearPrimarySlot st i)).getD j defaultSlot).snapshots =
      (st.slots.getD j defaultSlot).snapshots := snapshots_getD_set rfl
  rw [hse]
  exact h

theorem endCS_conflict_mem (st : RState) (i : Nat) {j k : Nat} {id : BatchId}
    (h : id ∈ ((st.slots.getD j defaultSlot).snapshots.getD k ⟨0, []⟩).conflicts) :
    id ∈ (((endCriticalSection st i).slots.getD j defaultSlot).snapshots.getD k
      ⟨0, []⟩).conflicts := by
  rw [endCriticalSection_eq]
  apply detachPrimary_conflict_mem
  have hse : ((st.slots.set i (flagClearedSlot st i)).getD j defaultSlot).snapshots =
      (st.slots.getD j defaultSlot).snapshots := snapshots_getD_set rfl
  show id ∈ (((st.slots.set i (flagClearedSlot st i)).getD j
    defaultSlot).snapshots.getD k ⟨0, []⟩).conflicts
  rw [hse]
  exact h

theorem protectPtr_primary (st : RState) (i : Nat) (p : Ptr) (j : Nat) :
    ((protectPtr st i p).slots.getD j defaultSlot).primaryList =
      (st.slots.getD j defaultSlot).primaryList := by
  show ((st.slots.set i _).getD j defaultSlot).primaryList = _
  exact primary_getD_set rfl

theorem protectPtr_conflicts (st : RState) (i : Nat) (p : Ptr) (j k : Nat) :
    (((protectPtr st i p).slots.getD j defaultSlot).snapshots.getD k ⟨0, []⟩).conflicts =
      ((st.slots.getD j defaultSlot).snapshots.getD k ⟨0, []⟩).conflicts := by
  show (((st.slots.set i { st.slots.getD i defaultSlot with snapshots := protectScan p (st.slots.getD i defaultSlot).snapshots }).getD j defaultSlot).snapshots.getD k ⟨0, []⟩).conflicts = _
  by_cases hji : j = i
  · rw [hji]
    by_cases hj : i < st.slots.length
    · rw [getD_set_self hj]
      show ((protectScan p (st.slots.getD i defaultSlot).snapshots).getD k
        ⟨0, []⟩).conflicts = _
      exact protectScan_conflicts_getD p _ k
    · rw [List.set_eq_of_length_le (by omega)]
  · rw [getD_set_of_ne hji]

theorem releaseSnapshot_primary (st : RState) (i2 k2 : Nat) (j : Nat) :
    ((releaseSnapshot st i2 k2).slots.getD j defaultSlot).primaryList =
      (st.slots.getD j defaultSlot).primaryList := by
  rw [releaseSnapshot_slots]
  exact primary_getD_set rfl

theorem releaseSnapshot_conflict_mem (st : RState) (i2 k2 : Nat) {j k : Nat}
    {id : BatchId} (hne : ¬(i2 = j ∧ k2 = k))
    (h : id ∈ ((st.slots.getD j defaultSlot).snapshots.getD k ⟨0, []⟩).conflicts) :
    id ∈ (((releaseSnapshot st i2 k2).slots.getD j defaultSlot).snapshots.getD k
      ⟨0, []⟩).conflicts := by
  rw [releaseSnapshot_slots]
  by_cases hji : j = i2
  · have hkk : k2 ≠ k := fun hh => hne ⟨hji.symm, hh⟩
    rw [hji] at h ⊢
    by_cases hj : i2 < st.slots.length
    · rw [getD_set_self hj]
      show id ∈ (((st.slots.getD i2 defaultSlot).snapshots.set k2 ⟨0, []⟩).getD k
        ⟨0, []⟩).conflicts
      rw [getD_set_of_ne (Ne.symm hkk)]
      exact h
    · rw [List.set_eq_of_length_le (by omega)]
      exact h
  · rw [getD_set_of_ne hji]
    exact h

theorem retire_primary_mem (st : RState) (i2 : Nat) (p2 : Ptr) (rid2 : Nat) {j : Nat}
    {id : BatchId} (h : id ∈ (st.slots.getD j defaultSlot).primaryList) :
    id ∈ ((retire st i2 p2 rid2).slots.getD j defaultSlot).primaryList := by
  by_cases hlt : (pushedBatch st i2 p2 rid2).functions.length <
      (pushedBatch st i2 p2 rid2).cap
  · rw [retire_eq_below st i2 p2 rid2 hlt]
    show id ∈ ((belowCapResult st i2 p2 rid2).slots.getD j defaultSlot).primaryList
    rw [belowCapResult_slots]
    have hpe : ((st.slots.set i2 (belowCapSlot st i2 p2 rid2)).getD j
        defaultSlot).primaryList = (st.slots.getD j defaultSlot).primaryList :=
      primary_getD_set rfl
    rw [hpe]
    exact h
  · rw [retire_eq_publish st i2 p2 rid2 hlt]
    show id ∈ ((decRefRun (publishToSlots (pubStart st i2 p2 rid2) st.nextId
      (List.range (pubStart st i2 p2 rid2).slots.length)) st.nextId).slots.getD j
        defaultSlot).primaryList
    rw [decRefRun_slots]
    apply publishToSlots_primary_mono
    have hpe : ((pubStart st i2 p2 rid2).slots.getD j defaultSlot).primaryList =
        (st.slots.getD j defaultSlot).primaryList := by
      show ((st.slots.set i2 (freshSlot st i2)).getD j defaultSlot).primaryList = _
      exact primary_getD_set rfl
    rw [hpe]
    exact h

theorem retire_conflict_mem (st : RState) (i2 : Nat) (p2 : Ptr) (rid2 : Nat)
    {j k : Nat} {id : BatchId}
    (h : id ∈ ((st.slots.getD j defaultSlot).snapshots.getD k ⟨0, []⟩).conflicts) :
    id ∈ (((retire st i2 p2 rid2).slots.getD j defaultSlot).snapshots.getD k
      ⟨0, []⟩).conflicts := by
  by_cases hlt : (pushedBatch st i2 p2 rid2).functions.length <
      (pushedBatch st i2 p2 rid2).cap
  · rw [retire_eq_below st i2 p2 rid2 hlt]
    show id ∈ (((belowCapResult st i2 p2 rid2).slots.getD j
      defaultSlot).snapshots.getD k ⟨0, []⟩).conflicts
    rw [belowCapResult_slots]
    have hse : ((st.slots.set i2 (belowCapSlot st i2 p2 rid2)).getD j
        defaultSlot).snapshots = (st.slots.getD j defaultSlot).snapshots :=
      snapshots_getD_set rfl
    rw [hse]
    exact h
  · rw [retire_eq_publish st i2 p2 rid2 hlt]
    show id ∈ (((decRefRun (publishToSlots (pubStart st i2 p2 rid2) st.nextId
      (List.range (pubStart st i2 p2 rid2).slots.length)) st.nextId).slots.getD j
        defaultSlot).snapshots.getD k ⟨0, []⟩).conflicts
    rw [decRefRun_slots]
    apply publishToSlots_conflict_mono
    have hse : ((pubStart st i2 p2 rid2).slots.getD j defaultSlot).snapshots =
        (st.slots.getD j defaultSlot).snapshots := by
      show ((st.slots.set i2 (freshSlot st i2)).getD j defaultSlot).snapshots = _
      exact snapshots_getD_set rfl
    rw [hse]
    exact h

theorem flag_getD_set {l : List Slot} {i j : Nat} {a : Slot}
    (hab : a.isInCriticalSection = (l.getD i defaultSlot).isInCriticalSection) :
    ((l.set i a).getD j defaultSlot).isInCriticalSection =
      (l.getD j defaultSlot).isInCriticalSection := by
  by_cases hji : j = i
  · subst hji
    by_cases hj : j < l.length
    · rw [getD_set_self hj, hab]
    · rw [List.set_eq_of_length_le (by omega)]
  · rw [getD_set_of_ne hji]

/-- Invariant carried while slot `j` stays in its critical section: the
machine invariant, the tracked pending closure of batch `id`, and the
reference batch `id` holds on slot `j`'s primary list. -/
def KeepA (j : Nat) (id : BatchId) (bd : Batch) (p : Ptr) (rid : Nat) (st : RState) :
    Prop :=
  RInv st ∧ TrackedP id bd p rid st ∧ id ∈ (st.slots.getD j defaultSlot).primaryList

/-- Invariant carried while snapshot entry `k` of slot `j` stays protected:
the machine invariant, the tracked pending closure of batch `id`, and the
reference batch `id` holds on the entry's conflict list. -/
def KeepB (j k : Nat) (id : BatchId) (bd : Batch) (p : Ptr) (rid : Nat) (st : RState) :
    Prop :=
  RInv st ∧ TrackedP id bd p rid st ∧
  id ∈ ((st.slots.getD j defaultSlot).snapshots.getD k ⟨0, []⟩).conflicts

theorem keepA_step {j : Nat} {id : BatchId} {bd : Batch} {p : Ptr} {rid : Nat}
    {st : RState} (l : RLabel) (hK : KeepA j id bd p rid st)
    (hne : l ≠ .endCS j) (hnr : ∀ i2 p2, l ≠ .retireStep i2 p2 rid) :
    KeepA j id bd p rid (rstep st l) := by
  obtain ⟨⟨hwf, hfr⟩, ht, hwit⟩ := hK
  have hinv' : RInv (rstep st l) := rstep_inv st l ⟨hwf, hfr⟩
  have hpos : 0 < refTotal st id :=
    refTotal_pos_of_slot (refsInSlot_pos_of_primary hwit)
  cases l with
  | beginCS i =>
    refine ⟨hinv', trackedP_set_slot rfl ht, ?_⟩
    show id ∈ ((beginCriticalSection st i).slots.getD j defaultSlot).primaryList
    have hpe : ((beginCriticalSection st i).slots.getD j defaultSlot).primaryList =
        (st.slots.getD j defaultSlot).primaryList := by
      show ((st.slots.set i _).getD j defaultSlot).primaryList = _
      exact primary_getD_set rfl
    rw [hpe]
    exact hwit
  | endCS i =>
    have hij : j ≠ i := fun hh => hne (by rw [hh])
    refine ⟨hinv', ?_, ?_⟩
    · show TrackedP id bd p rid (endCriticalSection st i)
      rw [endCriticalSection_eq]
      have ht1 : TrackedP id bd p rid (flagClearedState st i) :=
        trackedP_set_slot rfl ht
      have hw1 : wfx (flagClearedState st i) (fun _ => 0) :=
        flagClearedState_wfx st i hwf
      have hwit1 : id ∈ ((flagClearedState st i).slots.getD j
          defaultSlot).primaryList := by
        show id ∈ ((st.slots.set i (flagClearedSlot st i)).getD j
          defaultSlot).primaryList
        rw [getD_set_of_ne hij]
        exact hwit
      have hwit2 : id ∈ ((((flagClearedState st i).slots.set i
          (clearPrimarySlot (flagClearedState st i) i)).getD j
            defaultSlot)).primaryList := by
        rw [getD_set_of_ne hij]
        exact hwit1
      have hpos1 : 0 < refTotal { flagClearedState st i with
          slots := (flagClearedState st i).slots.set i
            (clearPrimarySlot (flagClearedState st i) i) } id :=
        refTotal_pos_of_slot (refsInSlot_pos_of_primary hwit2)
      exact detachPrimary_trackedP (flagClearedState st i) i hw1 hpos1 ht1
    · show id ∈ ((endCriticalSection st i).slots.getD j defaultSlot).primaryList
      rw [endCS_primary_ne st i j hij]
      exact hwit
  | retireStep i p2 rid2 =>
    have hrid : (p2, rid2) ≠ (p, rid) := by
      intro hh
      have hr2 : rid2 = rid := congrArg Prod.snd hh
      exact hnr i p2 (by rw [hr2])
    exact ⟨hinv', retire_trackedP st i p2 rid2 hwf hfr hpos hrid ht,
      retire_primary_mem st i p2 rid2 hwit⟩
  | protectStep i p2 =>
    refine ⟨hinv', trackedP_set_slot rfl ht, ?_⟩
    show id ∈ ((protectPtr st i p2).slots.getD j defaultSlot).primaryList
    rw [protectPtr_primary]
    exact hwit
  | releaseStep i k =>
    refine ⟨hinv', ?_, ?_⟩
    · show TrackedP id bd p rid (releaseSnapshot st i k)
      have hwit1 : id ∈ ((st.slots.set i (releasedSlot st i k)).getD j
          defaultSlot).primaryList := by
        have hpe : ((st.slots.set i (releasedSlot st i k)).getD j
            defaultSlot).primaryList = (st.slots.getD j defaultSlot).primaryList :=
          primary_getD_set rfl
        rw [hpe]
        exact hwit
      have hpos1 : 0 < refTotal { st with
          slots := st.slots.set i (releasedSlot st i k) } id :=
        refTotal_pos_of_slot (refsInSlot_pos_of_primary hwit1)
      exact releaseSnapshot_trackedP st i k hwf hpos1 ht
    · show id ∈ ((releaseSnapshot st i k).slots.getD j defaultSlot).primaryList
      rw [releaseSnapshot_primary]
      exact hwit

theorem keepB_step {j k : Nat} {id : BatchId} {bd : Batch} {p : Ptr} {rid : Nat}
    {st : RState} (l : RLabel) (hK : KeepB j k id bd p rid st)
    (hne : l ≠ .releaseStep j k) (hnr : ∀ i2 p2, l ≠ .retireStep i2 p2 rid) :
    KeepB j k id bd p rid (rstep st l) := by
  obtain ⟨⟨hwf, hfr⟩, ht, hwit⟩ := hK
  have hinv' : RInv (rstep st l) := rstep_inv st l ⟨hwf, hfr⟩
  have hpos : 0 < refTotal st id :=
    refTotal_pos_of_slot (refsInSlot_pos_of_conflict hwit)
  cases l with
  | beginCS i =>
    refine ⟨hinv', trackedP_set_slot rfl ht, ?_⟩
    show id ∈ (((beginCriticalSection st i).slots.getD j defaultSlot).snapshots.getD k
      ⟨0, []⟩).conflicts
    have hse : ((beginCriticalSection st i).slots.getD j defaultSlot).snapshots =
        (st.slots.getD j defaultSlot).snapshots := by
      show ((st.slots.set i _).getD j defaultSlot).snapshots = _
      exact snapshots_getD_set rfl
    rw [hse]
    exact hwit
  | endCS i =>
    refine ⟨hinv', ?_, ?_⟩
    · show TrackedP id bd p rid (endCriticalSection st i)
      rw [endCriticalSection_eq]
      have ht1 : TrackedP id bd p rid (flagClearedState st i) :=
        trackedP_set_slot rfl ht
      have hw1 : wfx (flagClearedState st i) (fun _ => 0) :=
        flagClearedState_wfx st i hwf
      have hwit1 : id ∈ (((flagClearedState st i).slots.getD j
          defaultSlot).snapshots.getD k ⟨0, []⟩).conflicts := by
        show id ∈ (((st.slots.set i (flagClearedSlot st i)).getD j
          defaultSlot).snapshots.getD k ⟨0, []⟩).conflicts
        have hse : ((st.slots.set i (flagClearedSlot st i)).getD j
            defaultSlot).snapshots = (st.slots.getD j defaultSlot).snapshots :=
          snapshots_getD_set rfl
        rw [hse]
        exact hwit
      have hwit2 : id ∈ (((((flagClearedState st i).slots.set i
          (clearPrimarySlot (flagClearedState st i) i)).getD j
            defaultSlot)).snapshots.getD k ⟨0, []⟩).conflicts := by
        have hse : (((flagClearedState st i).slots.set i
            (clearPrimarySlot (flagClearedState st i) i)).getD j
              defaultSlot).snapshots =
            ((flagClearedState st i).slots.getD j defaultSlot).snapshots :=
          snapshots_getD_set rfl
        rw [hse]
        exact hwit1
      have hpos1 : 0 < refTotal { flagClearedState st i with
          slots := (flagClearedState st i).slots.set i
            (clearPrimarySlot (flagClearedState st i) i) } id :=
        refTotal_pos_of_slot (refsInSlot_pos_of_conflict hwit2)
      exact detachPrimary_trackedP (flagClearedState st i) i hw1 hpos1 ht1
    · exact endCS_conflict_mem st i hwit
  | retireStep i p2 rid2 =>
    have hrid : (p2, rid2) ≠ (p, rid) := by
      intro hh
      have hr2 : rid2 = rid := congrArg Prod.snd hh
      exact hnr i p2 (by rw [hr2])
    exact ⟨hinv', retire_trackedP st i p2 rid2 hwf hfr hpos hrid ht,
      retire_conflict_mem st i p2 rid2 hwit⟩
  | protectStep i p2 =>
    refine ⟨hinv', trackedP_set_slot rfl ht, ?_⟩
    show id ∈ (((protectPtr st i p2).slots.getD j defaultSlot).snapshots.getD k
      ⟨0, []⟩).conflicts
    rw [protectPtr_conflicts]
    exact hwit
  | releaseStep i2 k2 =>
    have hnejk : ¬(i2 = j ∧ k2 = k) := by
      rintro ⟨h1, h2⟩
      exact hne (by rw [h1, h2])
    have hwitF := releaseSnapshot_conflict_mem st i2 k2 hnejk hwit
    refine ⟨hinv', ?_, hwitF⟩
    show TrackedP id bd p rid (releaseSnapshot st i2 k2)
    have hwit1 : id ∈ (((st.slots.set i2 (releasedSlot st i2 k2)).getD j
        defaultSlot).snapshots.getD k ⟨0, []⟩).conflicts := by
      rw [← releaseSnapshot_slots]
      exact hwitF
    have hpos1 : 0 < refTotal { st with
        slots := st.slots.set i2 (releasedSlot st i2 k2) } id :=
      refTotal_pos_of_slot (refsInSlot_pos_of_conflict hwit1)
    exact releaseSnapshot_trackedP st i2 k2 hwf hpos1 ht

theorem keepA_run {j : Nat} {id : BatchId} {bd : Batch} {p : Ptr} {rid : Nat} :
    ∀ (ls : List RLabel) (st : RState), KeepA j id bd p rid st →
    (∀ l ∈ ls, l ≠ .endCS j) → (∀ l ∈ ls, ∀ i2 p2, l ≠ .retireStep i2 p2 rid) →
    KeepA j id bd p rid (runLabels st ls) := by
  intro ls
  induction ls with
  | nil =>
    intro st h _ _
    exact h
  | cons l rest ih =>
    intro st h h1 h2
    rw [runLabels]
    exact ih (rstep st l)
      (keepA_step l h (h1 l (List.mem_cons_self _ _)) (h2 l (List.mem_cons_self _ _)))
      (fun l2 hl2 => h1 l2 (List.mem_cons_of_mem _ hl2))
      (fun l2 hl2 => h2 l2 (List.mem_cons_of_mem _ hl2))

theorem keepB_run {j k : Nat} {id : BatchId} {bd : Batch} {p : Ptr} {rid : Nat} :
    ∀ (ls : List RLabel) (st : RState), KeepB j k id bd p rid st →
    (∀ l ∈ ls, l ≠ .releaseStep j k) → (∀ l ∈ ls, ∀ i2 p2, l ≠ .retireStep i2 p2 rid) →
    KeepB j k id bd p rid (runLabels st ls) := by
  intro ls
  induction ls with
  | nil =>
    intro st h _ _
    exact h
  | cons l rest ih =>
    intro st h h1 h2
    rw [runLabels]
    exact ih (rstep st l)
      (keepB_step l h (h1 l (List.mem_cons_self _ _)) (h2 l (List.mem_cons_self _ _)))
      (fun l2 hl2 => h1 l2 (List.mem_cons_of_mem _ hl2))
      (fun l2 hl2 => h2 l2 (List.mem_cons_of_mem _ hl2))

theorem pubIds_rstep_sub (st : RState) (l : RLabel) :
    ∀ id2 ∈ pubIds (rstep st l), id2 ∈ pubIds st ∨ id2 = st.nextId := by
  intro id2 h2
  cases l with
  | beginCS i => exact Or.inl h2
  | endCS i =>
    left
    have h2' : id2 ∈ pubIds (endCriticalSection st i) := h2
    rw [endCriticalSection_eq] at h2'
    exact pubIds_detachPrimary_sub (flagClearedState st i) i id2 h2'
  | retireStep i p2 rid2 =>
    have h2' : id2 ∈ pubIds (retire st i p2 rid2) := h2
    by_cases hlt : (pushedBatch st i p2 rid2).functions.length <
        (pushedBatch st i p2 rid2).cap
    · rw [retire_eq_below st i p2 rid2 hlt] at h2'
      exact Or.inl h2'
    · rw [retire_eq_publish st i p2 rid2 hlt] at h2'
      have h3 := pubIds_decRefRun_sub _ st.nextId id2 h2'
      rw [pubIds_publishToSlots] at h3
      have h4 : id2 ∈ st.nextId :: pubIds st := h3
      rcases List.mem_cons.1 h4 with h5 | h5
      · exact Or.inr h5
      · exact Or.inl h5
  | protectStep i p2 => exact Or.inl h2
  | releaseStep i k =>
    left
    have h2' : id2 ∈ pubIds (releaseSnapshot st i k) := h2
    exact pubIds_releaseSnapshot_sub st i k id2 h2'

theorem nextId_rstep_mono (st : RState) (l : RLabel) :
    st.nextId ≤ (rstep st l).nextId := by
  cases l with
  | beginCS i => exact Nat.le_refl _
  | endCS i =>
    show st.nextId ≤ (endCriticalSection st i).nextId
    rw [endCriticalSection_eq, nextId_detachPrimary]
    exact Nat.le_refl _
  | retireStep i p2 rid2 =>
    show st.nextId ≤ (retire st i p2 rid2).nextId
    by_cases hlt : (pushedBatch st i p2 rid2).functions.length <
        (pushedBatch st i p2 rid2).cap
    · rw [retire_eq_below st i p2 rid2 hlt]
      exact Nat.le_refl _
    · rw [retire_eq_publish st i p2 rid2 hlt]
      rw [(decRefRun_misc _ _).1, nextId_publishToSlots]
      show st.nextId ≤ st.nextId + 1
      exact Nat.le_succ _
  | protectStep i p2 => exact Nat.le_refl _
  | releaseStep i k =>
    show st.nextId ≤ (releaseSnapshot st i k).nextId
    rw [nextId_releaseSnapshot]

theorem nextId_run_mono :
    ∀ (ls : List RLabel) (st : RState), st.nextId ≤ (runLabels st ls).nextId := by
  intro ls
  induction ls with
  | nil =>
    intro st
    exact Nat.le_refl _
  | cons l rest ih =>
    intro st
    rw [runLabels]
    exact Nat.le_trans (nextId_rstep_mono st l) (ih (rstep st l))

theorem dead_stays_dead {id : BatchId} :
    ∀ (ls : List RLabel) (st : RState), id < st.nextId → id ∉ pubIds st →
    id < (runLabels st ls).nextId ∧ id ∉ pubIds (runLabels st ls) := by
  intro ls
  induction ls with
  | nil =>
    intro st h1 h2
    exact ⟨h1, h2⟩
  | cons l rest ih =>
    intro st h1 h2
    rw [runLabels]
    have h3 : id < (rstep st l).nextId := Nat.lt_of_lt_of_le h1 (nextId_rstep_mono st l)
    have h4 : id ∉ pubIds (rstep st l) := by
      intro hm
      rcases pubIds_rstep_sub st l id hm with h5 | h5
      · exact h2 h5
      · rw [h5] at h1
        exact absurd h1 (Nat.lt_irrefl _)
    exact ih (rstep st l) h3 h4

theorem drop_executes_pending {st : RState} (h : wf st) (pr : Ptr × Nat)
    (hp : PendingIn pr st) : pr ∈ (reclaimerDrop st).events := by
  obtain ⟨hw, hc, hlen, hne2, hcl⟩ :=
    reclaimerDropFrom_spec (List.range st.slots.length) st h
  have heq : reclaimerDrop st = reclaimerDropFrom st (List.range st.slots.length) := rfl
  have h2 := hc pr (Or.inl hp)
  rw [heq]
  rcases h2 with hpend | hev
  · exfalso
    rcases hpend with ⟨j2, hj2, hjm⟩ | ⟨e, hee, hef⟩
    · by_cases hj : j2 < st.slots.length
      · have hcj := hcl j2 (List.mem_range.2 hj)
        rw [hcj.1] at hjm
        exact List.not_mem_nil pr hjm
      · rw [getD_oob (by rw [hlen]; omega)] at hjm
        exact List.not_mem_nil pr hjm
    · have hallclean : ∀ j2, CleanSlot ((reclaimerDropFrom st
          (List.range st.slots.length)).slots.getD j2 defaultSlot) := by
        intro j2
        by_cases hj : j2 < st.slots.length
        · exact hcl j2 (List.mem_range.2 hj)
        · rw [getD_oob (by rw [hlen]; omega)]
          exact cleanSlot_default
      have href : ∀ id, refTotal (reclaimerDropFrom st
          (List.range st.slots.length)) id = 0 := by
        intro id
        show ((reclaimerDropFrom st (List.range st.slots.length)).slots.map
          fun s => refsInSlot s id).sum = 0
        apply List.sum_eq_zero
        intro x hx
        obtain ⟨s, hs, hsx⟩ := List.mem_map.1 hx
        obtain ⟨k2, hk2, hke⟩ := List.getElem_of_mem hs
        have hgd : (reclaimerDropFrom st (List.range st.slots.length)).slots.getD k2
            defaultSlot = s := by
          rw [List.getD_eq_getElem?_getD, List.getElem?_eq_getElem hk2]
          exact hke
        rw [← hsx, ← hgd]
        exact refsInSlot_of_clean (hallclean k2) id
      obtain ⟨hnd, hcnt, hmem⟩ := hw
      obtain ⟨hcc1, hcc2⟩ := hcnt e hee
      have hc1' : e.2.2 = refTotal (reclaimerDropFrom st
          (List.range st.slots.length)) e.1 + 0 := hcc1
      rw [href e.1] at hc1'
      omega
  · exact hev

theorem retire_publish_slot (st : RState) (i : Nat) (p : Ptr) (rid : Nat)
    (hge : ¬ (pushedBatch st i p rid).functions.length < (pushedBatch st i p rid).cap)
    (j : Nat) (hj : j < st.slots.length) :
    (retire st i p rid).slots.getD j defaultSlot =
      pubSlotTransform st.nextId (pushedBatch st i p rid).lookup
        ((pubStart st i p rid).slots.getD j defaultSlot) := by
  rw [retire_eq_publish st i p rid hge]
  show (decRefRun (publishToSlots (pubStart st i p rid) st.nextId
    (List.range (pubStart st i p rid).slots.length)) st.nextId).slots.getD j
      defaultSlot = _
  rw [decRefRun_slots]
  have hfind1 : findBatch (pubStart st i p rid).published st.nextId =
      some (pushedBatch st i p rid, 1) := by
    show (if st.nextId = st.nextId then _ else _) = _
    rw [if_pos rfl]
  have hlen1 : (pubStart st i p rid).slots.length = st.slots.length := by
    show (st.slots.set i (freshSlot st i)).length = _
    simp
  have hspec := publishToSlots_spec st.nextId (pushedBatch st i p rid)
    (List.range (pubStart st i p rid).slots.length) (pubStart st i p rid) 1
    (List.nodup_range _) hfind1
  exact hspec.2.1 j (List.mem_range.2 (by rw [hlen1]; exact hj))

theorem retire_trackedP_start (st : RState) (i : Nat) (p : Ptr) (rid : Nat)
    (hwf : wf st) (hfr : ∀ id3 ∈ pubIds st, id3 < st.nextId)
    (hge : ¬ (pushedBatch st i p rid).functions.length < (pushedBatch st i p rid).cap)
    (hev0 : (p, rid) ∉ st.events)
    (hbat0 : ∀ j2, (p, rid) ∉ (st.slots.getD j2 defaultSlot).batch.functions)
    (hpub0 : ∀ e ∈ st.published, (p, rid) ∉ e.2.1.functions)
    (hpos2 : 0 < refTotal (publishToSlots (pubStart st i p rid) st.nextId
      (List.range (pubStart st i p rid).slots.length)) st.nextId) :
    TrackedP st.nextId (pushedBatch st i p rid) p rid (retire st i p rid) := by
  have ht1 : TrackedP st.nextId (pushedBatch st i p rid) p rid
      (pubStart st i p rid) := by
    refine ⟨⟨hev0, ?_, ?_⟩, 1, ?_⟩
    · intro j2
      show (p, rid) ∉ ((st.slots.set i (freshSlot st i)).getD j2
        defaultSlot).batch.functions
      by_cases hji : j2 = i
      · rw [hji]
        by_cases hi2 : i < st.slots.length
        · rw [getD_set_self hi2]
          intro hin
          exact absurd hin (List.not_mem_nil _)
        · rw [List.set_eq_of_length_le (by omega)]
          exact hbat0 i
      · rw [getD_set_of_ne hji]
        exact hbat0 j2
    · intro e he hm
      have he2 : e ∈ (st.nextId, pushedBatch st i p rid, 1) :: st.published := he
      rcases List.mem_cons.1 he2 with h1 | h1
      · rw [h1]
      · exact absurd hm (hpub0 e h1)
    · exact List.mem_cons_self _ _
  have ht2 := publishToSlots_trackedP st.nextId
    (List.range (pubStart st i p rid).slots.length) _ ht1
  obtain ⟨hw1, hid1⟩ := pubStart_wfx st i p rid hwf hfr
  have hb : ∀ j2 ∈ List.range (pubStart st i p rid).slots.length,
      j2 < (pubStart st i p rid).slots.length := fun j2 hj2 => List.mem_range.1 hj2
  obtain ⟨hw2, hid2⟩ := publishToSlots_wfx st.nextId _ _ (oneAt st.nextId) hb hw1 hid1
  have hpos1 : 0 < oneAt st.nextId st.nextId := by
    show 0 < (if st.nextId = st.nextId then 1 else 0)
    rw [if_pos rfl]
    omega
  rw [retire_eq_publish st i p rid hge]
  exact decRefRun_trackedP hw2 hpos1 (fun _ => hpos2) ht2

theorem retire_keepA_start (st : RState) (i : Nat) (p : Ptr) (rid : Nat) (j : Nat)
    (hinv : RInv st)
    (hge : ¬ (pushedBatch st i p rid).functions.length < (pushedBatch st i p rid).cap)
    (hj : j < st.slots.length)
    (hev0 : (p, rid) ∉ st.events)
    (hbat0 : ∀ j2, (p, rid) ∉ (st.slots.getD j2 defaultSlot).batch.functions)
    (hpub0 : ∀ e ∈ st.published, (p, rid) ∉ e.2.1.functions)
    (hcs : (st.slots.getD j defaultSlot).isInCriticalSection = true) :
    KeepA j st.nextId (pushedBatch st i p rid) p rid (retire st i p rid) := by
  obtain ⟨hwf, hfr⟩ := hinv
  have hslot := retire_publish_slot st i p rid hge j hj
  have hflag : ((pubStart st i p rid).slots.getD j defaultSlot).isInCriticalSection =
      true := by
    have hfe : ((st.slots.set i (freshSlot st i)).getD j
        defaultSlot).isInCriticalSection =
        (st.slots.getD j defaultSlot).isInCriticalSection := flag_getD_set rfl
    show ((st.slots.set i (freshSlot st i)).getD j defaultSlot).isInCriticalSection =
      true
    rw [hfe]
    exact hcs
  have hwit : st.nextId ∈ ((retire st i p rid).slots.getD j defaultSlot).primaryList := by
    rw [hslot]
    unfold pubSlotTransform
    rw [if_pos hflag]
    exact List.mem_cons_self _ _
  have hd : (retire st i p rid).slots.getD j defaultSlot =
      (publishToSlots (pubStart st i p rid) st.nextId
        (List.range (pubStart st i p rid).slots.length)).slots.getD j defaultSlot := by
    rw [retire_eq_publish st i p rid hge]
    show (decRefRun _ _).slots.getD j defaultSlot = _
    rw [decRefRun_slots]
  have hwit2 : st.nextId ∈ ((publishToSlots (pubStart st i p rid) st.nextId
      (List.range (pubStart st i p rid).slots.length)).slots.getD j
        defaultSlot).primaryList := by
    rw [← hd]
    exact hwit
  have hpos2 : 0 < refTotal (publishToSlots (pubStart st i p rid) st.nextId
      (List.range (pubStart st i p rid).slots.length)) st.nextId :=
    refTotal_pos_of_slot (refsInSlot_pos_of_primary hwit2)
  exact ⟨rstep_inv st (.retireStep i p rid) ⟨hwf, hfr⟩,
    retire_trackedP_start st i p rid hwf hfr hge hev0 hbat0 hpub0 hpos2, hwit⟩

theorem retire_keepB_start (st : RState) (i : Nat) (p : Ptr) (rid : Nat) (j k : Nat)
    (q : Ptr) (hinv : RInv st)
    (hge : ¬ (pushedBatch st i p rid).functions.length < (pushedBatch st i p rid).cap)
    (hj : j < st.slots.length)
    (hev0 : (p, rid) ∉ st.events)
    (hbat0 : ∀ j2, (p, rid) ∉ (st.slots.getD j2 defaultSlot).batch.functions)
    (hpub0 : ∀ e ∈ st.published, (p, rid) ∉ e.2.1.functions)
    (hcs : (st.slots.getD j defaultSlot).isInCriticalSection = false)
    (hqe : ((st.slots.getD j defaultSlot).snapshots.getD k ⟨0, []⟩).ptr = q)
    (hq0 : q ≠ 0)
    (hql : q ∈ (pushedBatch st i p rid).lookup) :
    KeepB j k st.nextId (pushedBatch st i p rid) p rid (retire st i p rid) := by
  obtain ⟨hwf, hfr⟩ := hinv
  have hslot := retire_publish_slot st i p rid hge j hj
  have hflag : ((pubStart st i p rid).slots.getD j defaultSlot).isInCriticalSection =
      false := by
    have hfe : ((st.slots.set i (freshSlot st i)).getD j
        defaultSlot).isInCriticalSection =
        (st.slots.getD j defaultSlot).isInCriticalSection := flag_getD_set rfl
    show ((st.slots.set i (freshSlot st i)).getD j defaultSlot).isInCriticalSection =
      false
    rw [hfe]
    exact hcs
  have hcond : ¬ ((pubStart st i p rid).slots.getD j
      defaultSlot).isInCriticalSection = true := by
    rw [hflag]
    simp
  have hk : k < (st.slots.getD j defaultSlot).snapshots.length := by
    by_contra hkk
    rw [getD_oob (by omega)] at hqe
    exact hq0 hqe.symm
  have hmatch : matchesB (pushedBatch st i p rid).lookup
      ((st.slots.getD j defaultSlot).snapshots.getD k ⟨0, []⟩) = true := by
    unfold matchesB
    rw [hqe]
    simp [hq0, hql]
  have hwit : st.nextId ∈ (((retire st i p rid).slots.getD j
      defaultSlot).snapshots.getD k ⟨0, []⟩).conflicts := by
    rw [hslot]
    unfold pubSlotTransform
    rw [if_neg hcond]
    show st.nextId ∈ ((((pubStart st i p rid).slots.getD j defaultSlot).snapshots.map
      (snapConflictPush st.nextId (pushedBatch st i p rid).lookup)).getD k
        ⟨0, []⟩).conflicts
    have hse : ((pubStart st i p rid).slots.getD j defaultSlot).snapshots =
        (st.slots.getD j defaultSlot).snapshots := by
      show ((st.slots.set i (freshSlot st i)).getD j defaultSlot).snapshots = _
      exact snapshots_getD_set rfl
    rw [hse]
    rw [getD_map_of_lt (snapConflictPush st.nextId (pushedBatch st i p rid).lookup)
      ⟨0, []⟩ ⟨0, []⟩ hk]
    unfold snapConflictPush
    rw [if_pos hmatch]
    exact List.mem_cons_self _ _
  have hd : (retire st i p rid).slots.getD j defaultSlot =
      (publishToSlots (pubStart st i p rid) st.nextId
        (List.range (pubStart st i p rid).slots.length)).slots.getD j defaultSlot := by
    rw [retire_eq_publish st i p rid hge]
    show (decRefRun _ _).slots.getD j defaultSlot = _
    rw [decRefRun_slots]
  have hwit2 : st.nextId ∈ (((publishToSlots (pubStart st i p rid) st.nextId
      (List.range (pubStart st i p rid).slots.length)).slots.getD j
        defaultSlot).snapshots.getD k ⟨0, []⟩).conflicts := by
    rw [← hd]
    exact hwit
  have hpos2 : 0 < refTotal (publishToSlots (pubStart st i p rid) st.nextId
      (List.range (pubStart st i p rid).slots.length)) st.nextId :=
    refTotal_pos_of_slot (refsInSlot_pos_of_conflict hwit2)
  exact ⟨rstep_inv st (.retireStep i p rid) ⟨hwf, hfr⟩,
    retire_trackedP_start st i p rid hwf hfr hge hev0 hbat0 hpub0 hpos2, hwit⟩

theorem snapPush_ptr (id0 : BatchId) (lkp : List Ptr) (snaps : List SnapshotPtr)
    (k : Nat) :
    ((snaps.map (snapConflictPush id0 lkp)).getD k ⟨0, []⟩).ptr =
      (snaps.getD k ⟨0, []⟩).ptr := by
  by_cases hk : k < snaps.length
  · rw [getD_map_of_lt (snapConflictPush id0 lkp) ⟨0, []⟩ ⟨0, []⟩ hk]
    unfold snapConflictPush
    by_cases hm : matchesB lkp (snaps.getD k ⟨0, []⟩)
    · rw [if_pos hm]
    · rw [if_neg hm]
  · rw [getD_oob (show (snaps.map (snapConflictPush id0 lkp)).length ≤ k by
      rw [List.length_map]; omega),
      getD_oob (show snaps.length ≤ k by omega)]

/-- The snapshot scan only pushes conflict references: it never changes any
entry's observed pointer. -/
theorem conflictInsertions_ptr (st : RState) (i2 : Nat) (id2 : BatchId) (j k : Nat) :
    (((conflictInsertions st i2 id2).slots.getD j defaultSlot).snapshots.getD k
      ⟨0, []⟩).ptr = ((st.slots.getD j defaultSlot).snapshots.getD k ⟨0, []⟩).ptr := by
  cases hfind : findBatch st.published id2 with
  | none =>
    have heq : conflictInsertions st i2 id2 = st := by simp [conflictInsertions, hfind]
    rw [heq]
  | some brc =>
    obtain ⟨b, rc⟩ := brc
    rw [conflictInsertions_slots_eq hfind]
    by_cases hji : j = i2
    · subst hji
      by_cases hj : j < st.slots.length
      · rw [getD_set_self hj]
        show (((st.slots.getD j defaultSlot).snapshots.map
          (snapConflictPush id2 b.lookup)).getD k ⟨0, []⟩).ptr = _
        exact snapPush_ptr id2 b.lookup _ k
      · rw [List.set_eq_of_length_le (by omega)]
    · rw [getD_set_of_ne hji]

theorem processPrimaryChain_ptr (si j k : Nat) :
    ∀ (chain : List BatchId) (st : RState),
    (((processPrimaryChain st si chain).slots.getD j defaultSlot).snapshots.getD k
      ⟨0, []⟩).ptr = ((st.slots.getD j defaultSlot).snapshots.getD k ⟨0, []⟩).ptr := by
  intro chain
  induction chain with
  | nil =>
    intro st
    rfl
  | cons id2 rest ih =>
    intro st
    rw [processPrimaryChain, ih]
    show (((decRefRun (conflictInsertions st si id2) id2).slots.getD j
      defaultSlot).snapshots.getD k ⟨0, []⟩).ptr = _
    rw [decRefRun_slots]
    exact conflictInsertions_ptr st si id2 j k

theorem detachPrimary_ptr (st : RState) (i2 : Nat) (j k : Nat) :
    (((detachPrimary st i2).slots.getD j defaultSlot).snapshots.getD k ⟨0, []⟩).ptr =
      ((st.slots.getD j defaultSlot).snapshots.getD k ⟨0, []⟩).ptr := by
  have heq : detachPrimary st i2 = processPrimaryChain
      { st with slots := st.slots.set i2 (clearPrimarySlot st i2) } i2
      (st.slots.getD i2 defaultSlot).primaryList := rfl
  rw [heq, processPrimaryChain_ptr]
  show (((st.slots.set i2 (clearPrimarySlot st i2)).getD j defaultSlot).snapshots.getD k
    ⟨0, []⟩).ptr = _
  have hse : ((st.slots.set i2 (clearPrimarySlot st i2)).getD j defaultSlot).snapshots =
      (st.slots.getD j defaultSlot).snapshots := snapshots_getD_set rfl
  rw [hse]

theorem endCS_ptr (st : RState) (i2 : Nat) (j k : Nat) :
    (((endCriticalSection st i2).slots.getD j defaultSlot).snapshots.getD k
      ⟨0, []⟩).ptr = ((st.slots.getD j defaultSlot).snapshots.getD k ⟨0, []⟩).ptr := by
  rw [endCriticalSection_eq, detachPrimary_ptr]
  show (((st.slots.set i2 (flagClearedSlot st i2)).getD j defaultSlot).snapshots.getD k
    ⟨0, []⟩).ptr = _
  have hse : ((st.slots.set i2 (flagClearedSlot st i2)).getD j defaultSlot).snapshots =
      (st.slots.getD j defaultSlot).snapshots := snapshots_getD_set rfl
  rw [hse]

theorem beginCS_ptr (st : RState) (i2 : Nat) (j k : Nat) :
    (((beginCriticalSection st i2).slots.getD j defaultSlot).snapshots.getD k
      ⟨0, []⟩).ptr = ((st.slots.getD j defaultSlot).snapshots.getD k ⟨0, []⟩).ptr := by
  have hse : ((beginCriticalSection st i2).slots.getD j defaultSlot).snapshots =
      (st.slots.getD j defaultSlot).snapshots := by
    show ((st.slots.set i2 _).getD j defaultSlot).snapshots = _
    exact snapshots_getD_set rfl
  rw [hse]

theorem publishToSlots_ptr (id0 : BatchId) (j k : Nat) :
    ∀ (js : List Nat) (st : RState),
    (((publishToSlots st id0 js).slots.getD j defaultSlot).snapshots.getD k
      ⟨0, []⟩).ptr = ((st.slots.getD j defaultSlot).snapshots.getD k ⟨0, []⟩).ptr := by
  intro js
  induction js with
  | nil =>
    intro st
    rfl
  | cons j0 rest ih =>
    intro st
    rw [publishToSlots_cons]
    by_cases hcs : (st.slots.getD j0 defaultSlot).isInCriticalSection
    · rw [if_pos hcs, ih]
      show (((st.slots.set j0 (csPushSlot st j0 id0)).getD j defaultSlot).snapshots.getD k
        ⟨0, []⟩).ptr = _
      have hse : ((st.slots.set j0 (csPushSlot st j0 id0)).getD j defaultSlot).snapshots =
          (st.slots.getD j defaultSlot).snapshots := snapshots_getD_set rfl
      rw [hse]
    · rw [if_neg hcs, ih]
      exact conflictInsertions_ptr st j0 id0 j k

/-- `retire` never changes any snapshot entry's observed pointer (the
publication loop only pushes conflict references). -/
theorem retire_ptr (st : RState) (i2 : Nat) (p2 : Ptr) (rid2 : Nat) (j k : Nat) :
    (((retire st i2 p2 rid2).slots.getD j defaultSlot).snapshots.getD k ⟨0, []⟩).ptr =
      ((st.slots.getD j defaultSlot).snapshots.getD k ⟨0, []⟩).ptr := by
  by_cases hlt : (pushedBatch st i2 p2 rid2).functions.length <
      (pushedBatch st i2 p2 rid2).cap
  · rw [retire_eq_below st i2 p2 rid2 hlt]
    show (((belowCapResult st i2 p2 rid2).slots.getD j defaultSlot).snapshots.getD k
      ⟨0, []⟩).ptr = _
    rw [belowCapResult_slots]
    have hse : ((st.slots.set i2 (belowCapSlot st i2 p2 rid2)).getD j
        defaultSlot).snapshots = (st.slots.getD j defaultSlot).snapshots :=
      snapshots_getD_set rfl
    rw [hse]
  · rw [retire_eq_publish st i2 p2 rid2 hlt]
    show (((decRefRun (publishToSlots (pubStart st i2 p2 rid2) st.nextId
      (List.range (pubStart st i2 p2 rid2).slots.length)) st.nextId).slots.getD j
        defaultSlot).snapshots.getD k ⟨0, []⟩).ptr = _
    rw [decRefRun_slots, publishToSlots_ptr]
    show (((st.slots.set i2 (freshSlot st i2)).getD j defaultSlot).snapshots.getD k
      ⟨0, []⟩).ptr = _
    have hse : ((st.slots.set i2 (freshSlot st i2)).getD j defaultSlot).snapshots =
        (st.slots.getD j defaultSlot).snapshots := snapshots_getD_set rfl
    rw [hse]

/-- The `protect_ptr` scan only claims entries whose pointer is null: an entry
observing a non-null pointer is left untouched. -/
theorem protectScan_ptr_nonzero (p : Ptr) :
    ∀ (snaps : List SnapshotPtr) (k : Nat),
    (snaps.getD k ⟨0, []⟩).ptr ≠ 0 →
    ((protectScan p snaps).getD k ⟨0, []⟩).ptr = (snaps.getD k ⟨0, []⟩).ptr := by
  intro snaps
  induction snaps with
  | nil =>
    intro k h
    exact absurd rfl h
  | cons e rest ih =>
    intro k h
    rw [protectScan]
    by_cases hp : e.ptr = 0
    · rw [if_pos hp]
      cases k with
      | zero => exact absurd hp h
      | succ n => rw [List.getD_cons_succ, List.getD_cons_succ]
    · rw [if_neg hp]
      cases k with
      | zero => rfl
      | succ n =>
        rw [List.getD_cons_succ, List.getD_cons_succ]
        exact ih n (by rw [List.getD_cons_succ] at h; exact h)

theorem protectPtr_ptr_nonzero (st : RState) (i2 : Nat) (p2 : Ptr) (j k : Nat)
    (h : ((st.slots.getD j defaultSlot).snapshots.getD k ⟨0, []⟩).ptr ≠ 0) :
    (((protectPtr st i2 p2).slots.getD j defaultSlot).snapshots.getD k ⟨0, []⟩).ptr =
      ((st.slots.getD j defaultSlot).snapshots.getD k ⟨0, []⟩).ptr := by
  show (((st.slots.set i2 { st.slots.getD i2 defaultSlot with snapshots := protectScan p2 (st.slots.getD i2 defaultSlot).snapshots }).getD j defaultSlot).snapshots.getD k ⟨0, []⟩).ptr = _
  by_cases hji : j = i2
  · subst hji
    by_cases hj : j < st.slots.length
    · rw [getD_set_self hj]
      show ((protectScan p2 (st.slots.getD j defaultSlot).snapshots).getD k
        ⟨0, []⟩).ptr = _
      exact protectScan_ptr_nonzero p2 (st.slots.getD j defaultSlot).snapshots k h
    · rw [List.set_eq_of_length_le (by omega)]
  · rw [getD_set_of_ne hji]

/-- Releasing a different snapshot entry leaves this entry's pointer alone. -/
theorem releaseSnapshot_ptr_ne (st : RState) (i2 k2 : Nat) (j k : Nat)
    (hne : ¬(i2 = j ∧ k2 = k)) :
    (((releaseSnapshot st i2 k2).slots.getD j defaultSlot).snapshots.getD k
      ⟨0, []⟩).ptr = ((st.slots.getD j defaultSlot).snapshots.getD k ⟨0, []⟩).ptr := by
  rw [releaseSnapshot_slots]
  by_cases hji : j = i2
  · have hkk : k2 ≠ k := fun hh => hne ⟨hji.symm, hh⟩
    rw [hji]
    by_cases hj : i2 < st.slots.length
    · rw [getD_set_self hj]
      show (((st.slots.getD i2 defaultSlot).snapshots.set k2 ⟨0, []⟩).getD k
        ⟨0, []⟩).ptr = _
      rw [getD_set_of_ne (Ne.symm hkk)]
    · rw [List.set_eq_of_length_le (by omega)]
  · rw [getD_set_of_ne hji]

/-- The `check_on_drop` handoff: dropping a detached primary chain of slot `j`
that contains batch `id` re-scans slot `j`'s snapshots before releasing each
node's batch reference, so an entry still observing a pointer `q` of the
batch's membership set receives a conflict reference, and the tracked pending
closure survives the chain drop. -/
theorem processPrimaryChain_handoff (j k : Nat) {id : BatchId} {bd : Batch} {p : Ptr}
    {rid : Nat} (q : Ptr) (hq0 : q ≠ 0) (hql : q ∈ bd.lookup) :
    ∀ (chain : List BatchId) (st : RState) (extra : BatchId → Nat),
    wfx st (fun x => extra x + chain.count x) →
    TrackedP id bd p rid st →
    ((st.slots.getD j defaultSlot).snapshots.getD k ⟨0, []⟩).ptr = q →
    id ∈ chain →
    TrackedP id bd p rid (processPrimaryChain st j chain) ∧
    id ∈ (((processPrimaryChain st j chain).slots.getD j defaultSlot).snapshots.getD k
      ⟨0, []⟩).conflicts := by
  intro chain
  induction chain with
  | nil =>
    intro st extra _ _ _ hmem
    exact absurd hmem (List.not_mem_nil id)
  | cons id2 rest ih =>
    intro st extra hw ht hptr hmem
    have hj : j < st.slots.length := by
      by_contra hjj
      rw [getD_oob (show st.slots.length ≤ j by omega)] at hptr
      exact hq0 hptr.symm
    have hk : k < (st.slots.getD j defaultSlot).snapshots.length := by
      by_contra hkk
      rw [getD_oob (show (st.slots.getD j defaultSlot).snapshots.length ≤ k by
        omega)] at hptr
      exact hq0 hptr.symm
    have hposx : 0 < extra id2 + (id2 :: rest).count id2 := by
      rw [List.count_cons_self]
      omega
    have hfun : (fun i3 => if i3 = id2 then extra i3 + (id2 :: rest).count i3 - 1
        else extra i3 + (id2 :: rest).count i3) = fun i3 => extra i3 + rest.count i3 := by
      funext i3
      by_cases hi3 : i3 = id2
      · subst hi3
        rw [if_pos rfl, List.count_cons_self]
        omega
      · rw [if_neg hi3, List.count_cons_of_ne hi3]
    by_cases hii : id2 = id
    · obtain ⟨hp1, rc1, hC4⟩ := ht
      have hfind : findBatch st.published id2 = some (bd, rc1) := by
        rw [hii]
        exact findBatch_of_mem hw.1 hC4
      have hmatch : matchesB bd.lookup
          ((st.slots.getD j defaultSlot).snapshots.getD k ⟨0, []⟩) = true := by
        unfold matchesB
        rw [hptr]
        simp [hq0, hql]
      have hwitC : id ∈ (((conflictInsertions st j id2).slots.getD j
          defaultSlot).snapshots.getD k ⟨0, []⟩).conflicts := by
        rw [conflictInsertions_slots_eq hfind, getD_set_self hj]
        show id ∈ (((st.slots.getD j defaultSlot).snapshots.map
          (snapConflictPush id2 bd.lookup)).getD k ⟨0, []⟩).conflicts
        rw [getD_map_of_lt (snapConflictPush id2 bd.lookup) ⟨0, []⟩ ⟨0, []⟩ hk]
        unfold snapConflictPush
        rw [if_pos hmatch, hii]
        exact List.mem_cons_self _ _
      have ht1 : TrackedP id bd p rid (conflictInsertions st j id2) :=
        conflictInsertions_trackedP st j id2 ⟨hp1, rc1, hC4⟩
      have hw1 := (conflictInsertions_wfx j id2 hw).1
      have hpos1 : 0 < refTotal (conflictInsertions st j id2) id :=
        refTotal_pos_of_slot (refsInSlot_pos_of_conflict hwitC)
      have ht2 := decRefRun_trackedP hw1 hposx (fun _ => hpos1) ht1
      obtain ⟨hw2, _⟩ := decRefRun_wfx hw1 hposx
      rw [hfun] at hw2
      have hwitD : id ∈ (((dropPrimaryNode st j id2).slots.getD j
          defaultSlot).snapshots.getD k ⟨0, []⟩).conflicts := by
        show id ∈ (((decRefRun (conflictInsertions st j id2) id2).slots.getD j
          defaultSlot).snapshots.getD k ⟨0, []⟩).conflicts
        rw [decRefRun_slots]
        exact hwitC
      have hpos2 : 0 < refTotal (dropPrimaryNode st j id2) id :=
        refTotal_pos_of_slot (refsInSlot_pos_of_conflict hwitD)
      rw [processPrimaryChain]
      exact ⟨processPrimaryChain_trackedP j rest (dropPrimaryNode st j id2) extra
          hw2 hpos2 ht2,
        processPrimaryChain_conflict_mem j j k id rest (dropPrimaryNode st j id2) hwitD⟩
    · have htail : id ∈ rest := by
        rcases List.mem_cons.1 hmem with h1 | h1
        · exact absurd h1.symm hii
        · exact h1
      have ht1 : TrackedP id bd p rid (conflictInsertions st j id2) :=
        conflictInsertions_trackedP st j id2 ht
      have hw1 := (conflictInsertions_wfx j id2 hw).1
      have ht2 := decRefRun_trackedP hw1 hposx (fun hh => absurd hh hii) ht1
      obtain ⟨hw2, _⟩ := decRefRun_wfx hw1 hposx
      rw [hfun] at hw2
      have hptr2 : (((dropPrimaryNode st j id2).slots.getD j
          defaultSlot).snapshots.getD k ⟨0, []⟩).ptr = q := by
        show (((decRefRun (conflictInsertions st j id2) id2).slots.getD j
          defaultSlot).snapshots.getD k ⟨0, []⟩).ptr = q
        rw [decRefRun_slots, conflictInsertions_ptr]
        exact hptr
      rw [processPrimaryChain]
      exact ih (dropPrimaryNode st j id2) extra hw2 ht2 hptr2 htail

/-- `end_critical_section` hands a batch that is still protected by one of the
slot's own snapshot entries from the primary (pending-conflicts) list over to
that entry's conflict list. -/
theorem detachPrimary_handoff (st : RState) (j k : Nat) {id : BatchId} {bd : Batch}
    {p : Ptr} {rid : Nat} (q : Ptr) (hq0 : q ≠ 0) (hql : q ∈ bd.lookup)
    {extra : BatchId → Nat} (hw : wfx st extra)
    (ht : TrackedP id bd p rid st)
    (hptr : ((st.slots.getD j defaultSlot).snapshots.getD k ⟨0, []⟩).ptr = q)
    (hmem : id ∈ (st.slots.getD j defaultSlot).primaryList) :
    TrackedP id bd p rid (detachPrimary st j) ∧
    id ∈ (((detachPrimary st j).slots.getD j defaultSlot).snapshots.getD k
      ⟨0, []⟩).conflicts := by
  obtain ⟨hnd, hcnt, hmemw⟩ := hw
  have hwfx1 : wfx { st with slots := st.slots.set j (clearPrimarySlot st j) }
      (fun id2 => extra id2 + (st.slots.getD j defaultSlot).primaryList.count id2) := by
    refine ⟨hnd, ?_, ?_⟩
    · intro e he
      have hc := hcnt e he
      refine ⟨?_, hc.2⟩
      have hr := refTotal_clearPrimary st j e.1
      beta_reduce
      omega
    · intro id2 hpos
      have hr := refTotal_clearPrimary st j id2
      beta_reduce at hpos
      apply hmemw
      omega
  have ht1 : TrackedP id bd p rid
      { st with slots := st.slots.set j (clearPrimarySlot st j) } :=
    trackedP_set_slot rfl ht
  have hptr1 : (((st.slots.set j (clearPrimarySlot st j)).getD j
      defaultSlot).snapshots.getD k ⟨0, []⟩).ptr = q := by
    have hse : ((st.slots.set j (clearPrimarySlot st j)).getD j defaultSlot).snapshots =
        (st.slots.getD j defaultSlot).snapshots := snapshots_getD_set rfl
    rw [hse]
    exact hptr
  have heq : detachPrimary st j = processPrimaryChain
      { st with slots := st.slots.set j (clearPrimarySlot st j) } j
      (st.slots.getD j defaultSlot).primaryList := rfl
  rw [heq]
  exact processPrimaryChain_handoff j k q hq0 hql
    (st.slots.getD j defaultSlot).primaryList _ extra hwfx1 ht1 hptr1 hmem

/-- Invariant carried while snapshot entry `k` of slot `j` keeps observing a
pointer `q` of the batch: either the batch still sits on slot `j`'s primary
(pending-conflicts) list and the entry still observes `q` — the situation
before the slot's `end_critical_section` hands the reference over — or the
batch already sits on the entry's conflict list. -/
def KeepC (j k : Nat) (q : Ptr) (id : BatchId) (bd : Batch) (p : Ptr) (rid : Nat)
    (st : RState) : Prop :=
  RInv st ∧ TrackedP id bd p rid st ∧
  ((id ∈ (st.slots.getD j defaultSlot).primaryList ∧
      ((st.slots.getD j defaultSlot).snapshots.getD k ⟨0, []⟩).ptr = q) ∨
    id ∈ ((st.slots.getD j defaultSlot).snapshots.getD k ⟨0, []⟩).conflicts)

theorem keepC_step {j k : Nat} {q : Ptr} {id : BatchId} {bd : Batch} {p : Ptr}
    {rid : Nat} {st : RState} (l : RLabel) (hq0 : q ≠ 0) (hql : q ∈ bd.lookup)
    (hK : KeepC j k q id bd p rid st)
    (hne : l ≠ .releaseStep j k) (hnr : ∀ i2 p2, l ≠ .retireStep i2 p2 rid) :
    KeepC j k q id bd p rid (rstep st l) := by
  obtain ⟨hinv, ht, hdisj⟩ := hK
  rcases hdisj with ⟨hprim, hptr⟩ | hconf
  · by_cases hlj : l = RLabel.endCS j
    · subst hlj
      obtain ⟨hwf, hfr⟩ := hinv
      have hw1 : wfx (flagClearedState st j) (fun _ => 0) :=
        flagClearedState_wfx st j hwf
      have ht1 : TrackedP id bd p rid (flagClearedState st j) :=
        trackedP_set_slot rfl ht
      have hptr1 : (((flagClearedState st j).slots.getD j defaultSlot).snapshots.getD k
          ⟨0, []⟩).ptr = q := by
        show (((st.slots.set j (flagClearedSlot st j)).getD j
          defaultSlot).snapshots.getD k ⟨0, []⟩).ptr = q
        have hse : ((st.slots.set j (flagClearedSlot st j)).getD j
            defaultSlot).snapshots = (st.slots.getD j defaultSlot).snapshots :=
          snapshots_getD_set rfl
        rw [hse]
        exact hptr
      have hmem1 : id ∈ ((flagClearedState st j).slots.getD j
          defaultSlot).primaryList := by
        show id ∈ ((st.slots.set j (flagClearedSlot st j)).getD j
          defaultSlot).primaryList
        have hpe : ((st.slots.set j (flagClearedSlot st j)).getD j
            defaultSlot).primaryList = (st.slots.getD j defaultSlot).primaryList :=
          primary_getD_set rfl
        rw [hpe]
        exact hprim
      have hh := detachPrimary_handoff (flagClearedState st j) j k q hq0 hql hw1 ht1
        hptr1 hmem1
      refine ⟨rstep_inv st (RLabel.endCS j) ⟨hwf, hfr⟩, ?_, Or.inr ?_⟩
      · show TrackedP id bd p rid (endCriticalSection st j)
        rw [endCriticalSection_eq]
        exact hh.1
      · show id ∈ (((endCriticalSection st j).slots.getD j defaultSlot).snapshots.getD k
          ⟨0, []⟩).conflicts
        rw [endCriticalSection_eq]
        exact hh.2
    · have hKA : KeepA j id bd p rid st := ⟨hinv, ht, hprim⟩
      have hKA2 := keepA_step l hKA hlj hnr
      refine ⟨hKA2.1, hKA2.2.1, Or.inl ⟨hKA2.2.2, ?_⟩⟩
      cases l with
      | beginCS i =>
        show (((beginCriticalSection st i).slots.getD j defaultSlot).snapshots.getD k
          ⟨0, []⟩).ptr = q
        rw [beginCS_ptr]
        exact hptr
      | endCS i =>
        show (((endCriticalSection st i).slots.getD j defaultSlot).snapshots.getD k
          ⟨0, []⟩).ptr = q
        rw [endCS_ptr]
        exact hptr
      | retireStep i p2 rid2 =>
        show (((retire st i p2 rid2).slots.getD j defaultSlot).snapshots.getD k
          ⟨0, []⟩).ptr = q
        rw [retire_ptr]
        exact hptr
      | protectStep i p2 =>
        show (((protectPtr st i p2).slots.getD j defaultSlot).snapshots.getD k
          ⟨0, []⟩).ptr = q
        rw [protectPtr_ptr_nonzero st i p2 j k (by rw [hptr]; exact hq0)]
        exact hptr
      | releaseStep i2 k2 =>
        have hnejk : ¬(i2 = j ∧ k2 = k) := by
          rintro ⟨h1, h2⟩
          exact hne (by rw [h1, h2])
        show (((releaseSnapshot st i2 k2).slots.getD j defaultSlot).snapshots.getD k
          ⟨0, []⟩).ptr = q
        rw [releaseSnapshot_ptr_ne st i2 k2 j k hnejk]
        exact hptr
  · have hKB : KeepB j k id bd p rid st := ⟨hinv, ht, hconf⟩
    have hKB2 := keepB_step l hKB hne hnr
    exact ⟨hKB2.1, hKB2.2.1, Or.inr hKB2.2.2⟩

theorem keepC_run {j k : Nat} {q : Ptr} {id : BatchId} {bd : Batch} {p : Ptr}
    {rid : Nat} (hq0 : q ≠ 0) (hql : q ∈ bd.lookup) :
    ∀ (ls : List RLabel) (st : RState), KeepC j k q id bd p rid st →
    (∀ l ∈ ls, l ≠ .releaseStep j k) → (∀ l ∈ ls, ∀ i2 p2, l ≠ .retireStep i2 p2 rid) →
    KeepC j k q id bd p rid (runLabels st ls) := by
  intro ls
  induction ls with
  | nil =>
    intro st h _ _
    exact h
  | cons l rest ih =>
    intro st h h1 h2
    rw [runLabels]
    exact ih (rstep st l)
      (keepC_step l hq0 hql h (h1 l (List.mem_cons_self _ _))
        (h2 l (List.mem_cons_self _ _)))
      (fun l2 hl2 => h1 l2 (List.mem_cons_of_mem _ hl2))
      (fun l2 hl2 => h2 l2 (List.mem_cons_of_mem _ hl2))

/-- At retirement time, a snapshot entry observing a pointer of the batch
yields the `KeepC` invariant whatever the state of its slot's
critical-section flag: a slot inside a critical section receives the batch on
its primary list (with the entry still observing the pointer), any other slot
receives the conflict reference immediately. -/
theorem retire_keepC_start (st : RState) (i : Nat) (p : Ptr) (rid : Nat) (j k : Nat)
    (q : Ptr) (hinv : RInv st)
    (hge : ¬ (pushedBatch st i p rid).functions.length < (pushedBatch st i p rid).cap)
    (hj : j < st.slots.length)
    (hev0 : (p, rid) ∉ st.events)
    (hbat0 : ∀ j2, (p, rid) ∉ (st.slots.getD j2 defaultSlot).batch.functions)
    (hpub0 : ∀ e ∈ st.published, (p, rid) ∉ e.2.1.functions)
    (hqe : ((st.slots.getD j defaultSlot).snapshots.getD k ⟨0, []⟩).ptr = q)
    (hq0 : q ≠ 0)
    (hql : q ∈ (pushedBatch st i p rid).lookup) :
    KeepC j k q st.nextId (pushedBatch st i p rid) p rid (retire st i p rid) := by
  by_cases hcs : (st.slots.getD j defaultSlot).isInCriticalSection = true
  · have hKA := retire_keepA_start st i p rid j hinv hge hj hev0 hbat0 hpub0 hcs
    refine ⟨hKA.1, hKA.2.1, Or.inl ⟨hKA.2.2, ?_⟩⟩
    rw [retire_ptr]
    exact hqe
  · have hcsf : (st.slots.getD j defaultSlot).isInCriticalSection = false := by
      revert hcs
      cases (st.slots.getD j defaultSlot).isInCriticalSection <;> simp
    have hKB := retire_keepB_start st i p rid j k q hinv hge hj hev0 hbat0 hpub0
      hcsf hqe hq0 hql
    exact ⟨hKB.1, hKB.2.1, Or.inr hKB.2.2⟩

/-- C2: a retirement closure handed to the reclaimer runs exactly once, and
only after every protected region that was active at the moment of the
retirement has ended.  `retire st i p rid` is the retiring call that fills
and publishes the batch (with fresh id `st.nextId`), and `ls` is an
arbitrary interleaving of subsequent reclaimer operations by any threads,
none re-using the retirement tag `rid`.  (1) While a slot `j` that was
inside its critical section at retirement time has not executed
`end_critical_section`, the batch stays alive and the closure `(p, rid)` has
not run — and a reclaimer drop at any such point does run it.  (2) The same
holds while a snapshot entry that observed a pointer of the batch at
retirement time has not been released, whatever the state of its slot's
critical-section flag at retirement: if the slot was inside a critical
section, the `check_on_drop` re-scan performed when it later leaves hands the
batch reference over to the still-observing entry.  (3) Once the batch is
gone — its
drop being the unique event that runs its closures — it never becomes live
again, so the closure cannot run a second time. -/
theorem c2_retirement_runs_once_after_protection
    (st : RState) (i : Nat) (p : Ptr) (rid : Nat) (j : Nat) (ls : List RLabel)
    (hinv : RInv st)
    (hge : ¬ (pushedBatch st i p rid).functions.length < (pushedBatch st i p rid).cap)
    (hj : j < st.slots.length)
    (hev0 : (p, rid) ∉ st.events)
    (hbat0 : ∀ j2, (p, rid) ∉ (st.slots.getD j2 defaultSlot).batch.functions)
    (hpub0 : ∀ e ∈ st.published, (p, rid) ∉ e.2.1.functions)
    (hnr : ∀ l ∈ ls, ∀ i2 p2, l ≠ RLabel.retireStep i2 p2 rid) :
    ((st.slots.getD j defaultSlot).isInCriticalSection = true →
      (∀ l ∈ ls, l ≠ RLabel.endCS j) →
      st.nextId ∈ pubIds (runLabels (retire st i p rid) ls) ∧
      (p, rid) ∉ (runLabels (retire st i p rid) ls).events ∧
      (p, rid) ∈ (reclaimerDrop (runLabels (retire st i p rid) ls)).events) ∧
    (∀ k q, ((st.slots.getD j defaultSlot).snapshots.getD k ⟨0, []⟩).ptr = q → q ≠ 0 →
      q ∈ (pushedBatch st i p rid).lookup →
      (∀ l ∈ ls, l ≠ RLabel.releaseStep j k) →
      st.nextId ∈ pubIds (runLabels (retire st i p rid) ls) ∧
      (p, rid) ∉ (runLabels (retire st i p rid) ls).events ∧
      (p, rid) ∈ (reclaimerDrop (runLabels (retire st i p rid) ls)).events) ∧
    (∀ ls2 ls3, st.nextId ∉ pubIds (runLabels (retire st i p rid) ls2) →
      st.nextId ∉ pubIds (runLabels (runLabels (retire st i p rid) ls2) ls3)) := by
  refine ⟨?_, ?_, ?_⟩
  · intro hcs hnoend
    have hK0 := retire_keepA_start st i p rid j hinv hge hj hev0 hbat0 hpub0 hcs
    have hKf := keepA_run ls (retire st i p rid) hK0 hnoend hnr
    obtain ⟨⟨hwfF, hfrF⟩, ⟨⟨hevF, hbatF, hpubF⟩, rcF, hC4F⟩, hwitF⟩ := hKf
    have hposF : 0 < refTotal (runLabels (retire st i p rid) ls) st.nextId :=
      refTotal_pos_of_slot (refsInSlot_pos_of_primary hwitF)
    have harg : 0 < refTotal (runLabels (retire st i p rid) ls) st.nextId + 0 := by
      omega
    refine ⟨hwfF.2.2 st.nextId harg, hevF, ?_⟩
    have hfn : (p, rid) ∈ (pushedBatch st i p rid).functions := by
      show (p, rid) ∈ (st.slots.getD i defaultSlot).batch.functions ++ [(p, rid)]
      exact List.mem_append.2 (Or.inr (List.mem_singleton.2 rfl))
    have hpend : PendingIn (p, rid) (runLabels (retire st i p rid) ls) :=
      Or.inr ⟨(st.nextId, pushedBatch st i p rid, rcF), hC4F, hfn⟩
    exact drop_executes_pending hwfF (p, rid) hpend
  · intro k q hqe hq0 hql hnorel
    have hK0 := retire_keepC_start st i p rid j k q hinv hge hj hev0 hbat0 hpub0
      hqe hq0 hql
    have hKf := keepC_run hq0 hql ls (retire st i p rid) hK0 hnorel hnr
    obtain ⟨⟨hwfF, hfrF⟩, ⟨⟨hevF, hbatF, hpubF⟩, rcF, hC4F⟩, hdisjF⟩ := hKf
    have hposF : 0 < refTotal (runLabels (retire st i p rid) ls) st.nextId := by
      rcases hdisjF with ⟨hwitF, _⟩ | hwitF
      · exact refTotal_pos_of_slot (refsInSlot_pos_of_primary hwitF)
      · exact refTotal_pos_of_slot (refsInSlot_pos_of_conflict hwitF)
    have harg : 0 < refTotal (runLabels (retire st i p rid) ls) st.nextId + 0 := by
      omega
    refine ⟨hwfF.2.2 st.nextId harg, hevF, ?_⟩
    have hfn : (p, rid) ∈ (pushedBatch st i p rid).functions := by
      show (p, rid) ∈ (st.slots.getD i defaultSlot).batch.functions ++ [(p, rid)]
      exact List.mem_append.2 (Or.inr (List.mem_singleton.2 rfl))
    have hpend : PendingIn (p, rid) (runLabels (retire st i p rid) ls) :=
      Or.inr ⟨(st.nextId, pushedBatch st i p rid, rcF), hC4F, hfn⟩
    exact drop_executes_pending hwfF (p, rid) hpend
  · intro ls2 ls3 hdead
    have hn1 : st.nextId < (retire st i p rid).nextId := by
      rw [retire_eq_publish st i p rid hge]
      rw [(decRefRun_misc _ _).1, nextId_publishToSlots]
      exact Nat.lt_succ_self _
    have hn2 : st.nextId < (runLabels (retire st i p rid) ls2).nextId :=
      Nat.lt_of_lt_of_le hn1 (nextId_run_mono ls2 (retire st i p rid))
    exact (dead_stays_dead ls3 (runLabels (retire st i p rid) ls2) hn2 hdead).2

/-- A one-slot machine state whose slot is inside a critical section and
whose local batch (capacity 1) fills on the next retirement. -/
def w2Slot : Slot := { defaultSlot with isInCriticalSection := true, batch := ⟨[], [], 1⟩ }

def w2State : RState := ⟨[w2Slot], 1, [], 0, []⟩

theorem w2_inv : RInv w2State := by
  refine ⟨⟨List.nodup_nil, ?_, ?_⟩, ?_⟩
  · intro e he
    exact absurd he (List.not_mem_nil e)
  · intro id hpos
    have h0 : refTotal w2State id = 0 := rfl
    rw [h0] at hpos
    simp at hpos
  · intro id hm
    exact absurd hm (List.not_mem_nil id)

theorem w2_bat0 : ∀ j2, (5, 9) ∉ (w2State.slots.getD j2 defaultSlot).batch.functions := by
  intro j2
  cases j2 with
  | zero => exact List.not_mem_nil _
  | succ n =>
    rw [getD_oob (show w2State.slots.length ≤ n + 1 by
      show 1 ≤ n + 1
      omega)]
    exact List.not_mem_nil _

theorem c2_retirement_runs_once_after_protection_witness :
    RInv w2State ∧
    (¬ (pushedBatch w2State 0 5 9).functions.length < (pushedBatch w2State 0 5 9).cap) ∧
    0 < w2State.slots.length ∧
    (w2State.slots.getD 0 defaultSlot).isInCriticalSection = true ∧
    (((w2State.slots.getD 0 defaultSlot).isInCriticalSection = true →
      (∀ l ∈ ([] : List RLabel), l ≠ RLabel.endCS 0) →
      w2State.nextId ∈ pubIds (runLabels (retire w2State 0 5 9) []) ∧
      (5, 9) ∉ (runLabels (retire w2State 0 5 9) []).events ∧
      (5, 9) ∈ (reclaimerDrop (runLabels (retire w2State 0 5 9) [])).events) ∧
    (∀ k q, ((w2State.slots.getD 0 defaultSlot).snapshots.getD k ⟨0, []⟩).ptr = q →
      q ≠ 0 →
      q ∈ (pushedBatch w2State 0 5 9).lookup →
      (∀ l ∈ ([] : List RLabel), l ≠ RLabel.releaseStep 0 k) →
      w2State.nextId ∈ pubIds (runLabels (retire w2State 0 5 9) []) ∧
      (5, 9) ∉ (runLabels (retire w2State 0 5 9) []).events ∧
      (5, 9) ∈ (reclaimerDrop (runLabels (retire w2State 0 5 9) [])).events) ∧
    (∀ ls2 ls3, w2State.nextId ∉ pubIds (runLabels (retire w2State 0 5 9) ls2) →
      w2State.nextId ∉ pubIds (runLabels (runLabels (retire w2State 0 5 9) ls2) ls3))) :=
  ⟨w2_inv, by decide, by decide, rfl,
    c2_retirement_runs_once_after_protection w2State 0 5 9 0 [] w2_inv (by decide)
      (by decide) (by decide) w2_bat0 (fun e he => absurd he (List.not_mem_nil e))
      (fun l hl => absurd hl (List.not_mem_nil l))⟩

end StdReclaimer

/-!
## TLS-teardown fallback (src/statics.rs)

`statics::retire::<T, IS_STRONG>` either hands the pointer and its deferred
drop to the reclaimer context, or — when `SLOT_HANDLE.try_with` fails because
the thread-local key is being destroyed — drops the `Arc`/`Weak` synchronously
on the spot.
-/

namespace Statics

/-- `DeferredFn { ptr, f }` where `f` drops an `Arc` (strong) or a `Weak`. -/
structure DeferredFn where
  ptr : Nat
  isStrong : Bool
deriving DecidableEq

/-- What one call to `statics::retire` does with the pointer. -/
inductive RetireAction
  | handToContext (slot : Nat) (d : DeferredFn)
  | syncDrop (isStrong : Bool) (ptr : Nat)
deriving DecidableEq

/-- `statics::retire::<T, IS_STRONG>(ptr)`.  `slotRes` is the result of
`get_slot()`: `some slot` normally, `none` when the TLS key is already being
destroyed (`thread::AccessError`). -/
def staticsRetire (slotRes : Option Nat) (isStrong : Bool) (p : Nat) : RetireAction :=
  match slotRes with
  | some slot => .handToContext slot ⟨p, isStrong⟩
  | none => .syncDrop isStrong p

/-- The pointer an action operates on. -/
def actionPtr : RetireAction → Nat
  | .handToContext _ d => d.ptr
  | .syncDrop _ q => q

/-- Whether the action's drop operation is the strong (`Arc`) one. -/
def actionStrong : RetireAction → Bool
  | .handToContext _ d => d.isStrong
  | .syncDrop s _ => s

/-- C9: when `retire` runs on a thread whose TLS slot storage is torn down
(the TLS access fails), the drop operation for the pointer executes
synchronously at that point; in every other case the pair is handed to the
reclaimer context for deferred execution.  Either way the retirement is not
lost: the action carries exactly the pointer and its drop flavor. -/
theorem c9_retire_tls_teardown (b : Bool) (p : Nat) :
    staticsRetire none b p = .syncDrop b p ∧
    (∀ s, staticsRetire (some s) b p = .handToContext s ⟨p, b⟩) ∧
    (∀ r, actionPtr (staticsRetire r b p) = p ∧
      actionStrong (staticsRetire r b p) = b) := by
  refine ⟨rfl, fun s => rfl, fun r => ?_⟩
  cases r <;> exact ⟨rfl, rfl⟩

end Statics

end Aarc
